import Mathlib

/-! StreamFX box blur: factory, variants and shared shader data.

Shallow embedding of `source/gfx/blur/gfx-blur-box.cpp` and of the constants of
`source/util/utility.hpp` it uses, followed by the properties proved about them.

* `double_t` values are IEEE-754 binary64 values: NaN, the two infinities and the finite
  values, the latter carried as rationals. Arithmetic on members (`set_angle`, `get_angle`)
  rounds to nearest, ties to even, like the hardware does.
* Objects that live behind `std::shared_ptr` and `std::weak_ptr` are kept in an explicit
  `world`: an object is named by the number of its allocation, and the use count of every
  `box_data` object is a field of the world.
* Calls into the graphics subsystem are recorded, in order, as a list of `gs_call`; the
  `float` expressions passed to them are recorded as written (`fexpr`), unevaluated.
-/

/-! ## IEEE-754 binary64 -/

/-- Values of the C type `double_t`, which is `double` (binary64) on the targets the plugin
is built for. A finite value is carried as the rational it denotes; the two zeros are
identified, since they compare equal and nothing in this file divides by a member. -/
inductive double_t
  | nan
  | ninf
  | pinf
  | fin (q : ℚ)
  deriving DecidableEq, Repr

/-- Binary logarithm of a natural number, rounded down, by halving at most `fuel` times. -/
def log2_fuel : ℕ → ℕ → ℕ
  | 0, _ => 0
  | fuel + 1, n => if n < 2 then 0 else log2_fuel fuel (n / 2) + 1

/-- Binary logarithm of a natural number, rounded down (0 at 0). -/
def nlog2 (n : ℕ) : ℕ := log2_fuel n n

/-- Position of the leading bit of a nonzero rational: the `e` with `2 ^ e ≤ |q| < 2 ^ (e + 1)`. -/
def ilog2 (q : ℚ) : ℤ :=
  let e0 : ℤ := (nlog2 q.num.natAbs : ℤ) - (nlog2 q.den : ℤ)
  if (2 : ℚ) ^ e0 ≤ |q| then e0 else e0 - 1

/-- Nearest integer, ties to the even one. -/
def rne (x : ℚ) : ℤ :=
  let f := ⌊x⌋
  if x - f < 1 / 2 then f
  else if 1 / 2 < x - f then f + 1
  else if f % 2 = 0 then f else f + 1

/-- Rounding of an exact result to binary64: 53 significant bits, least exponent -1022
(below it the spacing stays `2 ^ (-1074)`: subnormals), overflow to an infinity from
`2 ^ 1024` on. -/
def round64 (q : ℚ) : double_t :=
  let e := max (ilog2 q) (-1022)
  let r : ℚ := (rne (q / 2 ^ (e - 52)) : ℚ) * 2 ^ (e - 52)
  if (2 : ℚ) ^ (1024 : ℤ) ≤ |r| then (if q < 0 then .ninf else .pinf) else .fin r

namespace double_t

/-- The `double` a decimal literal of the source denotes. -/
def lit (q : ℚ) : double_t := round64 q

/-- The comparison `a < b` of C++ on doubles: false as soon as one side is NaN. -/
def lt : double_t → double_t → Bool
  | nan, _ => false
  | _, nan => false
  | ninf, ninf => false
  | ninf, _ => true
  | _, ninf => false
  | pinf, _ => false
  | fin _, pinf => true
  | fin a, fin b => decide (a < b)

/-- The comparison `a > b` of C++ on doubles. -/
def gt (a b : double_t) : Bool := lt b a

/-- The comparison `a <= b` of C++ on doubles: false as soon as one side is NaN. -/
def le : double_t → double_t → Bool
  | nan, _ => false
  | _, nan => false
  | ninf, _ => true
  | _, pinf => true
  | pinf, _ => false
  | fin _, ninf => false
  | fin a, fin b => decide (a ≤ b)

/-- The product `a * b` of C++ on doubles. -/
def mul : double_t → double_t → double_t
  | nan, _ => nan
  | _, nan => nan
  | fin a, fin b => round64 (a * b)
  | fin a, pinf => if a = 0 then nan else if a < 0 then ninf else pinf
  | fin a, ninf => if a = 0 then nan else if a < 0 then pinf else ninf
  | pinf, fin b => if b = 0 then nan else if b < 0 then ninf else pinf
  | ninf, fin b => if b = 0 then nan else if b < 0 then pinf else ninf
  | pinf, pinf => pinf
  | pinf, ninf => ninf
  | ninf, pinf => ninf
  | ninf, ninf => pinf

/-- Membership in the closed interval `[lo, hi]`; NaN is in no interval. -/
def within (x lo hi : double_t) : Prop := le lo x = true ∧ le x hi = true

instance (x lo hi : double_t) : Decidable (within x lo hi) := by
  unfold within
  exact inferInstance

end double_t

/-! ## Constants of `utility.hpp` and of `gfx-blur-box.cpp` -/

/-- The macro `S_RAD`: 180/pi. -/
def S_RAD : double_t := double_t.lit (57295779513082320876798154814105 / 10 ^ 30)

/-- The macro `S_DEG`: pi/180. -/
def S_DEG : double_t := double_t.lit (1745329251994329576923690768489 / 10 ^ 32)

/-- The macro `D_DEG_TO_RAD(x)`: `(x * S_DEG)`. -/
def D_DEG_TO_RAD (x : double_t) : double_t := double_t.mul x S_DEG

/-- The macro `D_RAD_TO_DEG(x)`: `(x * S_RAD)`. -/
def D_RAD_TO_DEG (x : double_t) : double_t := double_t.mul x S_RAD

/-- The macro `ST_MAX_BLUR_SIZE`. -/
def ST_MAX_BLUR_SIZE : ℤ := 128

namespace streamfx

namespace gfx.blur

/-- Modelled from the spec: the declaration of `::streamfx::gfx::blur::type` is in
`gfx-blur-base.hpp`, which is not part of the sources at hand. The spec names the four
kinds; an `enum class` object can hold further values of its underlying type, which is what
the `default:` branches of the factory handle, and `other` stands for those. -/
inductive type
  | Area
  | Directional
  | Rotational
  | Zoom
  | other (raw : ℕ)
  deriving DecidableEq, Repr

end gfx.blur

/-! ## Objects of the graphics layer (`obs/gs`) -/

namespace obs.gs

/-- Modelled from the spec: `streamfx::obs::gs::effect` (in `obs/gs/gs-effect.hpp`, not
part of the sources at hand) is a handle to a compiled shader program; a null handle is an
absent one, `Option.none`. The handle is named by the number of the `box_data` object whose
constructor compiled it. -/
structure effect where
  object : ℕ
  deriving DecidableEq, Repr

/-- Modelled from the spec: `streamfx::obs::gs::texture` (not part of the sources at hand):
an image on the GPU, given by the object that holds it and by the number of times that
object has been drawn into. -/
structure texture where
  object : ℕ
  version : ℕ
  deriving DecidableEq, Repr

/-- Modelled from the spec: `streamfx::obs::gs::rendertarget` (not part of the sources at
hand): an off-screen surface a variant owns exclusively. `passes` counts the passes that
were begun on it. -/
structure rendertarget where
  object : ℕ
  passes : ℕ
  deriving DecidableEq, Repr

/-- The image a render target currently holds: `rendertarget::get_texture()`. -/
def rendertarget.get_texture (rt : rendertarget) : texture :=
  { object := rt.object, version := rt.passes }

/-- The state of a render target after `rendertarget::render(width, height)` began a pass
on it. -/
def rendertarget.render (rt : rendertarget) : rendertarget :=
  { rt with passes := rt.passes + 1 }

end obs.gs

namespace gfx.blur

open obs.gs

/-- The class `box_data`: the shared owner of the compiled effect. -/
structure box_data where
  _effect : Option effect
  deriving DecidableEq, Repr

/-- The class `box_factory`: its member `_data` is a `std::weak_ptr` to the shared
`box_data`, empty (`none`) or referring to the control block of an object that may have
expired since. -/
structure box_factory where
  _data : Option ℕ
  deriving DecidableEq, Repr

/-- The process-wide state the blur code works on. -/
structure world where
  /-- Whether `streamfx::obs::gs::effect::create` on `effects/blur/box.effect` succeeds
  when called now (it throws otherwise). -/
  effect_file_ok : Bool
  /-- Number of `box_data` objects constructed so far; they are named `0 .. created - 1`. -/
  created : ℕ
  /-- Use count (`std::shared_ptr` owners) of every `box_data` object; 0 for an object that
  was destroyed or not yet constructed. -/
  use_count : ℕ → ℕ
  /-- The `box_data` objects. -/
  objects : ℕ → box_data
  /-- The singleton `box_factory::get()`. -/
  factory : box_factory
  /-- Number of render targets constructed so far. -/
  targets : ℕ

/-- The worlds in which every `box_data` object that has an owner is the one the weak
pointer of the factory refers to. The world at process start is such a world, and
`box::box()` and `box::~box()` keep worlds so. -/
def world.wellformed (w : world) : Prop :=
  ∀ p, 0 < w.use_count p → w.factory._data = some p

/-- The world at process start. -/
def world.start (effect_file_ok : Bool) : world :=
  { effect_file_ok := effect_file_ok
    created := 0
    use_count := fun _ => 0
    objects := fun _ => { _effect := none }
    factory := { _data := none }
    targets := 0 }

/-- The constructor `box_data::box_data()`, for the object number `self`: `_effect` is what
`effect::create(file)` returns; when that throws, the exception is caught and logged, and
`_effect` stays null. -/
def box_data.new (w : world) (self : ℕ) : box_data :=
  if w.effect_file_ok then { _effect := some { object := self } } else { _effect := none }

/-- The method `box_data::get_effect()`. -/
def box_data.get_effect (d : box_data) : Option effect := d._effect

namespace box_factory

/-- The function `is_type_supported`. -/
def is_type_supported : type → Bool
  | .Area => true
  | .Directional => true
  | .Rotational => true
  | .Zoom => true
  | _ => false

/-- The function `get_min_size`. -/
def get_min_size (_ : type) : double_t := .fin 1

/-- The function `get_step_size`. -/
def get_step_size (_ : type) : double_t := .fin 1

/-- The function `get_max_size`. -/
def get_max_size (_ : type) : double_t := .fin ST_MAX_BLUR_SIZE

/-- The function `get_min_angle`. -/
def get_min_angle : type → double_t
  | .Directional => .fin (-180)
  | .Rotational => .fin (-180)
  | _ => .fin 0

/-- The function `get_step_angle`. -/
def get_step_angle (_ : type) : double_t := double_t.lit (1 / 100)

/-- The function `get_max_angle`. -/
def get_max_angle : type → double_t
  | .Directional => .fin 180
  | .Rotational => .fin 180
  | _ => .fin 0

/-- The function `is_step_scale_supported`. -/
def is_step_scale_supported : type → Bool
  | .Area => true
  | .Zoom => true
  | .Directional => true
  | _ => false

/-- The function `get_min_step_scale_x`. -/
def get_min_step_scale_x (_ : type) : double_t := double_t.lit (1 / 100)

/-- The function `get_step_step_scale_x`. -/
def get_step_step_scale_x (_ : type) : double_t := double_t.lit (1 / 100)

/-- The function `get_max_step_scale_x`. -/
def get_max_step_scale_x (_ : type) : double_t := .fin 1000

/-- The function `get_min_step_scale_y`. -/
def get_min_step_scale_y (_ : type) : double_t := double_t.lit (1 / 100)

/-- The function `get_step_step_scale_y`. -/
def get_step_step_scale_y (_ : type) : double_t := double_t.lit (1 / 100)

/-- The function `get_max_step_scale_y`. -/
def get_max_step_scale_y (_ : type) : double_t := .fin 1000

/-- The call `_data.lock()` on the factory's weak pointer: the object it refers to when
that object still has an owner, null otherwise. -/
def lock (w : world) : Option ℕ :=
  match w.factory._data with
  | some p => if 0 < w.use_count p then some p else none
  | none => none

/-- The function `data()`: the shared `box_data`, constructed when the weak pointer yields
none. The pointer returned is one more owner of the object. -/
def data (w : world) : ℕ × world :=
  match lock w with
  | some p => (p, { w with use_count := Function.update w.use_count p (w.use_count p + 1) })
  | none =>
    let p := w.created
    (p, { w with
            created := w.created + 1
            use_count := Function.update w.use_count p 1
            objects := Function.update w.objects p (box_data.new w p)
            factory := { _data := some p } })

end box_factory

/-! ## Calls into the graphics subsystem -/

/-- The arithmetic expressions `render()` evaluates for the shader parameters and for the
size of a pass, kept as the source writes them: the operators act on `float` or `double`
operands by the usual arithmetic conversions. -/
inductive fexpr
  /-- A `float` literal such as `1.f`. -/
  | lit_f (q : ℚ)
  /-- A `double` literal such as `1.`. -/
  | lit_d (q : ℚ)
  /-- The value of a `double_t` member. -/
  | member (v : double_t)
  /-- The `uint32_t` that `get_width()` returns for a texture. -/
  | get_width (t : texture)
  /-- The `uint32_t` that `get_height()` returns for a texture. -/
  | get_height (t : texture)
  /-- The conversion `float_t(e)`. -/
  | float_t (e : fexpr)
  /-- The conversion `uint32_t(e)`. -/
  | uint32_t (e : fexpr)
  | div (a b : fexpr)
  | mul (a b : fexpr)
  | add (a b : fexpr)
  | cos (e : fexpr)
  | sin (e : fexpr)
  deriving DecidableEq, Repr

/-- The parameters of `box.effect` that `render()` binds. -/
inductive parameter
  | pImage
  | pImageTexel
  | pStepScale
  | pSize
  | pSizeInverseMul
  | pAngle
  | pCenter
  deriving DecidableEq, Repr

/-- The techniques of `box.effect` that `render()` draws with. -/
inductive technique
  | Draw
  | Rotate
  | Zoom
  deriving DecidableEq, Repr

/-- The constants of the graphics subsystem that `render()` passes. -/
inductive gs_constant
  | GS_NEITHER
  | GS_ALWAYS
  | GS_BLEND_ONE
  | GS_BLEND_ZERO
  | GS_STENCIL_BOTH
  | GS_ZERO
  deriving DecidableEq, Repr

/-- One call into the graphics subsystem, with its arguments. -/
inductive gs_call
  /-- Construction of the scoped `streamfx::obs::gs::context`. -/
  | context
  | gs_set_cull_mode (mode : gs_constant)
  | gs_enable_color (r g b a : Bool)
  | gs_enable_depth_test (enable : Bool)
  | gs_depth_function (test : gs_constant)
  | gs_blend_state_push
  | gs_reset_blend_state
  | gs_enable_blending (enable : Bool)
  | gs_blend_function (src dest : gs_constant)
  | gs_enable_stencil_test (enable : Bool)
  | gs_enable_stencil_write (enable : Bool)
  | gs_stencil_function (side test : gs_constant)
  | gs_stencil_op (side fail zfail zpass : gs_constant)
  /-- The call `effect.get_parameter(p).set_texture(t)`. -/
  | set_texture (e : effect) (p : parameter) (t : texture)
  /-- The call `effect.get_parameter(p).set_float2(x, y)`. -/
  | set_float2 (e : effect) (p : parameter) (x y : fexpr)
  /-- The call `effect.get_parameter(p).set_float(x)`. -/
  | set_float (e : effect) (p : parameter) (x : fexpr)
  /-- The call `target->render(width, height)`: a pass begins on the render target. -/
  | rendertarget_render (target : rendertarget) (width height : fexpr)
  | gs_ortho (left right top bottom near far : ℚ)
  /-- The loop `while (gs_effect_loop(effect.get_object(), t)) gs_draw_fullscreen_tri();`. -/
  | gs_effect_loop_draw_fullscreen_tri (e : effect) (t : technique)
  /-- End of the scope of the object `target->render(..)` returned: the pass ends. -/
  | rendertarget_render_end (target : rendertarget)
  | gs_blend_state_pop
  /-- End of the scope of the `streamfx::obs::gs::context`. -/
  | context_end
  deriving DecidableEq, Repr

/-! ## The variants -/

/-- The class `box`: the Area variant, and the base class of the three others. Its members
are those the member functions use; the declaration is in `gfx-blur-box.hpp`. A null
`_input_texture` is `none`; `_data` names the `box_data` object the variant co-owns. -/
structure box where
  _data : ℕ
  _size : double_t
  _step_scale : double_t × double_t
  _rendertarget : rendertarget
  _rendertarget2 : rendertarget
  _input_texture : Option texture
  deriving DecidableEq, Repr

/-- The class `box_directional`: a `box` with an angle, in radians. -/
structure box_directional where
  super : box
  _angle : double_t
  deriving DecidableEq, Repr

/-- The class `box_rotational`: a `box` with a center and an angle, in radians. -/
structure box_rotational where
  super : box
  _center : double_t × double_t
  _angle : double_t
  deriving DecidableEq, Repr

/-- The class `box_zoom`: a `box` with a center. -/
structure box_zoom where
  super : box
  _center : double_t × double_t
  deriving DecidableEq, Repr

/-- Values of the members that no constructor in `gfx-blur-box.cpp` initialises: the
constructors of `box_rotational` and `box_zoom` are not defined there, so what `_angle` and
`_center` hold at first is not fixed by the sources at hand. -/
structure indeterminate where
  _angle : double_t
  _center : double_t × double_t
  deriving DecidableEq, Repr

/-- The state calls with which `box::render()` starts. -/
def two_pass_state : List gs_call :=
  [ .context,
    .gs_set_cull_mode .GS_NEITHER,
    .gs_enable_color true true true true,
    .gs_enable_depth_test false,
    .gs_depth_function .GS_ALWAYS,
    .gs_blend_state_push,
    .gs_reset_blend_state,
    .gs_enable_blending false,
    .gs_blend_function .GS_BLEND_ONE .GS_BLEND_ZERO,
    .gs_enable_stencil_test false,
    .gs_enable_stencil_write false,
    .gs_stencil_function .GS_STENCIL_BOTH .GS_ALWAYS,
    .gs_stencil_op .GS_STENCIL_BOTH .GS_ZERO .GS_ZERO .GS_ZERO ]

namespace box

/-- The constructor `box::box()`: it takes a share of the `box_data` of the factory, sets
the size to 1 and the step scale to (1, 1), and makes two render targets, whose
construction (in `obs/gs/gs-rendertarget.cpp`) is taken to succeed. The input texture is a
null pointer at first. -/
def new (w : world) : box × world :=
  let (p, w1) := box_factory.data w
  ({ _data := p
     _size := .fin 1
     _step_scale := (.fin 1, .fin 1)
     _rendertarget := { object := w1.targets, passes := 0 }
     _rendertarget2 := { object := w1.targets + 1, passes := 0 }
     _input_texture := none },
   { w1 with targets := w1.targets + 2 })

/-- The destructor `box::~box()`: the members are destroyed, among them the share of the
`box_data`, whose use count drops by one; when the last share goes, `box_data::~box_data()`
runs and resets `_effect`. -/
def delete (b : box) (w : world) : world :=
  { w with
      use_count := Function.update w.use_count b._data (w.use_count b._data - 1)
      objects :=
        if w.use_count b._data = 1 then Function.update w.objects b._data { _effect := none }
        else w.objects }

/-- The method `set_input`. -/
def set_input (b : box) (texture : Option texture) : box :=
  { b with _input_texture := texture }

/-- The method `box::get_type`. -/
def get_type (_ : box) : type := .Area

/-- The method `get_size`. -/
def get_size (b : box) : double_t := b._size

/-- The method `set_size`: the two `if` statements act on the member in turn. -/
def set_size (b : box) (width : double_t) : box :=
  let b1 := { b with _size := width }
  let b2 := if double_t.lt b1._size (.fin 1) then { b1 with _size := .fin 1 } else b1
  if double_t.gt b2._size (.fin ST_MAX_BLUR_SIZE) then { b2 with _size := .fin ST_MAX_BLUR_SIZE }
  else b2

/-- The method `set_step_scale`. -/
def set_step_scale (b : box) (x y : double_t) : box :=
  { b with _step_scale := (x, y) }

/-- The method `get_step_scale`, whose two reference parameters are the result. -/
def get_step_scale (b : box) : double_t × double_t :=
  (b._step_scale.1, b._step_scale.2)

/-- The method `get_step_scale_x`. -/
def get_step_scale_x (b : box) : double_t := b._step_scale.1

/-- The method `get_step_scale_y`. -/
def get_step_scale_y (b : box) : double_t := b._step_scale.2

/-- The method `get`. -/
def get (b : box) : texture := b._rendertarget.get_texture

/-- The method `box::render()`: the calls it makes, the variant afterwards and the texture it
returns. Without an input texture the first statement after the context dereferences a null
pointer, and there is no result (`none`). The debug markers of `ENABLE_PROFILING` are left
out. -/
def render (w : world) (b : box) : Option (List gs_call × box × texture) :=
  match b._input_texture with
  | none => none
  | some input =>
    let width := fexpr.float_t (.get_width input)
    let height := fexpr.float_t (.get_height input)
    match (w.objects b._data).get_effect with
    | some effect =>
      let pass1 : List gs_call :=
        [ .set_texture effect .pImage input,
          .set_float2 effect .pImageTexel (.float_t (.div (.lit_f 1) width)) (.lit_f 0),
          .set_float2 effect .pStepScale (.float_t (.member b._step_scale.1))
            (.float_t (.member b._step_scale.2)),
          .set_float effect .pSize (.float_t (.member b._size)),
          .set_float effect .pSizeInverseMul
            (.float_t (.div (.lit_f 1)
              (.add (.mul (.float_t (.member b._size)) (.lit_f 2)) (.lit_f 1)))),
          .rendertarget_render b._rendertarget2 (.uint32_t width) (.uint32_t height),
          .gs_ortho 0 1 0 1 0 1,
          .gs_effect_loop_draw_fullscreen_tri effect .Draw,
          .rendertarget_render_end b._rendertarget2 ]
      let rendertarget2 := b._rendertarget2.render
      let pass2 : List gs_call :=
        [ .set_texture effect .pImage rendertarget2.get_texture,
          .set_float2 effect .pImageTexel (.lit_f 0) (.float_t (.div (.lit_f 1) height)),
          .rendertarget_render b._rendertarget (.uint32_t width) (.uint32_t height),
          .gs_ortho 0 1 0 1 0 1,
          .gs_effect_loop_draw_fullscreen_tri effect .Draw,
          .rendertarget_render_end b._rendertarget ]
      let rendertarget := b._rendertarget.render
      some (two_pass_state ++ pass1 ++ pass2 ++ [.gs_blend_state_pop, .context_end],
            { b with _rendertarget := rendertarget, _rendertarget2 := rendertarget2 },
            rendertarget.get_texture)
    | none =>
      some (two_pass_state ++ [.gs_blend_state_pop, .context_end], b,
            b._rendertarget.get_texture)

end box

/-- The state calls with which `render()` of the three one-pass variants starts. -/
def one_pass_state : List gs_call :=
  [ .context,
    .gs_blend_state_push,
    .gs_reset_blend_state,
    .gs_enable_color true true true true,
    .gs_enable_blending false,
    .gs_enable_depth_test false,
    .gs_enable_stencil_test false,
    .gs_enable_stencil_write false,
    .gs_set_cull_mode .GS_NEITHER,
    .gs_depth_function .GS_ALWAYS,
    .gs_blend_function .GS_BLEND_ONE .GS_BLEND_ZERO,
    .gs_stencil_function .GS_STENCIL_BOTH .GS_ALWAYS,
    .gs_stencil_op .GS_STENCIL_BOTH .GS_ZERO .GS_ZERO .GS_ZERO ]

namespace box_directional

/-- The constructor `box_directional::box_directional()`: the base, then `_angle(0)`. -/
def new (w : world) : box_directional × world :=
  let (b, w1) := box.new w
  ({ super := b, _angle := .fin 0 }, w1)

/-- The method `box_directional::get_type`. -/
def get_type (_ : box_directional) : type := .Directional

/-- The method `box_directional::get_angle`. -/
def get_angle (d : box_directional) : double_t := D_RAD_TO_DEG d._angle

/-- The method `box_directional::set_angle`. -/
def set_angle (d : box_directional) (angle : double_t) : box_directional :=
  { d with _angle := D_DEG_TO_RAD angle }

/-- The method `box_directional::render()`. -/
def render (w : world) (d : box_directional) :
    Option (List gs_call × box_directional × texture) :=
  let b := d.super
  match b._input_texture with
  | none => none
  | some input =>
    let width := fexpr.float_t (.get_width input)
    let height := fexpr.float_t (.get_height input)
    match (w.objects b._data).get_effect with
    | some effect =>
      let pass : List gs_call :=
        [ .set_texture effect .pImage input,
          .set_float2 effect .pImageTexel
            (.float_t (.mul (.div (.lit_d 1) width) (.cos (.member d._angle))))
            (.float_t (.mul (.div (.lit_f 1) height) (.sin (.member d._angle)))),
          .set_float2 effect .pStepScale (.float_t (.member b._step_scale.1))
            (.float_t (.member b._step_scale.2)),
          .set_float effect .pSize (.float_t (.member b._size)),
          .set_float effect .pSizeInverseMul
            (.float_t (.div (.lit_f 1)
              (.add (.mul (.float_t (.member b._size)) (.lit_f 2)) (.lit_f 1)))),
          .rendertarget_render b._rendertarget (.uint32_t width) (.uint32_t height),
          .gs_ortho 0 1 0 1 0 1,
          .gs_effect_loop_draw_fullscreen_tri effect .Draw,
          .rendertarget_render_end b._rendertarget ]
      let rendertarget := b._rendertarget.render
      some (one_pass_state ++ pass ++ [.gs_blend_state_pop, .context_end],
            { d with super := { b with _rendertarget := rendertarget } },
            rendertarget.get_texture)
    | none =>
      some (one_pass_state ++ [.gs_blend_state_pop, .context_end], d,
            b._rendertarget.get_texture)

end box_directional

namespace box_rotational

/-- The constructor of `box_rotational`: the base; `_center` and `_angle` hold what `u`
says. -/
def new (w : world) (u : indeterminate) : box_rotational × world :=
  let (b, w1) := box.new w
  ({ super := b, _center := u._center, _angle := u._angle }, w1)

/-- The method `box_rotational::get_type`. -/
def get_type (_ : box_rotational) : type := .Rotational

/-- The method `box_rotational::set_center`. -/
def set_center (r : box_rotational) (x y : double_t) : box_rotational :=
  { r with _center := (x, y) }

/-- The method `box_rotational::get_center`, whose two reference parameters are the
result. -/
def get_center (r : box_rotational) : double_t × double_t :=
  (r._center.1, r._center.2)

/-- The method `box_rotational::get_angle`. -/
def get_angle (r : box_rotational) : double_t := D_RAD_TO_DEG r._angle

/-- The method `box_rotational::set_angle`. -/
def set_angle (r : box_rotational) (angle : double_t) : box_rotational :=
  { r with _angle := D_DEG_TO_RAD angle }

/-- The method `box_rotational::render()`. -/
def render (w : world) (r : box_rotational) :
    Option (List gs_call × box_rotational × texture) :=
  let b := r.super
  match b._input_texture with
  | none => none
  | some input =>
    let width := fexpr.float_t (.get_width input)
    let height := fexpr.float_t (.get_height input)
    match (w.objects b._data).get_effect with
    | some effect =>
      let pass : List gs_call :=
        [ .set_texture effect .pImage input,
          .set_float2 effect .pImageTexel (.float_t (.div (.lit_f 1) width))
            (.float_t (.div (.lit_f 1) height)),
          .set_float2 effect .pStepScale (.float_t (.member b._step_scale.1))
            (.float_t (.member b._step_scale.2)),
          .set_float effect .pSize (.float_t (.member b._size)),
          .set_float effect .pSizeInverseMul
            (.float_t (.div (.lit_f 1)
              (.add (.mul (.float_t (.member b._size)) (.lit_f 2)) (.lit_f 1)))),
          .set_float effect .pAngle (.float_t (.div (.member r._angle) (.member b._size))),
          .set_float2 effect .pCenter (.float_t (.member r._center.1))
            (.float_t (.member r._center.2)),
          .rendertarget_render b._rendertarget (.uint32_t width) (.uint32_t height),
          .gs_ortho 0 1 0 1 0 1,
          .gs_effect_loop_draw_fullscreen_tri effect .Rotate,
          .rendertarget_render_end b._rendertarget ]
      let rendertarget := b._rendertarget.render
      some (one_pass_state ++ pass ++ [.gs_blend_state_pop, .context_end],
            { r with super := { b with _rendertarget := rendertarget } },
            rendertarget.get_texture)
    | none =>
      some (one_pass_state ++ [.gs_blend_state_pop, .context_end], r,
            b._rendertarget.get_texture)

end box_rotational

namespace box_zoom

/-- The constructor of `box_zoom`: the base; `_center` holds what `u` says. -/
def new (w : world) (u : indeterminate) : box_zoom × world :=
  let (b, w1) := box.new w
  ({ super := b, _center := u._center }, w1)

/-- The method `box_zoom::get_type`. -/
def get_type (_ : box_zoom) : type := .Zoom

/-- The method `box_zoom::set_center`. -/
def set_center (z : box_zoom) (x y : double_t) : box_zoom :=
  { z with _center := (x, y) }

/-- The method `box_zoom::get_center`, whose two reference parameters are the result. -/
def get_center (z : box_zoom) : double_t × double_t :=
  (z._center.1, z._center.2)

/-- The method `box_zoom::render()`. -/
def render (w : world) (z : box_zoom) : Option (List gs_call × box_zoom × texture) :=
  let b := z.super
  match b._input_texture with
  | none => none
  | some input =>
    let width := fexpr.float_t (.get_width input)
    let height := fexpr.float_t (.get_height input)
    match (w.objects b._data).get_effect with
    | some effect =>
      let pass : List gs_call :=
        [ .set_texture effect .pImage input,
          .set_float2 effect .pImageTexel (.float_t (.div (.lit_f 1) width))
            (.float_t (.div (.lit_f 1) height)),
          .set_float2 effect .pStepScale (.float_t (.member b._step_scale.1))
            (.float_t (.member b._step_scale.2)),
          .set_float effect .pSize (.float_t (.member b._size)),
          .set_float effect .pSizeInverseMul
            (.float_t (.div (.lit_f 1)
              (.add (.mul (.float_t (.member b._size)) (.lit_f 2)) (.lit_f 1)))),
          .set_float2 effect .pCenter (.float_t (.member z._center.1))
            (.float_t (.member z._center.2)),
          .rendertarget_render b._rendertarget (.uint32_t width) (.uint32_t height),
          .gs_ortho 0 1 0 1 0 1,
          .gs_effect_loop_draw_fullscreen_tri effect .Zoom,
          .rendertarget_render_end b._rendertarget ]
      let rendertarget := b._rendertarget.render
      some (one_pass_state ++ pass ++ [.gs_blend_state_pop, .context_end],
            { z with super := { b with _rendertarget := rendertarget } },
            rendertarget.get_texture)
    | none =>
      some (one_pass_state ++ [.gs_blend_state_pop, .context_end], z,
            b._rendertarget.get_texture)

end box_zoom

/-- An object behind a `std::shared_ptr<::streamfx::gfx::blur::base>`, by its dynamic
type. -/
inductive base
  | box (self : box)
  | box_directional (self : box_directional)
  | box_rotational (self : box_rotational)
  | box_zoom (self : box_zoom)
  deriving DecidableEq, Repr

/-- The conversion `std::static_pointer_cast<::streamfx::gfx::blur::box>` of a pointer to a
`box_directional`, then to a pointer to `base`: the same object behind a pointer of another
static type; its dynamic type, which virtual calls go by, stays `box_directional`. -/
def static_pointer_cast (d : box_directional) : base := .box_directional d

/-- What a C++ function throws. -/
inductive exception
  /-- A `std::runtime_error` with its message. -/
  | runtime_error (what : String)
  deriving DecidableEq, Repr

/-- The function `box_factory::create`: the variant made, or the exception thrown, and the
world afterwards. -/
def box_factory.create (t : type) (w : world) (u : indeterminate) :
    Except exception base × world :=
  match t with
  | .Area => let (b, w1) := box.new w; (.ok (.box b), w1)
  | .Directional => let (d, w1) := box_directional.new w; (.ok (static_pointer_cast d), w1)
  | .Rotational => let (r, w1) := box_rotational.new w u; (.ok (.box_rotational r), w1)
  | .Zoom => let (z, w1) := box_zoom.new w u; (.ok (.box_zoom z), w1)
  | _ => (.error (.runtime_error "Invalid type."), w)

namespace base

/-- The subobject of class `box` every variant has. -/
def to_box : base → blur.box
  | box b => b
  | box_directional d => d.super
  | box_rotational r => r.super
  | box_zoom z => z.super

/-- The variant with its `box` subobject replaced. -/
def with_box : base → blur.box → base
  | box _, b => box b
  | box_directional d, b => box_directional { d with super := b }
  | box_rotational r, b => box_rotational { r with super := b }
  | box_zoom z, b => box_zoom { z with super := b }

/-- The virtual method `get_type`. -/
def get_type : base → type
  | box b => b.get_type
  | box_directional d => d.get_type
  | box_rotational r => r.get_type
  | box_zoom z => z.get_type

/-- The method `get_size`, which no derived class overrides. -/
def get_size (v : base) : double_t := v.to_box.get_size

/-- The method `set_size`, which no derived class overrides. -/
def set_size (v : base) (width : double_t) : base := v.with_box (v.to_box.set_size width)

/-- The method `set_step_scale`, which no derived class overrides. -/
def set_step_scale (v : base) (x y : double_t) : base :=
  v.with_box (v.to_box.set_step_scale x y)

/-- The method `get_step_scale`, which no derived class overrides. -/
def get_step_scale (v : base) : double_t × double_t := v.to_box.get_step_scale

/-- The method `get_step_scale_x`, which no derived class overrides. -/
def get_step_scale_x (v : base) : double_t := v.to_box.get_step_scale_x

/-- The method `get_step_scale_y`, which no derived class overrides. -/
def get_step_scale_y (v : base) : double_t := v.to_box.get_step_scale_y

/-- The method `set_input`, which no derived class overrides. -/
def set_input (v : base) (texture : Option texture) : base :=
  v.with_box (v.to_box.set_input texture)

/-- The method `get`, which no derived class overrides. -/
def get (v : base) : texture := v.to_box.get

/-- The method `set_angle`, for the two classes that have it. -/
def set_angle : base → double_t → Option base
  | box_directional d, angle => some (box_directional (d.set_angle angle))
  | box_rotational r, angle => some (box_rotational (r.set_angle angle))
  | _, _ => none

/-- The method `get_angle`, for the two classes that have it. -/
def get_angle : base → Option double_t
  | box_directional d => some d.get_angle
  | box_rotational r => some r.get_angle
  | _ => none

/-- The method `set_center`, for the two classes that have it. -/
def set_center : base → double_t → double_t → Option base
  | box_rotational r, x, y => some (box_rotational (r.set_center x y))
  | box_zoom z, x, y => some (box_zoom (z.set_center x y))
  | _, _, _ => none

/-- The virtual method `render`. -/
def render (w : world) : base → Option (List gs_call × base × texture)
  | box b => (b.render w).map fun r => (r.1, box r.2.1, r.2.2)
  | box_directional d => (d.render w).map fun r => (r.1, box_directional r.2.1, r.2.2)
  | box_rotational r => (r.render w).map fun x => (x.1, box_rotational x.2.1, x.2.2)
  | box_zoom z => (z.render w).map fun r => (r.1, box_zoom r.2.1, r.2.2)

/-- Destruction of the variant when its last `std::shared_ptr` goes away. -/
def delete (v : base) (w : world) : world := v.to_box.delete w

end base

/-! ## Definitions the statements below use -/

/-- The clamp of the specification: `lo` below the interval, `hi` above it, the value
itself otherwise. -/
def clamp (r lo hi : double_t) : double_t :=
  if double_t.lt r lo then lo else if double_t.lt hi r then hi else r

/-- One use of a variant through its interface. -/
inductive call
  | set_size (width : double_t)
  | set_step_scale (x y : double_t)
  | set_angle (angle : double_t)
  | set_center (x y : double_t)
  | set_input (texture : Option texture)
  | render
  | get
  deriving DecidableEq, Repr

/-- The variant after one call, made in the world `w`; `none` when the class of the
variant lacks the method or when the call has no defined result. -/
def base.after (w : world) (v : base) : call → Option base
  | .set_size width => some (v.set_size width)
  | .set_step_scale x y => some (v.set_step_scale x y)
  | .set_angle angle => v.set_angle angle
  | .set_center x y => v.set_center x y
  | .set_input texture => some (v.set_input texture)
  | .render => (v.render w).map fun r => r.2.1
  | .get => some v

/-- The variant after a sequence of calls, each made in the world given with it. -/
def base.run (v : base) : List (world × call) → Option base
  | [] => some v
  | (w, c) :: rest =>
    match v.after w c with
    | some v1 => v1.run rest
    | none => none

/-- Whether a call binds a parameter of the effect. -/
def gs_call.binds_parameter : gs_call → Bool
  | .set_texture _ _ _ => true
  | .set_float2 _ _ _ _ => true
  | .set_float _ _ _ => true
  | _ => false

/-- Whether a call begins a pass on a render target. -/
def gs_call.begins_pass : gs_call → Bool
  | .rendertarget_render _ _ _ => true
  | _ => false

/-- Whether a call draws. -/
def gs_call.draws : gs_call → Bool
  | .gs_effect_loop_draw_fullscreen_tri _ _ => true
  | _ => false

end gfx.blur

end streamfx

/-! ## The graphics subsystem as a state machine -/

namespace streamfx.gfx.blur

open obs.gs

/-- The world after the effect file became loadable (`ok = true`) or stopped being so;
nothing else changes. -/
def world.set_effect_file_ok (w : world) (ok : Bool) : world :=
  { w with effect_file_ok := ok }

/-- The blend state of the graphics subsystem: whether blending is enabled, and the
blend function. -/
structure blend_state where
  enabled : Bool
  src : gs_constant
  dest : gs_constant
  deriving DecidableEq, Repr

/-- The value bound to a parameter of an effect. -/
inductive uniform
  | texture (t : texture)
  | float (x : fexpr)
  | float2 (x y : fexpr)
  deriving DecidableEq, Repr

/-- One execution of the loop that draws the full-screen triangle, with the state the
graphics subsystem was in: the pass in progress (render target, width, height), the values
bound to the parameters of the effect, and the blend state. -/
structure draw where
  effect : effect
  technique : technique
  target : Option (rendertarget × fexpr × fexpr)
  parameters : parameter → Option uniform
  blend : blend_state

/-- Modelled from the spec: the state of the graphics subsystem (libobs, not part of the
sources at hand) as far as the blur code acts on it: the blend state and the stack that
`gs_blend_state_push` and `gs_blend_state_pop` work on, what `gs_reset_blend_state`
installs, the values bound to the parameters of each effect, the pass in progress, and the
draws made so far, oldest first. -/
structure gs_state where
  blend : blend_state
  blend_stack : List blend_state
  blend_default : blend_state
  parameters : effect → parameter → Option uniform
  target : Option (rendertarget × fexpr × fexpr)
  drawn : List draw

namespace gs_state

/-- The state after a value was bound to a parameter of an effect. -/
def bind (g : gs_state) (e : effect) (p : parameter) (u : uniform) : gs_state :=
  { g with parameters := Function.update g.parameters e (Function.update (g.parameters e) p u) }

/-- The draw that the loop over the technique `t` of the effect `e` makes in the state
`g`. -/
def snapshot (g : gs_state) (e : effect) (t : technique) : draw :=
  { effect := e, technique := t, target := g.target, parameters := g.parameters e,
    blend := g.blend }

/-- The state after one call. Calls that act on the cull mode, the color mask, the depth
test, the stencil or the projection leave what is kept here as it is; a pop of an empty
stack does nothing. -/
def step (g : gs_state) : gs_call → gs_state
  | .gs_blend_state_push => { g with blend_stack := g.blend :: g.blend_stack }
  | .gs_blend_state_pop =>
    match g.blend_stack with
    | [] => g
    | top :: rest => { g with blend := top, blend_stack := rest }
  | .gs_reset_blend_state => { g with blend := g.blend_default }
  | .gs_enable_blending enable => { g with blend := { g.blend with enabled := enable } }
  | .gs_blend_function src dest => { g with blend := { g.blend with src := src, dest := dest } }
  | .set_texture e p t => g.bind e p (.texture t)
  | .set_float2 e p x y => g.bind e p (.float2 x y)
  | .set_float e p x => g.bind e p (.float x)
  | .rendertarget_render target width height => { g with target := some (target, width, height) }
  | .rendertarget_render_end _ => { g with target := none }
  | .gs_effect_loop_draw_fullscreen_tri e t => { g with drawn := g.drawn ++ [g.snapshot e t] }
  | _ => g

/-- The state after a sequence of calls. -/
def run (g : gs_state) (calls : List gs_call) : gs_state := calls.foldl step g

end gs_state

end streamfx.gfx.blur

namespace streamfx.gfx.blur

/-- Whether a call is `gs_blend_state_push`. -/
def gs_call.pushes_blend_state : gs_call → Bool
  | .gs_blend_state_push => true
  | _ => false

/-- Whether a call is `gs_blend_state_pop`. -/
def gs_call.pops_blend_state : gs_call → Bool
  | .gs_blend_state_pop => true
  | _ => false

end streamfx.gfx.blur

/-! ## IEEE-754 binary32 and the value of the `float` expressions -/

/-- Rounding of an exact result to binary32, the type `float_t` on the targets the plugin is
built for: 24 significant bits, least exponent -126 (below it the spacing stays
`2 ^ (-149)`), overflow to an infinity from `2 ^ 128` on. A `float` value is carried in
the type `double_t`, every `float` being a `double`. -/
def round32 (q : ℚ) : double_t :=
  let e := max (ilog2 q) (-126)
  let r : ℚ := (rne (q / 2 ^ (e - 23)) : ℚ) * 2 ^ (e - 23)
  if (2 : ℚ) ^ (128 : ℤ) ≤ |r| then (if q < 0 then .ninf else .pinf) else .fin r

namespace double_t

/-- The conversion of a `double` to `float`. -/
def to_float : double_t → double_t
  | fin q => round32 q
  | x => x

/-- The quotient `a / b` of C++ in the format that `rnd` rounds to. The result of a
division by zero depends on the sign of the zero, which is not kept here: it is left
without a value (`none`). -/
def div (rnd : ℚ → double_t) : double_t → double_t → Option double_t
  | nan, _ => some nan
  | _, nan => some nan
  | fin a, fin b => if b = 0 then none else some (rnd (a / b))
  | fin _, pinf => some (fin 0)
  | fin _, ninf => some (fin 0)
  | pinf, fin b => if b = 0 then none else if b < 0 then some ninf else some pinf
  | ninf, fin b => if b = 0 then none else if b < 0 then some pinf else some ninf
  | pinf, pinf => some nan
  | pinf, ninf => some nan
  | ninf, pinf => some nan
  | ninf, ninf => some nan

/-- The product `a * b` of C++ in the format that `rnd` rounds to. -/
def mul_in (rnd : ℚ → double_t) : double_t → double_t → double_t
  | nan, _ => nan
  | _, nan => nan
  | fin a, fin b => rnd (a * b)
  | fin a, pinf => if a = 0 then nan else if a < 0 then ninf else pinf
  | fin a, ninf => if a = 0 then nan else if a < 0 then pinf else ninf
  | pinf, fin b => if b = 0 then nan else if b < 0 then ninf else pinf
  | ninf, fin b => if b = 0 then nan else if b < 0 then pinf else ninf
  | pinf, pinf => pinf
  | pinf, ninf => ninf
  | ninf, pinf => ninf
  | ninf, ninf => pinf

/-- The sum `a + b` of C++ in the format that `rnd` rounds to. -/
def add_in (rnd : ℚ → double_t) : double_t → double_t → double_t
  | nan, _ => nan
  | _, nan => nan
  | fin a, fin b => rnd (a + b)
  | fin _, pinf => pinf
  | fin _, ninf => ninf
  | pinf, fin _ => pinf
  | ninf, fin _ => ninf
  | pinf, pinf => pinf
  | pinf, ninf => nan
  | ninf, pinf => nan
  | ninf, ninf => ninf

/-- The conversion of a floating value to `uint32_t`: the fraction is dropped; a value whose
integer part is not a `uint32_t` has no defined conversion (`none`). -/
def to_uint32 : double_t → Option ℕ
  | fin q => if -1 < q ∧ q < 2 ^ 32 then some ⌊q⌋.toNat else none
  | _ => none

end double_t

/-- A value of one of the three arithmetic types the expressions of `render()` have. -/
inductive cvalue
  | u32 (n : ℕ)
  | f32 (x : double_t)
  | f64 (x : double_t)
  deriving DecidableEq, Repr

namespace cvalue

/-- The conversion to `float`. -/
def to_f32 : cvalue → double_t
  | u32 n => round32 n
  | f32 x => x
  | f64 x => x.to_float

/-- The conversion to `double`, which is exact. -/
def to_f64 : cvalue → double_t
  | u32 n => .fin n
  | f32 x => x
  | f64 x => x

/-- The conversion to `uint32_t`. -/
def to_u32 : cvalue → Option ℕ
  | u32 n => some n
  | f32 x => x.to_uint32
  | f64 x => x.to_uint32

/-- A binary operator under the usual arithmetic conversions: in `double` when an operand
is a `double`, else in `float` when one is a `float`, else on `uint32_t`. -/
def binary (on_u32 : ℕ → ℕ → Option ℕ) (on_f : (ℚ → double_t) → double_t → double_t → Option double_t) :
    cvalue → cvalue → Option cvalue
  | u32 a, u32 b => (on_u32 a b).map u32
  | f64 a, b => (on_f round64 a b.to_f64).map f64
  | a, f64 b => (on_f round64 a.to_f64 b).map f64
  | f32 a, b => (on_f round32 a b.to_f32).map f32
  | a, f32 b => (on_f round32 a.to_f32 b).map f32

end cvalue

namespace streamfx.gfx.blur

open obs.gs

/-- What the expressions of `render()` read from outside the variant: the size of each
texture (what `get_width()` and `get_height()` return), and the functions `cos` and `sin`
of the C library on `double`. -/
structure environment where
  width : texture → ℕ
  height : texture → ℕ
  cos : double_t → double_t
  sin : double_t → double_t

/-- The value of an expression of `render()`, by the rules of C++ and IEEE-754 (round to
nearest, ties to even); `none` where the value is not defined or not kept here (a division
by zero, a conversion to `uint32_t` out of range). The argument of `cos` and `sin` is a
`double` in every use. -/
def fexpr.eval (env : environment) : fexpr → Option cvalue
  | .lit_f q => some (.f32 (round32 q))
  | .lit_d q => some (.f64 (round64 q))
  | .member v => some (.f64 v)
  | .get_width t => some (.u32 (env.width t))
  | .get_height t => some (.u32 (env.height t))
  | .float_t e => (e.eval env).map fun v => .f32 v.to_f32
  | .uint32_t e => (e.eval env).bind fun v => v.to_u32.map .u32
  | .div a b =>
    (a.eval env).bind fun x => (b.eval env).bind fun y =>
      cvalue.binary (fun m n => if n = 0 then none else some (m / n)) double_t.div x y
  | .mul a b =>
    (a.eval env).bind fun x => (b.eval env).bind fun y =>
      cvalue.binary (fun m n => some (m * n % 2 ^ 32))
        (fun rnd u v => some (double_t.mul_in rnd u v)) x y
  | .add a b =>
    (a.eval env).bind fun x => (b.eval env).bind fun y =>
      cvalue.binary (fun m n => some ((m + n) % 2 ^ 32))
        (fun rnd u v => some (double_t.add_in rnd u v)) x y
  | .cos e => (e.eval env).map fun v => .f64 (env.cos v.to_f64)
  | .sin e => (e.eval env).map fun v => .f64 (env.sin v.to_f64)

end streamfx.gfx.blur

/-! ## The integer helpers of `utility.hpp` -/

/-- A fixed-width integer type `T` of C++: `sizeof(T) * 8` and whether `T` is signed. -/
structure int_type where
  bits : ℕ
  signed : Bool
  deriving DecidableEq, Repr

namespace int_type

/-- The least value of the type. -/
def min (T : int_type) : ℤ := if T.signed then -(2 ^ (T.bits - 1)) else 0

/-- The greatest value of the type. -/
def max (T : int_type) : ℤ := if T.signed then 2 ^ (T.bits - 1) - 1 else 2 ^ T.bits - 1

/-- The values of the type. -/
def holds (T : int_type) (v : ℤ) : Prop := T.min ≤ v ∧ v ≤ T.max

instance (T : int_type) (v : ℤ) : Decidable (T.holds v) := by
  unfold holds
  exact inferInstance

/-- The value of the type that an exact result is reduced to, modulo `2 ^ bits` (two's
complement for a signed type). -/
def wrap (T : int_type) (x : ℤ) : ℤ :=
  if T.signed then (x + 2 ^ (T.bits - 1)) % 2 ^ T.bits - 2 ^ (T.bits - 1) else x % 2 ^ T.bits

end int_type

namespace streamfx.util.math

/-- The loop of `is_power_of_two_loop` from `index` on, with `left` iterations to go:
`cur` is the bit `index` of `v`, which is what `(v & (static_cast<T>(1ull) << index)) != 0`
tests. -/
def is_power_of_two_loop_from (v : ℤ) : ℕ → ℕ → Bool → Bool
  | 0, _, _ => true
  | left + 1, index, have_bit =>
    let cur : Bool := decide (v / 2 ^ index % 2 ≠ 0)
    if cur then
      if have_bit then false
      else is_power_of_two_loop_from v left (index + 1) true
    else is_power_of_two_loop_from v left (index + 1) have_bit

/-- The function `math::is_power_of_two_loop`: `have_bit` starts false, and the index runs
from 0 to `sizeof(T) * 8`. -/
def is_power_of_two_loop (T : int_type) (v : ℤ) : Bool :=
  is_power_of_two_loop_from v T.bits 0 false

/-- The loop of `math::pow`, run for at most `fuel` tests of `while (exp)`; `none` when the
loop has not ended by then. The products are reduced to the type `T`; `exp >>= 1` halves,
rounding down, and `exp & 1` is the lowest bit. -/
def pow_loop (T : int_type) : ℕ → ℤ → ℤ → ℤ → Option ℤ
  | 0, _, _, _ => none
  | fuel + 1, base, exp, res =>
    if exp = 0 then some res
    else
      pow_loop T fuel (T.wrap (base * base)) (exp / 2)
        (if exp % 2 ≠ 0 then T.wrap (res * base) else res)

/-- The function `math::pow`: `res` starts at 1. -/
def pow (T : int_type) (fuel : ℕ) (base exp : ℤ) : Option ℤ :=
  pow_loop T fuel base exp 1

end streamfx.util.math

namespace streamfx.gfx.blur

open obs.gs

/-- The expression a call binds to the parameter `p` with `set_float`, if it does. -/
def gs_call.float_bound (p : parameter) : gs_call → Option fexpr
  | .set_float _ p1 x => if p1 = p then some x else none
  | _ => none

/-- The expressions that one `render()` binds to `pSizeInverseMul`, in order; `none` when
`render()` has no result. -/
def base.inverse_mul (w : world) (v : base) : Option (List fexpr) :=
  (v.render w).map fun r => r.1.filterMap (gs_call.float_bound .pSizeInverseMul)

/-- An environment in which every texture has the given size, and in which `cos` and `sin`
are known at 0 only, where the C library returns 1 and 0; elsewhere they are left
unknown (NaN). -/
def environment.sample (width height : ℕ) : environment :=
  { width := fun _ => width
    height := fun _ => height
    cos := fun x => if x = .fin 0 then .fin 1 else .nan
    sin := fun x => if x = .fin 0 then .fin 0 else .nan }

end streamfx.gfx.blur

namespace streamfx.gfx.blur

open obs.gs

/-- The value a shader finds in a parameter: a texture, or one or two numbers. -/
inductive uniform_value
  | texture (t : texture)
  | float (x : cvalue)
  | float2 (x y : cvalue)
  deriving DecidableEq, Repr

/-- The value of what was bound to a parameter; `none` when an expression has none. -/
def uniform.eval (env : environment) : uniform → Option uniform_value
  | .texture t => some (.texture t)
  | .float x => (x.eval env).map .float
  | .float2 x y =>
    match x.eval env, y.eval env with
    | some a, some b => some (.float2 a b)
    | _, _ => none

/-- A state of the graphics subsystem in which nothing is bound, no pass is in progress and
nothing was drawn, with the blend state `b` and an empty blend stack. -/
def gs_state.idle (b : blend_state) : gs_state :=
  { blend := b
    blend_stack := []
    blend_default := b
    parameters := fun _ _ => none
    target := none
    drawn := [] }

end streamfx.gfx.blur

/-! ## Rounding to binary64 -/

theorem log2_fuel_spec : ∀ fuel n : ℕ, n ≤ fuel → 1 ≤ n →
    2 ^ log2_fuel fuel n ≤ n ∧ n < 2 ^ (log2_fuel fuel n + 1) := by
  intro fuel
  induction fuel with
  | zero => intro n h1 h2; omega
  | succ k ih =>
    intro n h1 h2
    unfold log2_fuel
    by_cases h : n < 2
    · simp only [h, if_true]
      omega
    · simp only [h, if_false]
      have h3 := ih (n / 2) (by omega) (by omega)
      rw [pow_succ, pow_succ]
      constructor
      · have := h3.1
        omega
      · have := h3.2
        rw [pow_succ] at this
        omega

theorem nlog2_spec (n : ℕ) (h : 1 ≤ n) : 2 ^ nlog2 n ≤ n ∧ n < 2 ^ (nlog2 n + 1) :=
  log2_fuel_spec n n le_rfl h

theorem abs_rne_sub_le (x : ℚ) : |(rne x : ℚ) - x| ≤ 1 / 2 := by
  have h1 : (⌊x⌋ : ℚ) ≤ x := Int.floor_le x
  have h2 : x < (⌊x⌋ : ℚ) + 1 := Int.lt_floor_add_one x
  unfold rne
  simp only
  split_ifs with a b c
  · rw [abs_le]; constructor <;> linarith
  · push_cast; rw [abs_le]; constructor <;> linarith
  · rw [abs_le]; constructor <;> linarith
  · push_cast; rw [abs_le]; constructor <;> linarith

theorem ilog2_le (q : ℚ) (hq : q ≠ 0) : (2 : ℚ) ^ ilog2 q ≤ |q| := by
  unfold ilog2
  simp only
  split_ifs with h
  · exact h
  · have hn : 1 ≤ q.num.natAbs := by
      have : q.num ≠ 0 := Rat.num_ne_zero.mpr hq
      omega
    have hd : 1 ≤ q.den := q.den_pos
    have h1 := (nlog2_spec _ hn).1
    have h2 := (nlog2_spec _ hd).2
    have hq' : |q| = (q.num.natAbs : ℚ) / (q.den : ℚ) := by
      rw [← Rat.num_div_den q, abs_div]
      simp [Rat.num_div_den, Nat.cast_natAbs]
    rw [hq']
    have h1' : ((2:ℚ) ^ nlog2 q.num.natAbs) ≤ (q.num.natAbs : ℚ) := by exact_mod_cast h1
    have h2' : (q.den : ℚ) < (2:ℚ) ^ (nlog2 q.den + 1) := by exact_mod_cast h2
    have hdpos : (0:ℚ) < q.den := by exact_mod_cast q.den_pos
    rw [le_div_iff₀ hdpos]
    have e : (2:ℚ) ^ ((nlog2 q.num.natAbs : ℤ) - (nlog2 q.den : ℤ) - 1)
        = (2:ℚ) ^ nlog2 q.num.natAbs / (2:ℚ) ^ (nlog2 q.den + 1) := by
      rw [show ((nlog2 q.num.natAbs : ℤ) - (nlog2 q.den : ℤ) - 1)
        = (nlog2 q.num.natAbs : ℤ) - ((nlog2 q.den + 1 : ℕ) : ℤ) by push_cast; ring]
      rw [zpow_sub₀ (by norm_num : (2:ℚ) ≠ 0), zpow_natCast, zpow_natCast]
    rw [e, div_mul_eq_mul_div, div_le_iff₀ (by positivity)]
    have hpos : (0:ℚ) ≤ (2:ℚ) ^ nlog2 q.num.natAbs := by positivity
    nlinarith

theorem round64_error (q : ℚ) (hq : |q| ≤ 2 ^ 1023 * (3 / 2)) :
    ∃ r : ℚ, round64 q = .fin r ∧ |r - q| ≤ |q| / 2 ^ 53 + 1 / 2 ^ 1075 := by
  by_cases h0 : q = 0
  · subst h0
    refine ⟨0, by decide!, ?_⟩
    rw [sub_self, abs_zero, zero_div, zero_add]
    positivity
  · have hu : (0 : ℚ) < 2 ^ (max (ilog2 q) (-1022) - 52) := by positivity
    have herr : |(rne (q / 2 ^ (max (ilog2 q) (-1022) - 52)) : ℚ) * 2 ^ (max (ilog2 q) (-1022) - 52) - q|
        ≤ 2 ^ (max (ilog2 q) (-1022) - 52) / 2 := by
      have h1 := abs_rne_sub_le (q / 2 ^ (max (ilog2 q) (-1022) - 52))
      have h2 : (rne (q / 2 ^ (max (ilog2 q) (-1022) - 52)) : ℚ) * 2 ^ (max (ilog2 q) (-1022) - 52) - q
          = ((rne (q / 2 ^ (max (ilog2 q) (-1022) - 52)) : ℚ) - q / 2 ^ (max (ilog2 q) (-1022) - 52))
            * 2 ^ (max (ilog2 q) (-1022) - 52) := by
        field_simp
      rw [h2, abs_mul, abs_of_pos hu]
      have := mul_le_mul_of_nonneg_right h1 hu.le
      linarith
    have hulp : (2 : ℚ) ^ (max (ilog2 q) (-1022) - 52) / 2 ≤ |q| / 2 ^ 53 + 1 / 2 ^ 1075 := by
      have hqpos : (0 : ℚ) ≤ |q| := abs_nonneg q
      rcases le_total (ilog2 q) (-1022) with hle | hle
      · rw [max_eq_right hle]
        have e : (2 : ℚ) ^ ((-1022 : ℤ) - 52) / 2 = 1 / 2 ^ 1075 := by
          have p : (2 : ℚ) ^ 1075 = 2 ^ 1074 * 2 := by rw [← pow_succ]
          rw [show ((-1022 : ℤ) - 52) = -((1074 : ℕ) : ℤ) by norm_num, zpow_neg, zpow_natCast, p]
          field_simp
        rw [e]
        have : (0 : ℚ) ≤ |q| / 2 ^ 53 := by positivity
        linarith
      · rw [max_eq_left hle]
        have e : (2 : ℚ) ^ (ilog2 q - 52) / 2 = 2 ^ ilog2 q / 2 ^ 53 := by
          have p : (2 : ℚ) ^ 53 = 2 ^ 52 * 2 := pow_succ 2 52
          rw [zpow_sub₀ (by norm_num : (2 : ℚ) ≠ 0), p]
          rw [show ((52 : ℤ)) = ((52 : ℕ) : ℤ) by norm_num, zpow_natCast]
          field_simp
        rw [e]
        have h3 := ilog2_le q h0
        have h4 : (2 : ℚ) ^ ilog2 q / 2 ^ 53 ≤ |q| / 2 ^ 53 := by
          apply div_le_div_of_nonneg_right h3
          positivity
        have : (0 : ℚ) ≤ 1 / 2 ^ 1075 := by positivity
        linarith
    have hbound := le_trans herr hulp
    refine ⟨(rne (q / 2 ^ (max (ilog2 q) (-1022) - 52)) : ℚ) * 2 ^ (max (ilog2 q) (-1022) - 52), ?_,
      hbound⟩
    unfold round64
    simp only
    rw [if_neg]
    rw [not_le]
    have h5 : |(rne (q / 2 ^ (max (ilog2 q) (-1022) - 52)) : ℚ) * 2 ^ (max (ilog2 q) (-1022) - 52)|
        ≤ |q| + (|q| / 2 ^ 53 + 1 / 2 ^ 1075) := by
      have := abs_sub_abs_le_abs_sub
        ((rne (q / 2 ^ (max (ilog2 q) (-1022) - 52)) : ℚ) * 2 ^ (max (ilog2 q) (-1022) - 52)) q
      linarith
    have h6 : |q| + (|q| / 2 ^ 53 + 1 / 2 ^ 1075) < (2 : ℚ) ^ (1024 : ℤ) := by
      rw [show ((1024 : ℤ)) = ((1024 : ℕ) : ℤ) by norm_num, zpow_natCast]
      have e1 : (2 : ℚ) ^ 1024 = 2 ^ 1023 * 2 := by rw [← pow_succ]
      have e2 : |q| / 2 ^ 53 ≤ |q| / 4 := by
        apply div_le_div_of_nonneg_left (abs_nonneg q) (by norm_num) (by norm_num)
      have e3 : (1 : ℚ) / 2 ^ 1075 ≤ 1 := by
        rw [div_le_one (by positivity)]
        exact one_le_pow₀ (by norm_num)
      have e4 : (8 : ℚ) ≤ 2 ^ 1023 := by
        have : (2 : ℚ) ^ 3 ≤ 2 ^ 1023 := pow_le_pow_right₀ (by norm_num) (by norm_num)
        linarith
      rw [e1]
      linarith
    exact lt_of_le_of_lt h5 h6

theorem S_DEG_value : S_DEG = .fin (5030569068109113 / 2 ^ 58) := by decide!

theorem S_RAD_value : S_RAD = .fin (1007958012753983 / 2 ^ 44) := by decide!

theorem deg_rad_round_trip (a : ℚ) (ha : |a| ≤ 2 ^ 1023) :
    ∃ x : ℚ, D_RAD_TO_DEG (D_DEG_TO_RAD (.fin a)) = .fin x ∧
      |x - a| ≤ |a| / 2 ^ 51 + 1 / 2 ^ 1069 := by
  have hA : (0 : ℚ) ≤ |a| := abs_nonneg a
  have hP : (8 : ℚ) ≤ 2 ^ 1023 := by
    have : (2 : ℚ) ^ 3 ≤ 2 ^ 1023 := pow_le_pow_right₀ (by norm_num) (by norm_num)
    linarith
  have hη : (1 : ℚ) / 2 ^ 1069 = 64 * (1 / 2 ^ 1075) := by
    have p : (2 : ℚ) ^ 1075 = 2 ^ 1069 * 2 ^ 6 := by rw [← pow_add]
    rw [p]
    field_simp
    norm_num
  have hη0 : (0 : ℚ) ≤ 1 / 2 ^ 1075 := by positivity
  have hη1 : (1 : ℚ) / 2 ^ 1075 ≤ 1 := by
    rw [div_le_one (by positivity)]
    exact one_le_pow₀ (by norm_num)
  -- first product
  have hx1 : |a * (5030569068109113 / 2 ^ 58)| = |a| * (5030569068109113 / 2 ^ 58) := by
    rw [abs_mul, abs_of_pos (by norm_num : (0 : ℚ) < 5030569068109113 / 2 ^ 58)]
  obtain ⟨r1, h1, e1⟩ := round64_error (a * (5030569068109113 / 2 ^ 58)) (by
    rw [hx1]
    have : |a| * (5030569068109113 / 2 ^ 58) ≤ |a| * 1 :=
      mul_le_mul_of_nonneg_left (by norm_num) hA
    linarith)
  rw [hx1] at e1
  have hr1 : |r1| ≤ |a| * (5030569068109113 / 2 ^ 58) + |r1 - a * (5030569068109113 / 2 ^ 58)| := by
    have := abs_sub_abs_le_abs_sub r1 (a * (5030569068109113 / 2 ^ 58))
    rw [hx1] at this
    linarith
  -- second product
  have hx2 : |r1 * (1007958012753983 / 2 ^ 44)| = |r1| * (1007958012753983 / 2 ^ 44) := by
    rw [abs_mul, abs_of_pos (by norm_num : (0 : ℚ) < 1007958012753983 / 2 ^ 44)]
  obtain ⟨r2, h2, e2⟩ := round64_error (r1 * (1007958012753983 / 2 ^ 44)) (by
    rw [hx2]
    linarith)
  rw [hx2] at e2
  refine ⟨r2, ?_, ?_⟩
  · rw [D_DEG_TO_RAD, D_RAD_TO_DEG, S_DEG_value, S_RAD_value]
    show double_t.mul (round64 (a * (5030569068109113 / 2 ^ 58))) _ = _
    rw [h1]
    show round64 (r1 * (1007958012753983 / 2 ^ 44)) = _
    exact h2
  · have split : r2 - a = (r2 - r1 * (1007958012753983 / 2 ^ 44))
        + (r1 - a * (5030569068109113 / 2 ^ 58)) * (1007958012753983 / 2 ^ 44)
        + a * (5030569068109113 / 2 ^ 58 * (1007958012753983 / 2 ^ 44) - 1) := by ring
    have t3 : |(r1 - a * (5030569068109113 / 2 ^ 58)) * (1007958012753983 / 2 ^ 44)|
        = |r1 - a * (5030569068109113 / 2 ^ 58)| * (1007958012753983 / 2 ^ 44) := by
      rw [abs_mul, abs_of_pos (by norm_num : (0 : ℚ) < 1007958012753983 / 2 ^ 44)]
    have t4 : |a * (5030569068109113 / 2 ^ 58 * (1007958012753983 / 2 ^ 44) - 1)|
        = |a| * (5030569068109113 / 2 ^ 58 * (1007958012753983 / 2 ^ 44) - 1) := by
      rw [abs_mul, abs_of_pos (by norm_num :
        (0 : ℚ) < 5030569068109113 / 2 ^ 58 * (1007958012753983 / 2 ^ 44) - 1)]
    have key : |r2 - a| ≤ |r2 - r1 * (1007958012753983 / 2 ^ 44)|
        + |r1 - a * (5030569068109113 / 2 ^ 58)| * (1007958012753983 / 2 ^ 44)
        + |a| * (5030569068109113 / 2 ^ 58 * (1007958012753983 / 2 ^ 44) - 1) := by
      rw [split]
      refine le_trans (abs_add _ _) ?_
      rw [t4]
      refine add_le_add_right ?_ _
      refine le_trans (abs_add _ _) ?_
      rw [t3]
    rw [hη]
    generalize (1 : ℚ) / 2 ^ 1075 = η at *
    generalize |r1 - a * (5030569068109113 / 2 ^ 58)| = d1 at *
    generalize |r2 - r1 * (1007958012753983 / 2 ^ 44)| = d2 at *
    generalize |r2 - a| = d at *
    generalize |r1| = m1 at *
    generalize |a| = A at *
    norm_num at e1 e2 hr1 key ⊢
    linarith

/-! ## The factory -/

namespace streamfx.gfx.blur

open obs.gs

/-- C1. For each of the four kinds Area, Directional, Rotational and Zoom,
`is_type_supported` is true and `create` returns a variant (it does not throw) whose
`get_type()` is the kind asked for, in every world and whatever the members without an
initialiser hold; the Directional variant, which goes through `static_pointer_cast`,
reports Directional. -/
theorem create_supported_kind_returns_that_kind (w : world) (u : indeterminate) :
    ∀ k ∈ [type.Area, type.Directional, type.Rotational, type.Zoom],
      box_factory.is_type_supported k = true ∧
      ∃ v : base, (box_factory.create k w u).1 = .ok v ∧ v.get_type = k := by
  intro k hk
  simp only [List.mem_cons, List.mem_singleton, List.not_mem_nil, or_false] at hk
  rcases hk with rfl | rfl | rfl | rfl
  · exact ⟨rfl, _, rfl, rfl⟩
  · exact ⟨rfl, _, rfl, rfl⟩
  · exact ⟨rfl, _, rfl, rfl⟩
  · exact ⟨rfl, _, rfl, rfl⟩

/-- Witness of C1: the Directional kind, at process start with the effect file in place. -/
theorem create_supported_kind_returns_that_kind_witness :
    box_factory.is_type_supported type.Directional = true ∧
      ∃ v : base,
        (box_factory.create type.Directional (world.start true)
          { _angle := .nan, _center := (.nan, .nan) }).1 = .ok v ∧
        v.get_type = type.Directional :=
  create_supported_kind_returns_that_kind (world.start true)
    { _angle := .nan, _center := (.nan, .nan) } type.Directional (by simp)

/-- C2. `create` throws exactly when `is_type_supported` is false, that is for a kind
value other than Area, Directional, Rotational and Zoom; what it throws is the
`std::runtime_error` with the message "Invalid type.", the world is then what it was (no
`box_data` acquired or compiled, no render target made, no variant), and for a supported
kind it returns a variant. -/
theorem create_throws_iff_unsupported (k : type) (w : world) (u : indeterminate) :
    ((box_factory.create k w u).1 = .error (.runtime_error "Invalid type.") ↔
        box_factory.is_type_supported k = false) ∧
      ((∃ e, (box_factory.create k w u).1 = .error e) ↔
        box_factory.is_type_supported k = false) ∧
      (box_factory.is_type_supported k = false ↔ ∃ raw, k = type.other raw) ∧
      (box_factory.is_type_supported k = false → (box_factory.create k w u).2 = w) ∧
      (box_factory.is_type_supported k = true →
        ∃ v : base, (box_factory.create k w u).1 = .ok v) := by
  cases k <;>
    simp [box_factory.create, box_factory.is_type_supported, box.new, box_directional.new,
      box_rotational.new, box_zoom.new]

/-- C6. `is_step_scale_supported` is true for Area, Directional and Zoom, and false for
Rotational and for every kind value outside the four. -/
theorem is_step_scale_supported_values :
    box_factory.is_step_scale_supported type.Area = true ∧
      box_factory.is_step_scale_supported type.Directional = true ∧
      box_factory.is_step_scale_supported type.Zoom = true ∧
      box_factory.is_step_scale_supported type.Rotational = false ∧
      ∀ raw, box_factory.is_step_scale_supported (type.other raw) = false :=
  ⟨rfl, rfl, rfl, rfl, fun _ => rfl⟩

end streamfx.gfx.blur

namespace streamfx.gfx.blur

open obs.gs

/-- C5, the claim as stated fails: for Area the step of the angle is the double 0.01,
so the three bounds are not (0, 0, 0). -/
theorem angle_bounds_of_area_are_not_all_zero :
    (box_factory.get_min_angle type.Area, box_factory.get_step_angle type.Area,
      box_factory.get_max_angle type.Area) ≠ (double_t.fin 0, double_t.fin 0, double_t.fin 0) := by
  decide!

/-- C5, amended. The angle bounds `(get_min_angle, get_step_angle, get_max_angle)` are
(-180, 0.01, 180) for Directional and Rotational and (0, 0.01, 0) for Area and Zoom:
`get_step_angle` ignores its argument and is the double 0.01, which is
5764607523034235 / 2 ^ 59, for every kind. -/
theorem angle_bounds_values :
    (box_factory.get_min_angle type.Directional, box_factory.get_step_angle type.Directional,
        box_factory.get_max_angle type.Directional)
        = (double_t.fin (-180), double_t.lit (1 / 100), double_t.fin 180) ∧
      (box_factory.get_min_angle type.Rotational, box_factory.get_step_angle type.Rotational,
        box_factory.get_max_angle type.Rotational)
        = (double_t.fin (-180), double_t.lit (1 / 100), double_t.fin 180) ∧
      (box_factory.get_min_angle type.Area, box_factory.get_step_angle type.Area,
        box_factory.get_max_angle type.Area)
        = (double_t.fin 0, double_t.lit (1 / 100), double_t.fin 0) ∧
      (box_factory.get_min_angle type.Zoom, box_factory.get_step_angle type.Zoom,
        box_factory.get_max_angle type.Zoom)
        = (double_t.fin 0, double_t.lit (1 / 100), double_t.fin 0) ∧
      (∀ k, box_factory.get_step_angle k = double_t.fin (5764607523034235 / 2 ^ 59)) := by
  refine ⟨rfl, rfl, rfl, rfl, fun k => ?_⟩
  show double_t.lit (1 / 100) = _
  decide!

/-! ## The members of a variant -/

theorem to_box_with_box (v : base) (b : box) : (v.with_box b).to_box = b := by
  cases v <;> rfl

theorem get_type_with_box (v : base) (b : box) : (v.with_box b).get_type = v.get_type := by
  cases v <;> rfl

theorem max_blur_size_cast : ((ST_MAX_BLUR_SIZE : ℤ) : ℚ) = 128 := by
  norm_num [ST_MAX_BLUR_SIZE]

theorem box_get_size_set_size (b : box) (r : double_t) :
    (b.set_size r).get_size = clamp r (.fin 1) (.fin 128) := by
  cases r with
  | nan => simp [box.set_size, clamp, box.get_size, double_t.lt, double_t.gt]
  | ninf => simp [box.set_size, clamp, box.get_size, double_t.lt, double_t.gt, max_blur_size_cast]
  | pinf => simp [box.set_size, clamp, box.get_size, double_t.lt, double_t.gt, max_blur_size_cast]
  | fin q =>
    simp only [box.set_size, clamp, box.get_size, double_t.lt, double_t.gt, max_blur_size_cast]
    by_cases h1 : q < 1
    · have h3 : ¬ (128 : ℚ) < 1 := by norm_num
      simp [h1, h3]
    · by_cases h2 : 128 < q <;> simp [h1, h2]

/-- C3. For every radius `r`, NaN and the infinities included, `get_size()` after
`set_size(r)` is `clamp(r, 1, 128)`: `r` itself when `1 <= r <= 128`, 1 when `r < 1` and 128
when `r > 128`. -/
theorem get_size_after_set_size_is_clamp (v : base) (r : double_t) :
    (v.set_size r).get_size = clamp r (.fin 1) (.fin 128) ∧
      (double_t.within r (.fin 1) (.fin 128) → (v.set_size r).get_size = r) ∧
      (double_t.lt r (.fin 1) = true → (v.set_size r).get_size = .fin 1) ∧
      (double_t.gt r (.fin 128) = true → (v.set_size r).get_size = .fin 128) := by
  have h : (v.set_size r).get_size = clamp r (.fin 1) (.fin 128) := by
    simp only [base.set_size, base.get_size, to_box_with_box, box_get_size_set_size]
  rw [h]
  refine ⟨rfl, ?_, ?_, ?_⟩
  · rintro ⟨h1, h2⟩
    cases r with
    | nan => simp [double_t.le] at h1
    | ninf => simp [double_t.le] at h1
    | pinf => simp [double_t.le] at h2
    | fin q =>
      simp only [double_t.le, decide_eq_true_eq] at h1 h2
      simp [clamp, double_t.lt, not_lt.mpr h1, not_lt.mpr h2]
  · intro h1
    simp [clamp, h1]
  · intro h1
    cases r <;> simp_all [clamp, double_t.lt, double_t.gt]
    linarith

end streamfx.gfx.blur

namespace streamfx.gfx.blur

open obs.gs

/-- C7. `set_step_scale` stores its two arguments as they are, whatever they are (values
outside [0.01, 1000], infinities and NaN included): afterwards `get_step_scale` yields
`(x, y)`, `get_step_scale_x()` is `x`, `get_step_scale_y()` is `y`, and the radius, like
the kind of the variant, is what it was. -/
theorem set_step_scale_stores_unclamped (v : base) (x y : double_t) :
    (v.set_step_scale x y).get_step_scale = (x, y) ∧
      (v.set_step_scale x y).get_step_scale_x = x ∧
      (v.set_step_scale x y).get_step_scale_y = y ∧
      (v.set_step_scale x y).get_size = v.get_size ∧
      (v.set_step_scale x y).get_type = v.get_type := by
  simp only [base.set_step_scale, base.get_step_scale, base.get_step_scale_x,
    base.get_step_scale_y, base.get_size, to_box_with_box, get_type_with_box]
  exact ⟨rfl, rfl, rfl, rfl, trivial⟩

theorem render_to_box_size (w : world) (v v1 : base) (c : List gs_call) (t : texture)
    (h : v.render w = some (c, v1, t)) : v1.get_size = v.get_size := by
  cases v with
  | box b =>
    simp only [base.render, box.render] at h
    cases hi : b._input_texture with
    | none => simp [hi] at h
    | some input =>
      cases he : (w.objects b._data).get_effect with
      | none =>
        simp [hi, he] at h
        rw [← h.2.1]
      | some e =>
        simp [hi, he] at h
        rw [← h.2.1]
        rfl
  | box_directional d =>
    simp only [base.render, box_directional.render] at h
    cases hi : d.super._input_texture with
    | none => simp [hi] at h
    | some input =>
      cases he : (w.objects d.super._data).get_effect with
      | none =>
        simp [hi, he] at h
        rw [← h.2.1]
      | some e =>
        simp [hi, he] at h
        rw [← h.2.1]
        rfl
  | box_rotational d =>
    simp only [base.render, box_rotational.render] at h
    cases hi : d.super._input_texture with
    | none => simp [hi] at h
    | some input =>
      cases he : (w.objects d.super._data).get_effect with
      | none =>
        simp [hi, he] at h
        rw [← h.2.1]
      | some e =>
        simp [hi, he] at h
        rw [← h.2.1]
        rfl
  | box_zoom d =>
    simp only [base.render, box_zoom.render] at h
    cases hi : d.super._input_texture with
    | none => simp [hi] at h
    | some input =>
      cases he : (w.objects d.super._data).get_effect with
      | none =>
        simp [hi, he] at h
        rw [← h.2.1]
      | some e =>
        simp [hi, he] at h
        rw [← h.2.1]
        rfl

/-- A call other than `set_size` leaves the radius as it is. -/
theorem after_keeps_size (w : world) (v v1 : base) (c : call)
    (hc : ∀ width, c ≠ call.set_size width) (h : v.after w c = some v1) :
    v1.get_size = v.get_size := by
  cases c with
  | set_size width => exact absurd rfl (hc width)
  | set_step_scale x y =>
    simp only [base.after, Option.some.injEq] at h
    rw [← h]
    simp [base.set_step_scale, base.get_size, to_box_with_box, box.set_step_scale, box.get_size]
  | set_angle angle =>
    cases v <;> simp [base.after, base.set_angle] at h <;> rw [← h] <;> rfl
  | set_center x y =>
    cases v <;> simp [base.after, base.set_center] at h <;> rw [← h] <;> rfl
  | set_input texture =>
    simp only [base.after, Option.some.injEq] at h
    rw [← h]
    simp [base.set_input, base.get_size, to_box_with_box, box.set_input, box.get_size]
  | render =>
    simp only [base.after, Option.map_eq_some'] at h
    obtain ⟨⟨c, v2, t⟩, h2, h3⟩ := h
    simp only at h3
    rw [← h3]
    exact render_to_box_size w v v2 c t h2
  | get =>
    simp only [base.after, Option.some.injEq] at h
    rw [← h]

/-- The clamp of a value that is not NaN lies in the interval. -/
theorem clamp_within (r : double_t) (hr : r ≠ .nan) :
    double_t.within (clamp r (.fin 1) (.fin 128)) (.fin 1) (.fin 128) := by
  cases r with
  | nan => exact absurd rfl hr
  | ninf => decide
  | pinf => decide
  | fin q =>
    simp only [clamp, double_t.lt]
    by_cases h1 : q < 1
    · simp only [h1, decide_True, if_true]
      decide
    · by_cases h2 : 128 < q
      · simp only [h1, h2, decide_True, decide_False, if_true]
        decide
      · have h3 : (if decide (q < 1) = true then double_t.fin 1
            else if decide (128 < q) = true then double_t.fin 128 else double_t.fin q)
            = double_t.fin q := by
          simp [h1, h2]
        rw [h3]
        simp only [double_t.within, double_t.le, decide_eq_true_eq]
        exact ⟨not_lt.mp h1, not_lt.mp h2⟩

end streamfx.gfx.blur

namespace streamfx.gfx.blur

open obs.gs

/-- One call that does not pass NaN to `set_size` keeps the radius in [1, 128]. -/
theorem after_keeps_within (w : world) (v v1 : base) (c : call)
    (hv : double_t.within v.get_size (.fin 1) (.fin 128))
    (hc : c ≠ call.set_size .nan) (h : v.after w c = some v1) :
    double_t.within v1.get_size (.fin 1) (.fin 128) := by
  by_cases hs : ∃ width, c = call.set_size width
  · obtain ⟨width, rfl⟩ := hs
    simp only [base.after, Option.some.injEq] at h
    rw [← h]
    simp only [base.set_size, base.get_size, to_box_with_box, box_get_size_set_size]
    exact clamp_within width (fun hw => hc (by rw [hw]))
  · rw [after_keeps_size w v v1 c (fun width hw => hs ⟨width, hw⟩) h]
    exact hv

/-- A sequence of calls none of which passes NaN to `set_size` keeps the radius in
[1, 128]. -/
theorem run_keeps_within (cs : List (world × call)) :
    ∀ v v1 : base, double_t.within v.get_size (.fin 1) (.fin 128) →
      (∀ wc ∈ cs, wc.2 ≠ call.set_size .nan) → v.run cs = some v1 →
      double_t.within v1.get_size (.fin 1) (.fin 128) := by
  induction cs with
  | nil =>
    intro v v1 hv _ h
    simp only [base.run, Option.some.injEq] at h
    rw [← h]
    exact hv
  | cons wc rest ih =>
    intro v v1 hv hcs h
    obtain ⟨w, c⟩ := wc
    simp only [base.run] at h
    cases ha : v.after w c with
    | none => simp [ha] at h
    | some v2 =>
      simp only [ha] at h
      have hc : c ≠ call.set_size .nan := hcs (w, c) (List.mem_cons_self _ _)
      exact ih v2 v1 (after_keeps_within w v v2 c hv hc ha)
        (fun x hx => hcs x (List.mem_cons_of_mem _ hx)) h

/-- A variant that `create` returns has radius 1. -/
theorem create_size (k : type) (w : world) (u : indeterminate) (v : base)
    (h : (box_factory.create k w u).1 = .ok v) : v.get_size = .fin 1 := by
  cases k <;> simp [box_factory.create] at h <;> rw [← h] <;> rfl

/-- C4, the claim as stated fails: `set_size` does not keep the radius in [1, 128] when it
is passed NaN. On the Area variant made at process start, whose radius is 1,
`set_size(NaN)` leaves NaN as the radius (both comparisons of `set_size` are false), which
is not within the bounds the factory gives. -/
theorem radius_after_set_size_nan_is_out_of_bounds :
    (box_factory.create type.Area (world.start true)
        { _angle := .nan, _center := (.nan, .nan) }).1
        = .ok (base.box (box.new (world.start true)).1) ∧
      double_t.within (base.box (box.new (world.start true)).1).get_size
        (box_factory.get_min_size type.Area) (box_factory.get_max_size type.Area) ∧
      (base.box (box.new (world.start true)).1).after (world.start true) (call.set_size .nan)
        = some ((base.box (box.new (world.start true)).1).set_size .nan) ∧
      ((base.box (box.new (world.start true)).1).set_size .nan).get_size = .nan ∧
      ¬ double_t.within ((base.box (box.new (world.start true)).1).set_size .nan).get_size
        (box_factory.get_min_size type.Area) (box_factory.get_max_size type.Area) := by
  refine ⟨rfl, by decide, rfl, rfl, by decide⟩

/-- C4, amended. The bounds the factory gives for the radius are [1, 128] for every kind.
A variant that `create` returns has radius 1, and after any sequence of calls (`set_size`,
`set_step_scale`, `set_angle`, `set_center`, `set_input`, `render`, `get`) in which
`set_size` is never passed NaN, the radius is within these bounds; a call other than
`set_size` leaves the radius as it is. -/
theorem radius_within_bounds_unless_nan (k : type) (w : world) (u : indeterminate)
    (v v1 : base) (cs : List (world × call))
    (hv : (box_factory.create k w u).1 = .ok v)
    (hcs : ∀ wc ∈ cs, wc.2 ≠ call.set_size .nan)
    (hrun : v.run cs = some v1) :
    box_factory.get_min_size k = .fin 1 ∧ box_factory.get_max_size k = .fin 128 ∧
      v.get_size = .fin 1 ∧
      double_t.within v.get_size (box_factory.get_min_size k) (box_factory.get_max_size k) ∧
      double_t.within v1.get_size (box_factory.get_min_size k) (box_factory.get_max_size k) ∧
      ∀ (w0 : world) (v0 v2 : base) (c : call), (∀ width, c ≠ call.set_size width) →
        v0.after w0 c = some v2 → v2.get_size = v0.get_size := by
  have hmin : box_factory.get_min_size k = .fin 1 := rfl
  have hmax : box_factory.get_max_size k = .fin 128 := by
    simp [box_factory.get_max_size, max_blur_size_cast]
  have h1 : v.get_size = .fin 1 := create_size k w u v hv
  have hw : double_t.within v.get_size (.fin 1) (.fin 128) := by
    rw [h1]
    decide
  rw [hmin, hmax]
  exact ⟨rfl, rfl, h1, hw, run_keeps_within cs v v1 hw hcs hrun,
    fun w0 v0 v2 c hc h => after_keeps_size w0 v0 v2 c hc h⟩

/-- Witness of C4, amended: the Area variant made at process start, after `set_size(200)`,
`set_step_scale(5, 5)` and `get`. -/
theorem radius_within_bounds_unless_nan_witness :
    double_t.within
      (((base.box (box.new (world.start true)).1).set_size (.fin 200)).set_step_scale
        (.fin 5) (.fin 5)).get_size
      (box_factory.get_min_size type.Area) (box_factory.get_max_size type.Area) :=
  (radius_within_bounds_unless_nan type.Area (world.start true)
    { _angle := .nan, _center := (.nan, .nan) }
    (base.box (box.new (world.start true)).1)
    (((base.box (box.new (world.start true)).1).set_size (.fin 200)).set_step_scale
      (.fin 5) (.fin 5))
    [(world.start true, call.set_size (.fin 200)),
     (world.start true, call.set_step_scale (.fin 5) (.fin 5)),
     (world.start true, call.get)]
    rfl (by simp) rfl).2.2.2.2.1

end streamfx.gfx.blur

namespace streamfx.gfx.blur

open obs.gs

/-- The double `S_DEG` is pi/180 up to 2 ^ (-61). -/
theorem S_DEG_close_to_pi_div_180 :
    |(((5030569068109113 / 2 ^ 58 : ℚ) : ℝ)) - Real.pi / 180| ≤ 1 / 2 ^ 61 := by
  have h1 := Real.pi_gt_d20
  have h2 := Real.pi_lt_d20
  rw [abs_le]
  push_cast
  constructor <;> norm_num at h1 h2 ⊢ <;> linarith

/-- C8, the claim as stated fails: after `set_angle(3)`, `get_angle()` is not 3. On the
Directional variant made at process start, `set_angle(3)` stores the double product
`3 * S_DEG`, which is 3772926801081835 / 2 ^ 56, and `get_angle()` returns the double product
of that with `S_RAD`, which is 6755399441055745 / 2 ^ 51 = 3 + 2 ^ (-51) (printed
3.0000000000000004). -/
theorem get_angle_after_set_angle_three_is_not_three :
    ((box_directional.new (world.start true)).1.set_angle (.fin 3))._angle
        = .fin (3772926801081835 / 2 ^ 56) ∧
      ((box_directional.new (world.start true)).1.set_angle (.fin 3)).get_angle
        = .fin (6755399441055745 / 2 ^ 51) ∧
      ((box_directional.new (world.start true)).1.set_angle (.fin 3)).get_angle ≠ .fin 3 := by
  decide!

/-- C8, amended. For the Directional and the Rotational variant, `set_angle(a)` stores the
double product `a * S_DEG`, and `get_angle()` returns the double product `_angle * S_RAD`,
where `S_DEG` is the double 5030569068109113 / 2 ^ 58, which is pi/180 up to 2 ^ (-61),
and `S_RAD` the double 1007958012753983 / 2 ^ 44. For every finite `a` of magnitude at most 2 ^ 1023, so for
every angle of [-180, 180], what `get_angle()` returns after `set_angle(a)` is finite and
differs from `a` by at most `|a| / 2 ^ 51 + 2 ^ (-1069)`. -/
theorem get_angle_after_set_angle_is_close (d : box_directional) (r : box_rotational) (a : ℚ)
    (ha : |a| ≤ 2 ^ 1023) :
    (d.set_angle (.fin a))._angle = double_t.mul (.fin a) S_DEG ∧
      (r.set_angle (.fin a))._angle = double_t.mul (.fin a) S_DEG ∧
      d.get_angle = double_t.mul d._angle S_RAD ∧
      r.get_angle = double_t.mul r._angle S_RAD ∧
      S_DEG = .fin (5030569068109113 / 2 ^ 58) ∧
      S_RAD = .fin (1007958012753983 / 2 ^ 44) ∧
      |(((5030569068109113 / 2 ^ 58 : ℚ) : ℝ)) - Real.pi / 180| ≤ 1 / 2 ^ 61 ∧
      ∃ x : ℚ, (d.set_angle (.fin a)).get_angle = .fin x ∧
        (r.set_angle (.fin a)).get_angle = .fin x ∧
        |x - a| ≤ |a| / 2 ^ 51 + 1 / 2 ^ 1069 := by
  obtain ⟨x, hx, hb⟩ := deg_rad_round_trip a ha
  exact ⟨rfl, rfl, rfl, rfl, S_DEG_value, S_RAD_value, S_DEG_close_to_pi_div_180, x, hx, hx,
    hb⟩

/-- Witness of C8, amended: the angle 3 on the variants made at process start. -/
theorem get_angle_after_set_angle_is_close_witness :
    ∃ x : ℚ,
      ((box_directional.new (world.start true)).1.set_angle (.fin 3)).get_angle = .fin x ∧
      ((box_rotational.new (world.start true)
          { _angle := .nan, _center := (.nan, .nan) }).1.set_angle (.fin 3)).get_angle = .fin x ∧
      |x - 3| ≤ |(3 : ℚ)| / 2 ^ 51 + 1 / 2 ^ 1069 :=
  (get_angle_after_set_angle_is_close (box_directional.new (world.start true)).1
    (box_rotational.new (world.start true) { _angle := .nan, _center := (.nan, .nan) }).1 3
    (by
      have h : (2 : ℚ) ^ 2 ≤ 2 ^ 1023 := pow_le_pow_right₀ (by norm_num) (by norm_num)
      rw [abs_of_pos (by norm_num : (0 : ℚ) < 3)]
      linarith)).2.2.2.2.2.2.2

end streamfx.gfx.blur

/-! ## Rendering without the effect -/

namespace streamfx.gfx.blur

open obs.gs

/-- C9. For every variant (all four classes) whose shared `box_data` has a null effect,
`render()` with an input texture bound, as `render()` requires, makes only state calls: none
binds a parameter, none begins a pass on a render target, none draws; the variant and its
render targets are what they were, and the texture returned is the one `get()` returned
before the call. (Without an input texture `render()` dereferences a null pointer before it
looks at the effect, and has no result.) -/
theorem render_with_null_effect_is_no_op (w : world) (v : base)
    (heff : (w.objects v.to_box._data).get_effect = none) :
    (∀ input : texture, v.to_box._input_texture = some input →
      ∃ calls : List gs_call, v.render w = some (calls, v, v.get) ∧
        ∀ c ∈ calls, c.binds_parameter = false ∧ c.begins_pass = false ∧ c.draws = false) ∧
      (v.to_box._input_texture = none → v.render w = none) := by
  cases v with
  | box b =>
    simp only [base.to_box] at heff ⊢
    refine ⟨fun input hin => ⟨two_pass_state ++ [.gs_blend_state_pop, .context_end], ?_, ?_⟩,
      fun hin => ?_⟩
    · simp only [base.render, box.render, hin, heff, Option.map_some']
      rfl
    · decide
    · simp only [base.render, box.render, hin, Option.map_none']
  | box_directional d =>
    simp only [base.to_box] at heff ⊢
    refine ⟨fun input hin => ⟨one_pass_state ++ [.gs_blend_state_pop, .context_end], ?_, ?_⟩,
      fun hin => ?_⟩
    · simp only [base.render, box_directional.render, hin, heff, Option.map_some']
      rfl
    · decide
    · simp only [base.render, box_directional.render, hin, Option.map_none']
  | box_rotational r =>
    simp only [base.to_box] at heff ⊢
    refine ⟨fun input hin => ⟨one_pass_state ++ [.gs_blend_state_pop, .context_end], ?_, ?_⟩,
      fun hin => ?_⟩
    · simp only [base.render, box_rotational.render, hin, heff, Option.map_some']
      rfl
    · decide
    · simp only [base.render, box_rotational.render, hin, Option.map_none']
  | box_zoom z =>
    simp only [base.to_box] at heff ⊢
    refine ⟨fun input hin => ⟨one_pass_state ++ [.gs_blend_state_pop, .context_end], ?_, ?_⟩,
      fun hin => ?_⟩
    · simp only [base.render, box_zoom.render, hin, heff, Option.map_some']
      rfl
    · decide
    · simp only [base.render, box_zoom.render, hin, Option.map_none']

/-- Witness of C9: the Area variant made at process start while the effect file cannot be
loaded, with a texture bound as input. -/
theorem render_with_null_effect_is_no_op_witness :
    ∃ calls : List gs_call,
      (base.box ((box.new (world.start false)).1.set_input
          (some { object := 100, version := 0 }))).render (box.new (world.start false)).2
        = some (calls,
            base.box ((box.new (world.start false)).1.set_input
              (some { object := 100, version := 0 })),
            (base.box ((box.new (world.start false)).1.set_input
              (some { object := 100, version := 0 }))).get) ∧
      ∀ c ∈ calls, c.binds_parameter = false ∧ c.begins_pass = false ∧ c.draws = false :=
  (render_with_null_effect_is_no_op (box.new (world.start false)).2
    (base.box ((box.new (world.start false)).1.set_input
      (some { object := 100, version := 0 }))) rfl).1 { object := 100, version := 0 } rfl

end streamfx.gfx.blur

/-! ## The shared `box_data` -/

namespace streamfx.gfx.blur

open obs.gs

theorem lock_eq_none_iff (w : world) :
    box_factory.lock w = none ↔ ∀ p, w.factory._data = some p → w.use_count p = 0 := by
  unfold box_factory.lock
  cases h : w.factory._data with
  | none => simp
  | some p =>
    by_cases h0 : 0 < w.use_count p
    · simp [h0]
      omega
    · simp [h0]
      omega

theorem lock_eq_some_iff (w : world) (p : ℕ) :
    box_factory.lock w = some p ↔ w.factory._data = some p ∧ 0 < w.use_count p := by
  unfold box_factory.lock
  cases h : w.factory._data with
  | none => simp
  | some q =>
    by_cases h0 : 0 < w.use_count q
    · simp [h0]
      rintro rfl
      exact h0
    · simp [h0]
      rintro rfl
      omega

theorem data_of_lock_some (w : world) (p : ℕ) (h : box_factory.lock w = some p) :
    box_factory.data w
      = (p, { w with use_count := Function.update w.use_count p (w.use_count p + 1) }) := by
  simp [box_factory.data, h]

theorem data_of_lock_none (w : world) (h : box_factory.lock w = none) :
    box_factory.data w
      = (w.created,
          { w with
              created := w.created + 1
              use_count := Function.update w.use_count w.created 1
              objects := Function.update w.objects w.created (box_data.new w w.created)
              factory := { _data := some w.created } }) := by
  simp [box_factory.data, h]

/-- After `data()` the weak pointer of the factory yields the object `data()` returned. -/
theorem lock_after_data (w : world) :
    box_factory.lock (box_factory.data w).2 = some (box_factory.data w).1 := by
  cases h : box_factory.lock w with
  | some p =>
    rw [data_of_lock_some w p h]
    have h2 := (lock_eq_some_iff w p).mp h
    rw [lock_eq_some_iff]
    simp [h2.1]
  | none =>
    rw [data_of_lock_none w h, lock_eq_some_iff]
    simp

theorem lock_after_new (w : world) :
    box_factory.lock (box.new w).2 = some (box.new w).1._data := by
  have h := lock_after_data w
  simpa [box.new, box_factory.lock] using h

theorem new_created (w : world) : (box.new w).2.created = (box_factory.data w).2.created := rfl

theorem wellformed_start (ok : Bool) : (world.start ok).wellformed := by
  intro p hp
  simp [world.start] at hp

theorem wellformed_new (w : world) (h : w.wellformed) : (box.new w).2.wellformed := by
  intro p hp
  cases hl : box_factory.lock w with
  | some q =>
    have hq := (lock_eq_some_iff w q).mp hl
    simp only [box.new, data_of_lock_some w q hl] at hp ⊢
    by_cases hpq : p = q
    · rw [hpq]
      exact hq.1
    · rw [Function.update_noteq hpq] at hp
      exact h p hp
  | none =>
    simp only [box.new, data_of_lock_none w hl] at hp ⊢
    by_cases hpq : p = w.created
    · rw [hpq]
    · rw [Function.update_noteq hpq] at hp
      have h1 := h p hp
      have h2 := (lock_eq_none_iff w).mp hl p h1
      omega

theorem wellformed_delete (w : world) (b : box) (h : w.wellformed) :
    (b.delete w).wellformed := by
  intro p hp
  simp only [box.delete] at hp ⊢
  by_cases hpq : p = b._data
  · rw [hpq, Function.update_same] at hp
    rw [hpq]
    exact h _ (by omega)
  · rw [Function.update_noteq hpq] at hp
    exact h p hp

theorem wellformed_lock (w : world) (h : w.wellformed) :
    box_factory.lock w = none ↔ ∀ p, w.use_count p = 0 := by
  rw [lock_eq_none_iff]
  constructor
  · intro h1 p
    by_contra h2
    have h3 := h p (by omega)
    exact h2 (h1 p h3)
  · intro h1 p _
    exact h1 p

theorem new_data (w : world) : (box.new w).1._data = (box_factory.data w).1 := rfl

end streamfx.gfx.blur

namespace streamfx.gfx.blur

open obs.gs

/-- C10. With the weak pointer of the factory and the use counts as explicit state:
`data()` returns the existing `box_data` while it has an owner, constructing (compiling)
nothing, and constructs a new one exactly when the weak pointer yields none, which in a
well-formed world (every world reached from process start by constructing and destroying
variants) is when no `box_data` has an owner; every variant `create` returns holds what
`data()` returned to `box::box()`. Hence two variants made back to back hold the same
object, with exactly one construction when none was alive before and none otherwise; and
once both are destroyed, the next variant made holds a new object, constructed then. -/
theorem shared_box_data_identity (w : world) :
    (∀ p, box_factory.lock w = some p →
      (box_factory.data w).1 = p ∧ (box_factory.data w).2.created = w.created ∧
      (box_factory.data w).2.objects = w.objects ∧
      (box_factory.data w).2.use_count p = w.use_count p + 1) ∧
    (box_factory.lock w = none →
      (box_factory.data w).1 = w.created ∧ (box_factory.data w).2.created = w.created + 1 ∧
      (box_factory.data w).2.objects w.created = box_data.new w w.created ∧
      (box_factory.data w).2.use_count w.created = 1) ∧
    ((box_factory.data w).2.created ≠ w.created ↔ box_factory.lock w = none) ∧
    (box_factory.lock w = none ↔ ∀ p, w.factory._data = some p → w.use_count p = 0) ∧
    (w.wellformed → (box_factory.lock w = none ↔ ∀ p, w.use_count p = 0)) ∧
    ((∀ ok, (world.start ok).wellformed) ∧ (w.wellformed → (box.new w).2.wellformed) ∧
      ∀ b : box, w.wellformed → (b.delete w).wellformed) ∧
    (∀ k u v, (box_factory.create k w u).1 = .ok v →
      v.to_box = (box.new w).1 ∧ v.to_box._data = (box_factory.data w).1 ∧
      (box_factory.create k w u).2.created = (box_factory.data w).2.created) ∧
    (∀ b1 w1 b2 w2, box.new w = (b1, w1) → box.new w1 = (b2, w2) →
      b1._data = b2._data ∧
      w2.created = (if box_factory.lock w = none then w.created + 1 else w.created)) ∧
    (∀ b1 w1 b2 w2 b3 w3, box_factory.lock w = none →
      box.new w = (b1, w1) → box.new w1 = (b2, w2) →
      box.new (b2.delete (b1.delete w2)) = (b3, w3) →
      box_factory.lock (b2.delete (b1.delete w2)) = none ∧
      b3._data ≠ b1._data ∧ w3.created = w.created + 2) := by
  refine ⟨?_, ?_, ?_, lock_eq_none_iff w, wellformed_lock w,
    ⟨wellformed_start, wellformed_new w, fun b h => wellformed_delete w b h⟩, ?_, ?_, ?_⟩
  · intro p h
    rw [data_of_lock_some w p h]
    simp
  · intro h
    rw [data_of_lock_none w h]
    simp
  · cases h : box_factory.lock w with
    | some p => simp [data_of_lock_some w p h]
    | none => simp [data_of_lock_none w h]
  · intro k u v h
    cases k <;> simp [box_factory.create] at h <;> rw [← h] <;> exact ⟨rfl, rfl, rfl⟩
  · intro b1 w1 b2 w2 h1 h2
    have e1 : b1 = (box.new w).1 := by rw [h1]
    have e2 : w1 = (box.new w).2 := by rw [h1]
    have e3 : b2 = (box.new w1).1 := by rw [h2]
    have e4 : w2 = (box.new w1).2 := by rw [h2]
    have hl : box_factory.lock w1 = some b1._data := by
      rw [e2, e1]
      exact lock_after_new w
    constructor
    · rw [e3, new_data, data_of_lock_some w1 _ hl]
    · rw [e4, new_created, data_of_lock_some w1 _ hl]
      simp only
      rw [e2, new_created]
      cases h : box_factory.lock w with
      | some p => simp [data_of_lock_some w p h]
      | none => simp [data_of_lock_none w h]
  · intro b1 w1 b2 w2 b3 w3 hn h1 h2 h3
    have e1 : b1 = (box.new w).1 := by rw [h1]
    have e2 : w1 = (box.new w).2 := by rw [h1]
    have e3 : b2 = (box.new w1).1 := by rw [h2]
    have e4 : w2 = (box.new w1).2 := by rw [h2]
    have e5 : b3 = (box.new (b2.delete (b1.delete w2))).1 := by rw [h3]
    have e6 : w3 = (box.new (b2.delete (b1.delete w2))).2 := by rw [h3]
    have d1 : b1._data = w.created := by
      rw [e1, new_data, data_of_lock_none w hn]
    have hl : box_factory.lock w1 = some b1._data := by
      rw [e2, e1]
      exact lock_after_new w
    have d2 : b2._data = w.created := by
      rw [e3, new_data, data_of_lock_some w1 _ hl, d1]
    have c1 : w1.created = w.created + 1 := by
      rw [e2, new_created, data_of_lock_none w hn]
    have u1 : w1.use_count w.created = 1 := by
      rw [e2]
      simp [box.new, data_of_lock_none w hn]
    have f1 : w1.factory._data = some w.created := by
      rw [e2]
      simp [box.new, data_of_lock_none w hn]
    have c2 : w2.created = w.created + 1 := by
      rw [e4, new_created, data_of_lock_some w1 _ hl]
      exact c1
    have u2 : w2.use_count w.created = 2 := by
      rw [e4]
      simp [box.new, data_of_lock_some w1 _ hl, d1, u1]
    have f2 : w2.factory._data = some w.created := by
      rw [e4]
      simp [box.new, data_of_lock_some w1 _ hl, f1]
    have hl4 : box_factory.lock (b2.delete (b1.delete w2)) = none := by
      rw [lock_eq_none_iff]
      intro p hp
      simp only [box.delete, d1, d2] at hp ⊢
      rw [f2] at hp
      cases hp
      simp [u2]
    refine ⟨hl4, ?_, ?_⟩
    · rw [e5, new_data, data_of_lock_none _ hl4, d1]
      simp only [box.delete]
      omega
    · rw [e6, new_created, data_of_lock_none _ hl4]
      simp only [box.delete]
      omega

/-- Witness of C10: at process start, two variants made back to back hold the object 0,
which was constructed once; after both are destroyed, a third variant holds the object 1. -/
theorem shared_box_data_identity_witness :
    (box.new (world.start true)).1._data = 0 ∧
      (box.new (box.new (world.start true)).2).1._data = 0 ∧
      (box.new (box.new (world.start true)).2).2.created = 1 ∧
      (box.new ((box.new (box.new (world.start true)).2).1.delete
        ((box.new (world.start true)).1.delete
          (box.new (box.new (world.start true)).2).2))).1._data = 1 ∧
      (box.new ((box.new (box.new (world.start true)).2).1.delete
        ((box.new (world.start true)).1.delete
          (box.new (box.new (world.start true)).2).2))).2.created = 2 := by
  have h := (shared_box_data_identity (world.start true)).2.2.2.2.2.2.2.2
    (box.new (world.start true)).1 (box.new (world.start true)).2
    (box.new (box.new (world.start true)).2).1 (box.new (box.new (world.start true)).2).2
    _ _ rfl rfl rfl rfl
  exact ⟨rfl, rfl, rfl, rfl, h.2.2⟩

end streamfx.gfx.blur

/-! ## Acquisition after a failed compilation -/

namespace streamfx.gfx.blur

open obs.gs

/-- C11, the claim as stated fails: a later `data()` does not retry the compilation while
the `box_data` whose compilation failed still has an owner. At process start with the
effect file missing, a variant is made: its `box_data` (object 0) has a null effect. The
file then becomes loadable; `data()` returns object 0 again, constructs nothing, and the
effect of the object it returned is still null. -/
theorem data_does_not_retry_while_failed_data_is_held :
    ((box.new (world.start false)).2.objects (box.new (world.start false)).1._data).get_effect
        = none ∧
      ((box.new (world.start false)).2.set_effect_file_ok true).effect_file_ok = true ∧
      (box_factory.data ((box.new (world.start false)).2.set_effect_file_ok true)).1
        = (box.new (world.start false)).1._data ∧
      (box_factory.data ((box.new (world.start false)).2.set_effect_file_ok true)).2.created
        = (box.new (world.start false)).2.created ∧
      ((box_factory.data ((box.new (world.start false)).2.set_effect_file_ok true)).2.objects
        (box_factory.data ((box.new (world.start false)).2.set_effect_file_ok true)).1).get_effect
        = none := by
  decide

/-- C11, amended. `data()` retries the compilation only when the weak pointer of the
factory yields none, that is once every owner of the `box_data` whose compilation failed
has released it: it then constructs a new `box_data`, whose effect is non-null exactly if
the effect file can be loaded at that moment. While the failed `box_data` has an owner,
`data()` returns it, constructs nothing, and its effect stays null, whether or not the
file can be loaded. So after a failed acquisition, the release of the variant and the
arrival of the file, the next variant made holds a new `box_data` with a non-null
effect. -/
theorem data_retries_only_after_release (w : world) :
    (∀ p, box_factory.lock w = some p → (w.objects p).get_effect = none →
      (box_factory.data w).1 = p ∧ (box_factory.data w).2.created = w.created ∧
      ((box_factory.data w).2.objects (box_factory.data w).1).get_effect = none) ∧
    (box_factory.lock w = none →
      (box_factory.data w).2.created = w.created + 1 ∧
      ((box_factory.data w).2.objects (box_factory.data w).1).get_effect
        = if w.effect_file_ok then some { object := (box_factory.data w).1 } else none) ∧
    (∀ b1 w1 b2 w2, box_factory.lock w = none → w.effect_file_ok = false →
      box.new w = (b1, w1) →
      box.new ((b1.delete w1).set_effect_file_ok true) = (b2, w2) →
      (w1.objects b1._data).get_effect = none ∧
      b2._data ≠ b1._data ∧
      (w2.objects b2._data).get_effect = some { object := b2._data }) := by
  refine ⟨?_, ?_, ?_⟩
  · intro p h he
    rw [data_of_lock_some w p h]
    exact ⟨rfl, rfl, he⟩
  · intro h
    rw [data_of_lock_none w h]
    refine ⟨rfl, ?_⟩
    simp only [Function.update_same, box_data.get_effect, box_data.new]
    split <;> rfl
  · intro b1 w1 b2 w2 hn hf h1 h2
    have e1 : b1 = (box.new w).1 := by rw [h1]
    have e2 : w1 = (box.new w).2 := by rw [h1]
    have e3 : b2 = (box.new ((b1.delete w1).set_effect_file_ok true)).1 := by rw [h2]
    have e4 : w2 = (box.new ((b1.delete w1).set_effect_file_ok true)).2 := by rw [h2]
    have d1 : b1._data = w.created := by
      rw [e1, new_data, data_of_lock_none w hn]
    have c1 : w1.created = w.created + 1 := by
      rw [e2, new_created, data_of_lock_none w hn]
    have u1 : w1.use_count w.created = 1 := by
      rw [e2]
      simp [box.new, data_of_lock_none w hn]
    have f1 : w1.factory._data = some w.created := by
      rw [e2]
      simp [box.new, data_of_lock_none w hn]
    have o1 : (w1.objects w.created).get_effect = none := by
      rw [e2]
      simp [box.new, data_of_lock_none w hn, box_data.new, hf, box_data.get_effect]
    have hl : box_factory.lock ((b1.delete w1).set_effect_file_ok true) = none := by
      rw [lock_eq_none_iff]
      intro p hp
      simp only [world.set_effect_file_ok, box.delete, d1] at hp ⊢
      rw [f1] at hp
      cases hp
      simp [u1]
    have d2 : b2._data = w.created + 1 := by
      rw [e3, new_data, data_of_lock_none _ hl]
      simp only [world.set_effect_file_ok, box.delete]
      exact c1
    refine ⟨by rw [d1]; exact o1, by rw [d1, d2]; omega, ?_⟩
    rw [e4, e3]
    simp only [box.new, data_of_lock_none _ hl]
    simp [world.set_effect_file_ok, box.delete, box_data.new, box_data.get_effect]

/-- Witness of C11, amended: at process start with the effect file missing, a variant is
made and destroyed, the file arrives, and the next variant holds object 1, whose effect
is non-null. -/
theorem data_retries_only_after_release_witness :
    (box.new (((box.new (world.start false)).1.delete
        (box.new (world.start false)).2).set_effect_file_ok true)).1._data = 1 ∧
      ((box.new (((box.new (world.start false)).1.delete
        (box.new (world.start false)).2).set_effect_file_ok true)).2.objects 1).get_effect
        = some { object := 1 } := by
  have h := (data_retries_only_after_release (world.start false)).2.2
    (box.new (world.start false)).1 (box.new (world.start false)).2
    (box.new (((box.new (world.start false)).1.delete
      (box.new (world.start false)).2).set_effect_file_ok true)).1
    (box.new (((box.new (world.start false)).1.delete
      (box.new (world.start false)).2).set_effect_file_ok true)).2 rfl rfl rfl rfl
  exact ⟨rfl, h.2.2⟩

end streamfx.gfx.blur
/-! ## The blend state around `render()` -/

namespace streamfx.gfx.blur

open obs.gs

set_option maxHeartbeats 1000000 in
/-- C16. For every variant (all four classes) with an input texture bound, and whether the
effect is null or not, the calls of one `render()` hold exactly one `gs_blend_state_push`
and exactly one `gs_blend_state_pop`, the push before the pop. The push saves the blend
state of the caller on the stack. The calls `setup` that follow it, among them
`gs_enable_blending(false)` and `gs_blend_function(GS_BLEND_ONE, GS_BLEND_ZERO)`, leave
blending disabled and the blend function ONE/ZERO; the calls `body` between them and the
pop, which hold every draw, do not touch the blend state or the stack in any state, so
that each draw, and the pop itself, finds blending disabled, ONE/ZERO, and the stack one
deeper than before the call. Run from any state of the graphics subsystem, the calls
leave the blend stack, hence its depth, and the blend state as they found them. -/
theorem render_keeps_blend_state (w : world) (v : base) (input : texture) (g : gs_state)
    (hin : v.to_box._input_texture = some input) :
    ∃ (calls : List gs_call) (v1 : base) (t : texture) (pre setup body post : List gs_call)
        (made : List draw),
      v.render w = some (calls, v1, t) ∧
      calls.countP gs_call.pushes_blend_state = 1 ∧
      calls.countP gs_call.pops_blend_state = 1 ∧
      calls = pre ++ [gs_call.gs_blend_state_push] ++ (setup ++ body)
        ++ [gs_call.gs_blend_state_pop] ++ post ∧
      (∀ c ∈ pre, c.draws = false) ∧ (∀ c ∈ post, c.draws = false) ∧
      (g.run calls).blend_stack = g.blend_stack ∧
      (g.run calls).blend_stack.length = g.blend_stack.length ∧
      (g.run calls).blend = g.blend ∧
      (g.run calls).drawn = g.drawn ++ made ∧
      (∀ d ∈ made, d.blend = { enabled := false, src := .GS_BLEND_ONE, dest := .GS_BLEND_ZERO }) ∧
      made.length = calls.countP gs_call.draws ∧
      (∀ c ∈ setup, c.draws = false) ∧
      gs_call.gs_enable_blending false ∈ setup ∧
      gs_call.gs_blend_function .GS_BLEND_ONE .GS_BLEND_ZERO ∈ setup ∧
      (g.run (pre ++ [gs_call.gs_blend_state_push])).blend_stack = g.blend :: g.blend_stack ∧
      (g.run (pre ++ [gs_call.gs_blend_state_push] ++ setup)).blend
        = { enabled := false, src := .GS_BLEND_ONE, dest := .GS_BLEND_ZERO } ∧
      (g.run (pre ++ [gs_call.gs_blend_state_push] ++ setup)).blend_stack
        = g.blend :: g.blend_stack ∧
      (∀ c ∈ body, ∀ h : gs_state,
        (h.step c).blend = h.blend ∧ (h.step c).blend_stack = h.blend_stack) ∧
      (g.run (pre ++ [gs_call.gs_blend_state_push] ++ (setup ++ body))).blend
        = { enabled := false, src := .GS_BLEND_ONE, dest := .GS_BLEND_ZERO } ∧
      (g.run (pre ++ [gs_call.gs_blend_state_push] ++ (setup ++ body))).blend_stack
        = g.blend :: g.blend_stack := by
  cases v with
  | box b =>
    simp only [base.to_box] at hin
    cases he : (w.objects b._data).get_effect with
    | none =>
      have hr : (base.box b).render w = some
          (((base.box b).render w).get (by simp [base.render, box.render, hin, he])) := by
        simp
      generalize ((base.box b).render w).get _ = r at hr
      obtain ⟨calls, v1, t⟩ := r
      refine ⟨calls, v1, t, calls.take 5, (calls.drop 6).take 3,
        ((calls.drop 9).dropLast).dropLast, [.context_end],
        (g.run calls).drawn.drop g.drawn.length, hr, ?_⟩
      simp only [base.render, box.render, hin, he, Option.map_some', Option.some.injEq,
        Prod.mk.injEq] at hr
      obtain ⟨rfl, _, _⟩ := hr
      refine ⟨rfl, rfl, rfl, ?_, ?_, ?_, ?_, ?_, ?_, ?_, ?_, ?_, ?_, ?_, ?_, ?_, ?_, ?_, ?_,
        ?_⟩
      all_goals
        simp [gs_state.run, gs_state.step, gs_state.bind, gs_state.snapshot, two_pass_state,
          one_pass_state, gs_call.draws]
    | some e =>
      have hr : (base.box b).render w = some
          (((base.box b).render w).get (by simp [base.render, box.render, hin, he])) := by
        simp
      generalize ((base.box b).render w).get _ = r at hr
      obtain ⟨calls, v1, t⟩ := r
      refine ⟨calls, v1, t, calls.take 5, (calls.drop 6).take 3,
        ((calls.drop 9).dropLast).dropLast, [.context_end],
        (g.run calls).drawn.drop g.drawn.length, hr, ?_⟩
      simp only [base.render, box.render, hin, he, Option.map_some', Option.some.injEq,
        Prod.mk.injEq] at hr
      obtain ⟨rfl, _, _⟩ := hr
      refine ⟨rfl, rfl, rfl, ?_, ?_, ?_, ?_, ?_, ?_, ?_, ?_, ?_, ?_, ?_, ?_, ?_, ?_, ?_, ?_,
        ?_⟩
      all_goals
        simp [gs_state.run, gs_state.step, gs_state.bind, gs_state.snapshot, two_pass_state,
          one_pass_state, gs_call.draws]
  | box_directional d =>
    simp only [base.to_box] at hin
    cases he : (w.objects d.super._data).get_effect with
    | none =>
      have hr : (base.box_directional d).render w = some
          (((base.box_directional d).render w).get (by simp [base.render, box_directional.render, hin, he])) := by
        simp
      generalize ((base.box_directional d).render w).get _ = r at hr
      obtain ⟨calls, v1, t⟩ := r
      refine ⟨calls, v1, t, calls.take 1, (calls.drop 2).take 9,
        ((calls.drop 11).dropLast).dropLast, [.context_end],
        (g.run calls).drawn.drop g.drawn.length, hr, ?_⟩
      simp only [base.render, box_directional.render, hin, he, Option.map_some', Option.some.injEq,
        Prod.mk.injEq] at hr
      obtain ⟨rfl, _, _⟩ := hr
      refine ⟨rfl, rfl, rfl, ?_, ?_, ?_, ?_, ?_, ?_, ?_, ?_, ?_, ?_, ?_, ?_, ?_, ?_, ?_, ?_,
        ?_⟩
      all_goals
        simp [gs_state.run, gs_state.step, gs_state.bind, gs_state.snapshot, two_pass_state,
          one_pass_state, gs_call.draws]
    | some e =>
      have hr : (base.box_directional d).render w = some
          (((base.box_directional d).render w).get (by simp [base.render, box_directional.render, hin, he])) := by
        simp
      generalize ((base.box_directional d).render w).get _ = r at hr
      obtain ⟨calls, v1, t⟩ := r
      refine ⟨calls, v1, t, calls.take 1, (calls.drop 2).take 9,
        ((calls.drop 11).dropLast).dropLast, [.context_end],
        (g.run calls).drawn.drop g.drawn.length, hr, ?_⟩
      simp only [base.render, box_directional.render, hin, he, Option.map_some', Option.some.injEq,
        Prod.mk.injEq] at hr
      obtain ⟨rfl, _, _⟩ := hr
      refine ⟨rfl, rfl, rfl, ?_, ?_, ?_, ?_, ?_, ?_, ?_, ?_, ?_, ?_, ?_, ?_, ?_, ?_, ?_, ?_,
        ?_⟩
      all_goals
        simp [gs_state.run, gs_state.step, gs_state.bind, gs_state.snapshot, two_pass_state,
          one_pass_state, gs_call.draws]
  | box_rotational r =>
    simp only [base.to_box] at hin
    cases he : (w.objects r.super._data).get_effect with
    | none =>
      have hr : (base.box_rotational r).render w = some
          (((base.box_rotational r).render w).get (by simp [base.render, box_rotational.render, hin, he])) := by
        simp
      generalize ((base.box_rotational r).render w).get _ = r at hr
      obtain ⟨calls, v1, t⟩ := r
      refine ⟨calls, v1, t, calls.take 1, (calls.drop 2).take 9,
        ((calls.drop 11).dropLast).dropLast, [.context_end],
        (g.run calls).drawn.drop g.drawn.length, hr, ?_⟩
      simp only [base.render, box_rotational.render, hin, he, Option.map_some', Option.some.injEq,
        Prod.mk.injEq] at hr
      obtain ⟨rfl, _, _⟩ := hr
      refine ⟨rfl, rfl, rfl, ?_, ?_, ?_, ?_, ?_, ?_, ?_, ?_, ?_, ?_, ?_, ?_, ?_, ?_, ?_, ?_,
        ?_⟩
      all_goals
        simp [gs_state.run, gs_state.step, gs_state.bind, gs_state.snapshot, two_pass_state,
          one_pass_state, gs_call.draws]
    | some e =>
      have hr : (base.box_rotational r).render w = some
          (((base.box_rotational r).render w).get (by simp [base.render, box_rotational.render, hin, he])) := by
        simp
      generalize ((base.box_rotational r).render w).get _ = r at hr
      obtain ⟨calls, v1, t⟩ := r
      refine ⟨calls, v1, t, calls.take 1, (calls.drop 2).take 9,
        ((calls.drop 11).dropLast).dropLast, [.context_end],
        (g.run calls).drawn.drop g.drawn.length, hr, ?_⟩
      simp only [base.render, box_rotational.render, hin, he, Option.map_some', Option.some.injEq,
        Prod.mk.injEq] at hr
      obtain ⟨rfl, _, _⟩ := hr
      refine ⟨rfl, rfl, rfl, ?_, ?_, ?_, ?_, ?_, ?_, ?_, ?_, ?_, ?_, ?_, ?_, ?_, ?_, ?_, ?_,
        ?_⟩
      all_goals
        simp [gs_state.run, gs_state.step, gs_state.bind, gs_state.snapshot, two_pass_state,
          one_pass_state, gs_call.draws]
  | box_zoom z =>
    simp only [base.to_box] at hin
    cases he : (w.objects z.super._data).get_effect with
    | none =>
      have hr : (base.box_zoom z).render w = some
          (((base.box_zoom z).render w).get (by simp [base.render, box_zoom.render, hin, he])) := by
        simp
      generalize ((base.box_zoom z).render w).get _ = r at hr
      obtain ⟨calls, v1, t⟩ := r
      refine ⟨calls, v1, t, calls.take 1, (calls.drop 2).take 9,
        ((calls.drop 11).dropLast).dropLast, [.context_end],
        (g.run calls).drawn.drop g.drawn.length, hr, ?_⟩
      simp only [base.render, box_zoom.render, hin, he, Option.map_some', Option.some.injEq,
        Prod.mk.injEq] at hr
      obtain ⟨rfl, _, _⟩ := hr
      refine ⟨rfl, rfl, rfl, ?_, ?_, ?_, ?_, ?_, ?_, ?_, ?_, ?_, ?_, ?_, ?_, ?_, ?_, ?_, ?_,
        ?_⟩
      all_goals
        simp [gs_state.run, gs_state.step, gs_state.bind, gs_state.snapshot, two_pass_state,
          one_pass_state, gs_call.draws]
    | some e =>
      have hr : (base.box_zoom z).render w = some
          (((base.box_zoom z).render w).get (by simp [base.render, box_zoom.render, hin, he])) := by
        simp
      generalize ((base.box_zoom z).render w).get _ = r at hr
      obtain ⟨calls, v1, t⟩ := r
      refine ⟨calls, v1, t, calls.take 1, (calls.drop 2).take 9,
        ((calls.drop 11).dropLast).dropLast, [.context_end],
        (g.run calls).drawn.drop g.drawn.length, hr, ?_⟩
      simp only [base.render, box_zoom.render, hin, he, Option.map_some', Option.some.injEq,
        Prod.mk.injEq] at hr
      obtain ⟨rfl, _, _⟩ := hr
      refine ⟨rfl, rfl, rfl, ?_, ?_, ?_, ?_, ?_, ?_, ?_, ?_, ?_, ?_, ?_, ?_, ?_, ?_, ?_, ?_,
        ?_⟩
      all_goals
        simp [gs_state.run, gs_state.step, gs_state.bind, gs_state.snapshot, two_pass_state,
          one_pass_state, gs_call.draws]

/-- Witness of C16: the Area variant made at process start, with an input texture bound,
rendered in a state of the graphics subsystem in which blending is enabled; once with the
effect compiled, and once with the effect file missing, so that the effect is null. -/
theorem render_keeps_blend_state_witness :
    (∃ (calls pre setup body : List gs_call) (made : List draw),
      calls.countP gs_call.pushes_blend_state = 1 ∧
      calls.countP gs_call.pops_blend_state = 1 ∧
      ((gs_state.idle { enabled := true, src := .GS_BLEND_ONE, dest := .GS_BLEND_ZERO }).run
          calls).blend
        = (gs_state.idle { enabled := true, src := .GS_BLEND_ONE, dest := .GS_BLEND_ZERO }).blend ∧
      (∀ d ∈ made, d.blend = { enabled := false, src := .GS_BLEND_ONE, dest := .GS_BLEND_ZERO }) ∧
      made.length = calls.countP gs_call.draws ∧
      ((gs_state.idle { enabled := true, src := .GS_BLEND_ONE, dest := .GS_BLEND_ZERO }).run
          (pre ++ [gs_call.gs_blend_state_push] ++ (setup ++ body))).blend
        = { enabled := false, src := .GS_BLEND_ONE, dest := .GS_BLEND_ZERO }) ∧
    (∃ (calls pre setup body : List gs_call),
      (base.box ((box.new (world.start false)).1.set_input
        (some { object := 100, version := 0 }))).render (box.new (world.start false)).2
        = some (calls, base.box ((box.new (world.start false)).1.set_input
            (some { object := 100, version := 0 })),
          (box.new (world.start false)).1.get) ∧
      gs_call.gs_enable_blending false ∈ setup ∧
      gs_call.gs_blend_function .GS_BLEND_ONE .GS_BLEND_ZERO ∈ setup ∧
      ((gs_state.idle { enabled := true, src := .GS_BLEND_ONE, dest := .GS_BLEND_ZERO }).run
          (pre ++ [gs_call.gs_blend_state_push] ++ (setup ++ body))).blend
        = { enabled := false, src := .GS_BLEND_ONE, dest := .GS_BLEND_ZERO } ∧
      ((gs_state.idle { enabled := true, src := .GS_BLEND_ONE, dest := .GS_BLEND_ZERO }).run
          calls).blend
        = (gs_state.idle
            { enabled := true, src := .GS_BLEND_ONE, dest := .GS_BLEND_ZERO }).blend) := by
  constructor
  · obtain ⟨calls, _, _, pre, setup, body, _, made, _, h2, h3, _, _, _, _, _, h9, _, h11, h12,
        _, _, _, _, _, _, _, h20, _⟩ :=
      render_keeps_blend_state (box.new (world.start true)).2
        (base.box ((box.new (world.start true)).1.set_input
          (some { object := 100, version := 0 })))
        { object := 100, version := 0 }
        (gs_state.idle { enabled := true, src := .GS_BLEND_ONE, dest := .GS_BLEND_ZERO })
        rfl
    exact ⟨calls, pre, setup, body, made, h2, h3, h9, h11, h12, h20⟩
  · obtain ⟨calls, v1, t, pre, setup, body, _, _, h1, _, _, _, _, _, _, _, h9, _, _, _,
        _, h14, h15, _, _, _, _, h20, _⟩ :=
      render_keeps_blend_state (box.new (world.start false)).2
        (base.box ((box.new (world.start false)).1.set_input
          (some { object := 100, version := 0 })))
        { object := 100, version := 0 }
        (gs_state.idle { enabled := true, src := .GS_BLEND_ONE, dest := .GS_BLEND_ZERO })
        rfl
    have hr : (base.box ((box.new (world.start false)).1.set_input
        (some { object := 100, version := 0 }))).render (box.new (world.start false)).2
        = some (calls, v1, t) := h1
    have e : (base.box ((box.new (world.start false)).1.set_input
        (some { object := 100, version := 0 }))).render (box.new (world.start false)).2
        = some (two_pass_state ++ [.gs_blend_state_pop, .context_end],
          base.box ((box.new (world.start false)).1.set_input
            (some { object := 100, version := 0 })),
          (box.new (world.start false)).1.get) := by decide
    rw [e] at hr
    simp only [Option.some.injEq, Prod.mk.injEq] at hr
    obtain ⟨rfl, rfl, rfl⟩ := hr
    exact ⟨_, pre, setup, body, e, h14, h15, h20, h9⟩

end streamfx.gfx.blur

/-! ## Rounding to binary32 -/

theorem rne_intCast (m : ℤ) : rne (m : ℚ) = m := by
  unfold rne
  simp

theorem ilog2_lt (q : ℚ) (hq : q ≠ 0) : |q| < (2 : ℚ) ^ (ilog2 q + 1) := by
  have hn : 1 ≤ q.num.natAbs := by
    have : q.num ≠ 0 := Rat.num_ne_zero.mpr hq
    omega
  have hd : 1 ≤ q.den := q.den_pos
  have h1 := (nlog2_spec _ hn).2
  have h2 := (nlog2_spec _ hd).1
  have hq' : |q| = (q.num.natAbs : ℚ) / (q.den : ℚ) := by
    rw [← Rat.num_div_den q, abs_div]
    simp [Rat.num_div_den, Nat.cast_natAbs]
  have h1' : (q.num.natAbs : ℚ) < (2 : ℚ) ^ (nlog2 q.num.natAbs + 1) := by exact_mod_cast h1
  have h2' : ((2 : ℚ) ^ nlog2 q.den) ≤ (q.den : ℚ) := by exact_mod_cast h2
  have hdpos : (0 : ℚ) < q.den := by exact_mod_cast q.den_pos
  unfold ilog2
  simp only
  split_ifs with h
  · rw [hq', div_lt_iff₀ hdpos]
    have e : (2 : ℚ) ^ ((nlog2 q.num.natAbs : ℤ) - (nlog2 q.den : ℤ) + 1)
        = (2 : ℚ) ^ (nlog2 q.num.natAbs + 1) / (2 : ℚ) ^ (nlog2 q.den) := by
      rw [show ((nlog2 q.num.natAbs : ℤ) - (nlog2 q.den : ℤ) + 1)
        = ((nlog2 q.num.natAbs + 1 : ℕ) : ℤ) - ((nlog2 q.den : ℕ) : ℤ) by push_cast; ring]
      rw [zpow_sub₀ (by norm_num : (2 : ℚ) ≠ 0), zpow_natCast, zpow_natCast]
    rw [e, div_mul_eq_mul_div, lt_div_iff₀ (by positivity)]
    have hpos : (0 : ℚ) < (2 : ℚ) ^ (nlog2 q.num.natAbs + 1) := by positivity
    nlinarith
  · rw [sub_add_cancel]
    exact lt_of_not_le h

theorem round32_natCast (n : ℕ) (hn : n < 2 ^ 24) : round32 (n : ℚ) = .fin n := by
  by_cases h0 : n = 0
  · subst h0
    decide!
  · have hq : (n : ℚ) ≠ 0 := by exact_mod_cast h0
    have hle : ilog2 (n : ℚ) ≤ 23 := by
      have h1 := ilog2_le (n : ℚ) hq
      have h2 : |(n : ℚ)| < (2 : ℚ) ^ (24 : ℤ) := by
        rw [abs_of_nonneg (by positivity)]
        exact_mod_cast hn
      have h3 := lt_of_le_of_lt h1 h2
      have h4 := (zpow_lt_zpow_iff_right₀ (by norm_num : (1 : ℚ) < 2)).mp h3
      omega
    have hk : max (ilog2 (n : ℚ)) (-126) - 23 ≤ 0 := by
      have : max (ilog2 (n : ℚ)) (-126) ≤ 23 := max_le hle (by norm_num)
      omega
    obtain ⟨j, hj⟩ : ∃ j : ℕ, max (ilog2 (n : ℚ)) (-126) - 23 = -(j : ℤ) :=
      ⟨(-(max (ilog2 (n : ℚ)) (-126) - 23)).toNat, by omega⟩
    unfold round32
    simp only
    rw [hj, zpow_neg, zpow_natCast]
    have e1 : (n : ℚ) / ((2 : ℚ) ^ j)⁻¹ = (((n * 2 ^ j : ℕ) : ℤ) : ℚ) := by
      push_cast
      field_simp
    rw [e1, rne_intCast]
    have e2 : ((((n * 2 ^ j : ℕ) : ℤ) : ℚ)) * ((2 : ℚ) ^ j)⁻¹ = (n : ℚ) := by
      push_cast
      field_simp
    rw [e2, if_neg]
    rw [not_le, abs_of_nonneg (by positivity)]
    have h5 : (n : ℚ) < (2 : ℚ) ^ 24 := by exact_mod_cast hn
    have h6 : (2 : ℚ) ^ 24 ≤ (2 : ℚ) ^ (128 : ℤ) := by
      rw [show ((128 : ℤ)) = ((128 : ℕ) : ℤ) by norm_num, zpow_natCast]
      exact pow_le_pow_right₀ (by norm_num) (by norm_num)
    linarith

theorem to_uint32_natCast (n : ℕ) (hn : n < 2 ^ 32) :
    double_t.to_uint32 (.fin (n : ℚ)) = some n := by
  unfold double_t.to_uint32
  have h1 : (-1 : ℚ) < (n : ℚ) := by
    have : (0 : ℚ) ≤ (n : ℚ) := by positivity
    linarith
  have h2 : (n : ℚ) < 2 ^ 32 := by exact_mod_cast hn
  simp [h1, h2]

/-! ## Values of the expressions of `render()` -/

namespace streamfx.gfx.blur

open obs.gs

theorem round32_one : round32 1 = .fin 1 := by decide!

theorem round32_zero : round32 0 = .fin 0 := by decide!

theorem round32_two : round32 2 = .fin 2 := by decide!

/-- The `float` made of the width of a texture, for widths below `2 ^ 24`. -/
theorem eval_float_width (env : environment) (t : texture) (h : env.width t < 2 ^ 24) :
    (fexpr.float_t (.get_width t)).eval env = some (.f32 (.fin (env.width t))) := by
  simp [fexpr.eval, cvalue.to_f32, round32_natCast _ h]

theorem eval_float_height (env : environment) (t : texture) (h : env.height t < 2 ^ 24) :
    (fexpr.float_t (.get_height t)).eval env = some (.f32 (.fin (env.height t))) := by
  simp [fexpr.eval, cvalue.to_f32, round32_natCast _ h]

/-- The size of a pass is the size of the input texture, for sizes below `2 ^ 24`. -/
theorem eval_uint32_float_width (env : environment) (t : texture) (h : env.width t < 2 ^ 24) :
    (fexpr.uint32_t (.float_t (.get_width t))).eval env = some (.u32 (env.width t)) := by
  have h2 : env.width t < 2 ^ 32 := lt_trans h (by norm_num)
  simp [fexpr.eval, cvalue.to_f32, round32_natCast _ h, cvalue.to_u32, to_uint32_natCast _ h2]

theorem eval_uint32_float_height (env : environment) (t : texture) (h : env.height t < 2 ^ 24) :
    (fexpr.uint32_t (.float_t (.get_height t))).eval env = some (.u32 (env.height t)) := by
  have h2 : env.height t < 2 ^ 32 := lt_trans h (by norm_num)
  simp [fexpr.eval, cvalue.to_f32, round32_natCast _ h, cvalue.to_u32, to_uint32_natCast _ h2]

/-- The expression `float_t(1.f / width)`: the `float` nearest to `1 / width`. -/
theorem eval_texel_width (env : environment) (t : texture) (h0 : 0 < env.width t)
    (h : env.width t < 2 ^ 24) :
    (fexpr.float_t (.div (.lit_f 1) (.float_t (.get_width t)))).eval env
      = some (.f32 (round32 (1 / (env.width t : ℚ)))) := by
  have hne : (env.width t : ℚ) ≠ 0 := by
    have : (0 : ℚ) < (env.width t : ℚ) := by exact_mod_cast h0
    exact ne_of_gt this
  simp [fexpr.eval, cvalue.to_f32, round32_natCast _ h, round32_one, cvalue.binary,
    double_t.div, hne]

theorem eval_texel_height (env : environment) (t : texture) (h0 : 0 < env.height t)
    (h : env.height t < 2 ^ 24) :
    (fexpr.float_t (.div (.lit_f 1) (.float_t (.get_height t)))).eval env
      = some (.f32 (round32 (1 / (env.height t : ℚ)))) := by
  have hne : (env.height t : ℚ) ≠ 0 := by
    have : (0 : ℚ) < (env.height t : ℚ) := by exact_mod_cast h0
    exact ne_of_gt this
  simp [fexpr.eval, cvalue.to_f32, round32_natCast _ h, round32_one, cvalue.binary,
    double_t.div, hne]

theorem eval_lit_f_zero (env : environment) :
    (fexpr.lit_f 0).eval env = some (.f32 (.fin 0)) := by
  simp [fexpr.eval, round32_zero]

end streamfx.gfx.blur

/-! ## The passes of `render()` -/

namespace streamfx.gfx.blur

open obs.gs

/-- C12. `box::render()` with an input texture bound, of width and height below `2 ^ 24`,
and a non-null effect makes exactly two passes, with the technique `Draw`. The first binds
the input texture as `pImage` and `(1.f / width, 0)` as `pImageTexel`, the `float` nearest
to `1 / width` and 0, and draws into the secondary render target with the size of the
input. The second binds the texture of the secondary target as `pImage` and
`(0, 1.f / height)` as `pImageTexel` and draws into the primary target with the size of the
input. `pStepScale`, `pSize` and `pSizeInverseMul`, bound once before the first pass, are
the same in both. The texture returned is that of the primary target, which `get()`
returns from then on. -/
theorem area_render_makes_two_passes (w : world) (b : box) (input : texture) (e : effect)
    (g : gs_state) (env : environment)
    (hin : b._input_texture = some input)
    (heff : (w.objects b._data).get_effect = some e)
    (hw : 0 < env.width input ∧ env.width input < 2 ^ 24)
    (hh : 0 < env.height input ∧ env.height input < 2 ^ 24) :
    ∃ (calls : List gs_call) (b1 : box) (d1 d2 : draw),
      b.render w = some (calls, b1, b1.get) ∧
      b1._rendertarget = b._rendertarget.render ∧
      b1._rendertarget2 = b._rendertarget2.render ∧
      b1.get = b1._rendertarget.get_texture ∧
      calls.countP gs_call.begins_pass = 2 ∧
      calls.countP gs_call.draws = 2 ∧
      (g.run calls).drawn = g.drawn ++ [d1, d2] ∧
      (d1.effect = e ∧ d1.technique = .Draw ∧
        d1.target = some (b._rendertarget2, .uint32_t (.float_t (.get_width input)),
          .uint32_t (.float_t (.get_height input))) ∧
        d1.parameters .pImage = some (.texture input) ∧
        d1.parameters .pImageTexel
          = some (.float2 (.float_t (.div (.lit_f 1) (.float_t (.get_width input)))) (.lit_f 0))) ∧
      (d2.effect = e ∧ d2.technique = .Draw ∧
        d2.target = some (b._rendertarget, .uint32_t (.float_t (.get_width input)),
          .uint32_t (.float_t (.get_height input))) ∧
        d2.parameters .pImage = some (.texture b1._rendertarget2.get_texture) ∧
        d2.parameters .pImageTexel
          = some (.float2 (.lit_f 0) (.float_t (.div (.lit_f 1) (.float_t (.get_height input)))))) ∧
      (d1.parameters .pStepScale
          = some (.float2 (.float_t (.member b._step_scale.1)) (.float_t (.member b._step_scale.2))) ∧
        d1.parameters .pSize = some (.float (.float_t (.member b._size))) ∧
        d1.parameters .pSizeInverseMul
          = some (.float (.float_t (.div (.lit_f 1)
              (.add (.mul (.float_t (.member b._size)) (.lit_f 2)) (.lit_f 1))))) ∧
        d2.parameters .pStepScale = d1.parameters .pStepScale ∧
        d2.parameters .pSize = d1.parameters .pSize ∧
        d2.parameters .pSizeInverseMul = d1.parameters .pSizeInverseMul) ∧
      ((fexpr.uint32_t (.float_t (.get_width input))).eval env = some (.u32 (env.width input)) ∧
        (fexpr.uint32_t (.float_t (.get_height input))).eval env
          = some (.u32 (env.height input)) ∧
        (fexpr.float_t (.div (.lit_f 1) (.float_t (.get_width input)))).eval env
          = some (.f32 (round32 (1 / (env.width input : ℚ)))) ∧
        (fexpr.float_t (.div (.lit_f 1) (.float_t (.get_height input)))).eval env
          = some (.f32 (round32 (1 / (env.height input : ℚ)))) ∧
        (fexpr.lit_f 0).eval env = some (.f32 (.fin 0))) := by
  have hr : b.render w = some ((b.render w).get (by simp [box.render, hin, heff])) := by simp
  generalize (b.render w).get _ = r at hr
  obtain ⟨calls, b1, t⟩ := r
  refine ⟨calls, b1, (g.run (calls.take 20)).snapshot e .Draw,
    (g.run (calls.take 26)).snapshot e .Draw, ?_⟩
  simp only [box.render, hin, heff, Option.some.injEq, Prod.mk.injEq] at hr
  obtain ⟨rfl, rfl, rfl⟩ := hr
  refine ⟨?_, rfl, rfl, rfl, ?_, ?_, ?_, ?_, ?_, ?_,
    ⟨eval_uint32_float_width env input hw.2, eval_uint32_float_height env input hh.2,
      eval_texel_width env input hw.1 hw.2, eval_texel_height env input hh.1 hh.2,
      eval_lit_f_zero env⟩⟩
  · simp [box.render, hin, heff]
    rfl
  · simp [two_pass_state, gs_call.begins_pass]
  · simp [two_pass_state, gs_call.draws]
  · simp [gs_state.run, gs_state.step, gs_state.bind, gs_state.snapshot, two_pass_state]
  · simp [gs_state.run, gs_state.step, gs_state.bind, gs_state.snapshot, two_pass_state]
  · simp [gs_state.run, gs_state.step, gs_state.bind, gs_state.snapshot, two_pass_state]
  · simp [gs_state.run, gs_state.step, gs_state.bind, gs_state.snapshot, two_pass_state]

/-- Witness of C12: the Area variant made at process start, with an input texture of 1920
by 1080 bound. -/
theorem area_render_makes_two_passes_witness :
    ∃ (calls : List gs_call) (b1 : box) (d1 d2 : draw),
      ((box.new (world.start true)).1.set_input (some { object := 100, version := 0 })).render
          (box.new (world.start true)).2 = some (calls, b1, b1.get) ∧
      calls.countP gs_call.begins_pass = 2 ∧
      calls.countP gs_call.draws = 2 ∧
      ((gs_state.idle { enabled := true, src := .GS_BLEND_ONE, dest := .GS_BLEND_ZERO }).run
          calls).drawn
        = (gs_state.idle { enabled := true, src := .GS_BLEND_ONE, dest := .GS_BLEND_ZERO }).drawn
          ++ [d1, d2] ∧
      d1.technique = .Draw ∧ d2.technique = .Draw := by
  obtain ⟨calls, b1, d1, d2, h1, _, _, _, h5, h6, h7, h8, h9, _⟩ :=
    area_render_makes_two_passes (box.new (world.start true)).2
      ((box.new (world.start true)).1.set_input (some { object := 100, version := 0 }))
      { object := 100, version := 0 } { object := 0 }
      (gs_state.idle { enabled := true, src := .GS_BLEND_ONE, dest := .GS_BLEND_ZERO })
      (environment.sample 1920 1080) rfl (by decide) (by decide) (by decide)
  exact ⟨calls, b1, d1, d2, h1, h5, h6, h7, h8.2.1, h9.2.1⟩

end streamfx.gfx.blur

namespace streamfx.gfx.blur

open obs.gs

theorem round64_one : round64 1 = .fin 1 := by decide!

/-- The expression `float_t(1. / width * cos(_angle))`. -/
theorem eval_texel_cos (env : environment) (t : texture) (angle : double_t)
    (h0 : 0 < env.width t) (h : env.width t < 2 ^ 24) :
    (fexpr.float_t (.mul (.div (.lit_d 1) (.float_t (.get_width t)))
        (.cos (.member angle)))).eval env
      = some (.f32 (double_t.to_float
          (double_t.mul_in round64 (round64 (1 / (env.width t : ℚ))) (env.cos angle)))) := by
  have hne : (env.width t : ℚ) ≠ 0 := by
    have : (0 : ℚ) < (env.width t : ℚ) := by exact_mod_cast h0
    exact ne_of_gt this
  simp [fexpr.eval, cvalue.to_f32, cvalue.to_f64, round32_natCast _ h, round64_one,
    cvalue.binary, double_t.div, hne]

/-- The expression `float_t(1.f / height * sin(_angle))`. -/
theorem eval_texel_sin (env : environment) (t : texture) (angle : double_t)
    (h0 : 0 < env.height t) (h : env.height t < 2 ^ 24) :
    (fexpr.float_t (.mul (.div (.lit_f 1) (.float_t (.get_height t)))
        (.sin (.member angle)))).eval env
      = some (.f32 (double_t.to_float
          (double_t.mul_in round64 (round32 (1 / (env.height t : ℚ))) (env.sin angle)))) := by
  have hne : (env.height t : ℚ) ≠ 0 := by
    have : (0 : ℚ) < (env.height t : ℚ) := by exact_mod_cast h0
    exact ne_of_gt this
  simp [fexpr.eval, cvalue.to_f32, cvalue.to_f64, round32_natCast _ h, round32_one,
    cvalue.binary, double_t.div, hne]

/-- The expression `float_t(_angle / _size)`, for finite members and a size other than 0. -/
theorem eval_angle_by_size (env : environment) (a s : ℚ) (hs : s ≠ 0) :
    (fexpr.float_t (.div (.member (.fin a)) (.member (.fin s)))).eval env
      = some (.f32 (double_t.to_float (round64 (a / s)))) := by
  simp [fexpr.eval, cvalue.to_f32, cvalue.to_f64, cvalue.binary, double_t.div, hs]

end streamfx.gfx.blur

namespace streamfx.gfx.blur

open obs.gs

/-- C13. With an input texture bound, of width and height below `2 ^ 24`, and a non-null
effect, `render()` of the Directional, the Rotational and the Zoom variant makes exactly
one pass each: it binds the input texture as `pImage` and draws into the primary render
target with the size of the input; the secondary target is not drawn into and stays as it
was. `pImageTexel` is `(1. / width * cos(_angle), 1.f / height * sin(_angle))` for
Directional and `(1.f / width, 1.f / height)` for Rotational and Zoom; Rotational also binds
`_angle / _size` as `pAngle`, `_angle` being in radians, and the center as `pCenter`; Zoom
binds the center as `pCenter`. The values of these expressions, in `float` arithmetic, are
given last. -/
theorem one_pass_render_makes_one_pass (w : world) (input : texture) (e : effect)
    (g : gs_state) (env : environment)
    (hw : 0 < env.width input ∧ env.width input < 2 ^ 24)
    (hh : 0 < env.height input ∧ env.height input < 2 ^ 24) :
    (∀ d : box_directional, d.super._input_texture = some input →
      (w.objects d.super._data).get_effect = some e →
      ∃ (calls : List gs_call) (d1 : box_directional) (dr : draw),
        d.render w = some (calls, d1, d1.super.get) ∧
        d1.super.get = d1.super._rendertarget.get_texture ∧
        d1.super._rendertarget = d.super._rendertarget.render ∧
        d1.super._rendertarget2 = d.super._rendertarget2 ∧
        calls.countP gs_call.begins_pass = 1 ∧
        calls.countP gs_call.draws = 1 ∧
        (∀ c ∈ calls, ∀ t x y, c = gs_call.rendertarget_render t x y →
          t = d.super._rendertarget) ∧
        (g.run calls).drawn = g.drawn ++ [dr] ∧
        dr.effect = e ∧ dr.technique = .Draw ∧
        dr.target = some (d.super._rendertarget, .uint32_t (.float_t (.get_width input)),
          .uint32_t (.float_t (.get_height input))) ∧
        dr.parameters .pImage = some (.texture input) ∧
        dr.parameters .pImageTexel
          = some (.float2 (.float_t (.mul (.div (.lit_d 1) (.float_t (.get_width input))) (.cos (.member d._angle))))
              (.float_t (.mul (.div (.lit_f 1) (.float_t (.get_height input))) (.sin (.member d._angle))))) ∧
        dr.parameters .pStepScale
          = some (.float2 (.float_t (.member d.super._step_scale.1))
              (.float_t (.member d.super._step_scale.2))) ∧
        dr.parameters .pSize = some (.float (.float_t (.member d.super._size))) ∧
        dr.parameters .pSizeInverseMul
          = some (.float (.float_t (.div (.lit_f 1)
              (.add (.mul (.float_t (.member d.super._size)) (.lit_f 2)) (.lit_f 1)))))) ∧
    (∀ r : box_rotational, r.super._input_texture = some input →
      (w.objects r.super._data).get_effect = some e →
      ∃ (calls : List gs_call) (r1 : box_rotational) (dr : draw),
        r.render w = some (calls, r1, r1.super.get) ∧
        r1.super.get = r1.super._rendertarget.get_texture ∧
        r1.super._rendertarget = r.super._rendertarget.render ∧
        r1.super._rendertarget2 = r.super._rendertarget2 ∧
        calls.countP gs_call.begins_pass = 1 ∧
        calls.countP gs_call.draws = 1 ∧
        (∀ c ∈ calls, ∀ t x y, c = gs_call.rendertarget_render t x y →
          t = r.super._rendertarget) ∧
        (g.run calls).drawn = g.drawn ++ [dr] ∧
        dr.effect = e ∧ dr.technique = .Rotate ∧
        dr.target = some (r.super._rendertarget, .uint32_t (.float_t (.get_width input)),
          .uint32_t (.float_t (.get_height input))) ∧
        dr.parameters .pImage = some (.texture input) ∧
        dr.parameters .pImageTexel
          = some (.float2 (.float_t (.div (.lit_f 1) (.float_t (.get_width input))))
              (.float_t (.div (.lit_f 1) (.float_t (.get_height input))))) ∧
        dr.parameters .pStepScale
          = some (.float2 (.float_t (.member r.super._step_scale.1))
              (.float_t (.member r.super._step_scale.2))) ∧
        dr.parameters .pSize = some (.float (.float_t (.member r.super._size))) ∧
        dr.parameters .pSizeInverseMul
          = some (.float (.float_t (.div (.lit_f 1)
              (.add (.mul (.float_t (.member r.super._size)) (.lit_f 2)) (.lit_f 1))))) ∧
        dr.parameters .pAngle
          = some (.float (.float_t (.div (.member r._angle) (.member r.super._size)))) ∧
        dr.parameters .pCenter
          = some (.float2 (.float_t (.member r._center.1)) (.float_t (.member r._center.2)))) ∧
    (∀ z : box_zoom, z.super._input_texture = some input →
      (w.objects z.super._data).get_effect = some e →
      ∃ (calls : List gs_call) (z1 : box_zoom) (dr : draw),
        z.render w = some (calls, z1, z1.super.get) ∧
        z1.super.get = z1.super._rendertarget.get_texture ∧
        z1.super._rendertarget = z.super._rendertarget.render ∧
        z1.super._rendertarget2 = z.super._rendertarget2 ∧
        calls.countP gs_call.begins_pass = 1 ∧
        calls.countP gs_call.draws = 1 ∧
        (∀ c ∈ calls, ∀ t x y, c = gs_call.rendertarget_render t x y →
          t = z.super._rendertarget) ∧
        (g.run calls).drawn = g.drawn ++ [dr] ∧
        dr.effect = e ∧ dr.technique = .Zoom ∧
        dr.target = some (z.super._rendertarget, .uint32_t (.float_t (.get_width input)),
          .uint32_t (.float_t (.get_height input))) ∧
        dr.parameters .pImage = some (.texture input) ∧
        dr.parameters .pImageTexel
          = some (.float2 (.float_t (.div (.lit_f 1) (.float_t (.get_width input))))
              (.float_t (.div (.lit_f 1) (.float_t (.get_height input))))) ∧
        dr.parameters .pStepScale
          = some (.float2 (.float_t (.member z.super._step_scale.1))
              (.float_t (.member z.super._step_scale.2))) ∧
        dr.parameters .pSize = some (.float (.float_t (.member z.super._size))) ∧
        dr.parameters .pSizeInverseMul
          = some (.float (.float_t (.div (.lit_f 1)
              (.add (.mul (.float_t (.member z.super._size)) (.lit_f 2)) (.lit_f 1))))) ∧
        dr.parameters .pCenter
          = some (.float2 (.float_t (.member z._center.1)) (.float_t (.member z._center.2)))) ∧
    ((fexpr.uint32_t (.float_t (.get_width input))).eval env = some (.u32 (env.width input)) ∧
      (fexpr.uint32_t (.float_t (.get_height input))).eval env = some (.u32 (env.height input)) ∧
      (∀ angle : double_t,
        (fexpr.float_t (.mul (.div (.lit_d 1) (.float_t (.get_width input))) (.cos (.member angle)))).eval env
          = some (.f32 (double_t.to_float (double_t.mul_in round64
              (round64 (1 / (env.width input : ℚ))) (env.cos angle)))) ∧
        (fexpr.float_t (.mul (.div (.lit_f 1) (.float_t (.get_height input))) (.sin (.member angle)))).eval env
          = some (.f32 (double_t.to_float (double_t.mul_in round64
              (round32 (1 / (env.height input : ℚ))) (env.sin angle))))) ∧
      (fexpr.float_t (.div (.lit_f 1) (.float_t (.get_width input)))).eval env
        = some (.f32 (round32 (1 / (env.width input : ℚ)))) ∧
      (fexpr.float_t (.div (.lit_f 1) (.float_t (.get_height input)))).eval env
        = some (.f32 (round32 (1 / (env.height input : ℚ)))) ∧
      (∀ a s : ℚ, s ≠ 0 →
        (fexpr.float_t (.div (.member (.fin a)) (.member (.fin s)))).eval env
          = some (.f32 (double_t.to_float (round64 (a / s)))))) := by
  refine ⟨?_, ?_, ?_, eval_uint32_float_width env input hw.2,
    eval_uint32_float_height env input hh.2,
    fun angle => ⟨eval_texel_cos env input angle hw.1 hw.2,
      eval_texel_sin env input angle hh.1 hh.2⟩,
    eval_texel_width env input hw.1 hw.2, eval_texel_height env input hh.1 hh.2,
    fun a s hs => eval_angle_by_size env a s hs⟩
  · intro d hin heff
    have hr : d.render w = some ((d.render w).get (by simp [box_directional.render, hin, heff])) := by
      simp
    generalize (d.render w).get _ = r at hr
    obtain ⟨calls, d1, t⟩ := r
    refine ⟨calls, d1, (g.run (calls.take 20)).snapshot e .Draw, ?_⟩
    simp only [box_directional.render, hin, heff, Option.some.injEq, Prod.mk.injEq] at hr
    obtain ⟨rfl, rfl, rfl⟩ := hr
    refine ⟨?_, rfl, rfl, rfl, ?_⟩
    · simp [box_directional.render, hin, heff]
      rfl
    · simp [gs_state.run, gs_state.step, gs_state.bind, gs_state.snapshot, one_pass_state,
        gs_call.begins_pass, gs_call.draws]
  · intro r hin heff
    have hr : r.render w = some ((r.render w).get (by simp [box_rotational.render, hin, heff])) := by
      simp
    generalize (r.render w).get _ = r at hr
    obtain ⟨calls, r1, t⟩ := r
    refine ⟨calls, r1, (g.run (calls.take 22)).snapshot e .Rotate, ?_⟩
    simp only [box_rotational.render, hin, heff, Option.some.injEq, Prod.mk.injEq] at hr
    obtain ⟨rfl, rfl, rfl⟩ := hr
    refine ⟨?_, rfl, rfl, rfl, ?_⟩
    · simp [box_rotational.render, hin, heff]
      rfl
    · simp [gs_state.run, gs_state.step, gs_state.bind, gs_state.snapshot, one_pass_state,
        gs_call.begins_pass, gs_call.draws]
  · intro z hin heff
    have hr : z.render w = some ((z.render w).get (by simp [box_zoom.render, hin, heff])) := by
      simp
    generalize (z.render w).get _ = r at hr
    obtain ⟨calls, z1, t⟩ := r
    refine ⟨calls, z1, (g.run (calls.take 21)).snapshot e .Zoom, ?_⟩
    simp only [box_zoom.render, hin, heff, Option.some.injEq, Prod.mk.injEq] at hr
    obtain ⟨rfl, rfl, rfl⟩ := hr
    refine ⟨?_, rfl, rfl, rfl, ?_⟩
    · simp [box_zoom.render, hin, heff]
      rfl
    · simp [gs_state.run, gs_state.step, gs_state.bind, gs_state.snapshot, one_pass_state,
        gs_call.begins_pass, gs_call.draws]

/-- Witness of C13: the Directional, the Rotational and the Zoom variant made at process
start, each with an input texture of 1920 by 1080 bound. -/
theorem one_pass_render_makes_one_pass_witness :
    (∃ (calls : List gs_call) (d1 : box_directional) (dr : draw),
      ({ (box_directional.new (world.start true)).1 with
          super := (box_directional.new (world.start true)).1.super.set_input
            (some { object := 100, version := 0 }) } : box_directional).render
        (box_directional.new (world.start true)).2 = some (calls, d1, d1.super.get) ∧
      calls.countP gs_call.begins_pass = 1 ∧ calls.countP gs_call.draws = 1 ∧
      dr.technique = .Draw) ∧
    (∃ (calls : List gs_call) (r1 : box_rotational) (dr : draw),
      ({ (box_rotational.new (world.start true) { _angle := .fin 0, _center := (.fin 0, .fin 0) }).1 with
          super := (box_rotational.new (world.start true)
            { _angle := .fin 0, _center := (.fin 0, .fin 0) }).1.super.set_input
            (some { object := 100, version := 0 }) } : box_rotational).render
        (box_directional.new (world.start true)).2 = some (calls, r1, r1.super.get) ∧
      calls.countP gs_call.begins_pass = 1 ∧ calls.countP gs_call.draws = 1 ∧
      dr.technique = .Rotate) ∧
    (∃ (calls : List gs_call) (z1 : box_zoom) (dr : draw),
      ({ (box_zoom.new (world.start true) { _angle := .fin 0, _center := (.fin 0, .fin 0) }).1 with
          super := (box_zoom.new (world.start true)
            { _angle := .fin 0, _center := (.fin 0, .fin 0) }).1.super.set_input
            (some { object := 100, version := 0 }) } : box_zoom).render
        (box_directional.new (world.start true)).2 = some (calls, z1, z1.super.get) ∧
      calls.countP gs_call.begins_pass = 1 ∧ calls.countP gs_call.draws = 1 ∧
      dr.technique = .Zoom) := by
  have h := one_pass_render_makes_one_pass (box_directional.new (world.start true)).2
    { object := 100, version := 0 } { object := 0 }
    (gs_state.idle { enabled := true, src := .GS_BLEND_ONE, dest := .GS_BLEND_ZERO })
    (environment.sample 1920 1080) (by decide) (by decide)
  refine ⟨?_, ?_, ?_⟩
  · obtain ⟨calls, d1, dr, h1, _, _, _, h5, h6, _, _, _, h10, _⟩ := h.1
      ({ (box_directional.new (world.start true)).1 with
        super := (box_directional.new (world.start true)).1.super.set_input
          (some { object := 100, version := 0 }) } : box_directional) rfl (by decide)
    exact ⟨calls, d1, dr, h1, h5, h6, h10⟩
  · obtain ⟨calls, d1, dr, h1, _, _, _, h5, h6, _, _, _, h10, _⟩ := h.2.1
      ({ (box_rotational.new (world.start true)
          { _angle := .fin 0, _center := (.fin 0, .fin 0) }).1 with
        super := (box_rotational.new (world.start true)
          { _angle := .fin 0, _center := (.fin 0, .fin 0) }).1.super.set_input
          (some { object := 100, version := 0 }) } : box_rotational) rfl (by decide)
    exact ⟨calls, d1, dr, h1, h5, h6, h10⟩
  · obtain ⟨calls, d1, dr, h1, _, _, _, h5, h6, _, _, _, h10, _⟩ := h.2.2.1
      ({ (box_zoom.new (world.start true)
          { _angle := .fin 0, _center := (.fin 0, .fin 0) }).1 with
        super := (box_zoom.new (world.start true)
          { _angle := .fin 0, _center := (.fin 0, .fin 0) }).1.super.set_input
          (some { object := 100, version := 0 }) } : box_zoom) rfl (by decide)
    exact ⟨calls, d1, dr, h1, h5, h6, h10⟩

end streamfx.gfx.blur

/-! ## The integer helpers of `utility.hpp` -/

namespace streamfx.util.math

theorem emod_two_mul (x P : ℤ) (hP : 0 < P) : x % (2 * P) = x % 2 + 2 * (x / 2 % P) := by
  have h1 : 0 ≤ x % 2 := Int.emod_nonneg x (by norm_num)
  have h2 : x % 2 < 2 := Int.emod_lt_of_pos x (by norm_num)
  have h3 : 0 ≤ x / 2 % P := Int.emod_nonneg _ (ne_of_gt hP)
  have h4 : x / 2 % P < P := Int.emod_lt_of_pos _ hP
  have h5 : x = 2 * (x / 2) + x % 2 := (Int.ediv_add_emod x 2).symm
  have h6 : x / 2 = P * (x / 2 / P) + x / 2 % P := (Int.ediv_add_emod (x / 2) P).symm
  have key := (Int.ediv_emod_unique (a := x) (b := 2 * P) (q := x / 2 / P)
    (r := x % 2 + 2 * (x / 2 % P)) (by omega)).mpr
    ⟨by
      have : 2 * P * (x / 2 / P) = 2 * (P * (x / 2 / P)) := by ring
      rw [this]
      omega, by omega, by omega⟩
  exact key.2

theorem ediv_mul_two (v a : ℤ) (ha : 0 < a) : v / (a * 2) = v / a / 2 := by
  have h1 : 0 ≤ v % a := Int.emod_nonneg v (ne_of_gt ha)
  have h2 : v % a < a := Int.emod_lt_of_pos v ha
  have h3 : v = a * (v / a) + v % a := (Int.ediv_add_emod v a).symm
  have h4 : v / a = 2 * (v / a / 2) + v / a % 2 := (Int.ediv_add_emod (v / a) 2).symm
  have h5 : 0 ≤ v / a % 2 := Int.emod_nonneg _ (by norm_num)
  have h6 : v / a % 2 < 2 := Int.emod_lt_of_pos _ (by norm_num)
  have key := (Int.ediv_emod_unique (a := v) (b := a * 2) (q := v / a / 2)
    (r := a * (v / a % 2) + v % a) (by omega)).mpr
    ⟨by
      have e : a * 2 * (v / a / 2) = a * (2 * (v / a / 2)) := by ring
      have e2 : a * (v / a) = a * (2 * (v / a / 2)) + a * (v / a % 2) := by
        rw [← mul_add, ← h4]
      rw [e]
      omega, by positivity, by nlinarith⟩
  exact key.1

theorem two_mul_eq_two_pow (y : ℤ) (n : ℕ) :
    (∃ k, k < n + 1 ∧ 2 * y = 2 ^ k) ↔ ∃ k, k < n ∧ y = 2 ^ k := by
  constructor
  · rintro ⟨k, hk, h⟩
    cases k with
    | zero =>
      simp at h
      omega
    | succ j =>
      refine ⟨j, by omega, ?_⟩
      rw [pow_succ] at h
      omega
  · rintro ⟨k, hk, h⟩
    refine ⟨k + 1, by omega, ?_⟩
    rw [pow_succ, h]
    ring

theorem one_add_two_mul_eq_two_pow (y : ℤ) (n : ℕ) :
    (∃ k, k < n + 1 ∧ 1 + 2 * y = 2 ^ k) ↔ y = 0 := by
  constructor
  · rintro ⟨k, _, h⟩
    cases k with
    | zero =>
      simp at h
      omega
    | succ j =>
      rw [pow_succ] at h
      omega
  · rintro rfl
    exact ⟨0, by omega, by norm_num⟩

/-- What the loop returns from `index` on: true exactly if, among the bits `index`,
..., `index + left - 1` of `v`, none is set when a bit was seen before, and at most one is
set otherwise. -/
theorem is_power_of_two_loop_from_spec (v : ℤ) :
    ∀ (left index : ℕ) (have_bit : Bool),
      is_power_of_two_loop_from v left index have_bit = true ↔
        (v / 2 ^ index % 2 ^ left = 0 ∨
          (have_bit = false ∧ ∃ k, k < left ∧ v / 2 ^ index % 2 ^ left = 2 ^ k)) := by
  intro left
  induction left with
  | zero =>
    intro index have_bit
    simp [is_power_of_two_loop_from]
  | succ n ih =>
    intro index have_bit
    have hP : (0 : ℤ) < 2 ^ n := by positivity
    have hdiv : v / 2 ^ (index + 1) = v / 2 ^ index / 2 := by
      rw [pow_succ]
      exact ediv_mul_two v _ (by positivity)
    have hmod : v / 2 ^ index % 2 ^ (n + 1)
        = v / 2 ^ index % 2 + 2 * (v / 2 ^ index / 2 % 2 ^ n) := by
      rw [pow_succ, mul_comm]
      exact emod_two_mul _ _ hP
    have h1 : 0 ≤ v / 2 ^ index % 2 := Int.emod_nonneg _ (by norm_num)
    have h2 : v / 2 ^ index % 2 < 2 := Int.emod_lt_of_pos _ (by norm_num)
    have h3 : 0 ≤ v / 2 ^ index / 2 % 2 ^ n := Int.emod_nonneg _ (ne_of_gt hP)
    unfold is_power_of_two_loop_from
    simp only
    rw [hmod]
    by_cases hc : v / 2 ^ index % 2 = 0
    · have hcur : decide (v / 2 ^ index % 2 ≠ 0) = false := by simp [hc]
      rw [hcur]
      simp only [Bool.false_eq_true, if_false]
      rw [ih (index + 1) have_bit, hdiv, hc, zero_add]
      constructor
      · rintro (h | ⟨hb, h⟩)
        · left
          omega
        · right
          exact ⟨hb, (two_mul_eq_two_pow _ n).mpr h⟩
      · rintro (h | ⟨hb, h⟩)
        · left
          omega
        · right
          exact ⟨hb, (two_mul_eq_two_pow _ n).mp h⟩
    · have hone : v / 2 ^ index % 2 = 1 := by omega
      have hcur : decide (v / 2 ^ index % 2 ≠ 0) = true := by simp [hc]
      rw [hcur, hone]
      simp only [if_true]
      cases have_bit with
      | true =>
        simp only [if_true]
        constructor
        · intro h
          cases h
        · rintro (h | ⟨hb, _⟩)
          · omega
          · cases hb
      | false =>
        simp only [Bool.false_eq_true, if_false]
        rw [ih (index + 1) true, hdiv]
        constructor
        · rintro (h | ⟨hb, _⟩)
          · right
            exact ⟨trivial, (one_add_two_mul_eq_two_pow _ n).mpr h⟩
          · cases hb
        · rintro (h | ⟨_, h⟩)
          · omega
          · left
            exact (one_add_two_mul_eq_two_pow _ n).mp h

end streamfx.util.math

namespace streamfx.util.math

theorem two_pow_ne_zero_int (k : ℕ) : (0 : ℤ) ≠ 2 ^ k := by
  have : (0 : ℤ) < 2 ^ k := by positivity
  omega

/-- C17. What `is_power_of_two_loop` computes, for a type of any width: it returns true
exactly if at most one of the `sizeof(T) * 8` bits of `v` is set. So it returns true for 0,
which is no power of two (the loop ends with `return true` whether a bit was seen or not),
and, for a signed type, for the least value, whose one set bit is the sign bit; for every
other value of the type it returns true exactly if the value is `2 ^ k` with
`k < sizeof(T) * 8`. -/
theorem is_power_of_two_loop_true_iff_at_most_one_bit (T : int_type) (v : ℤ) :
    (is_power_of_two_loop T v = true ↔
      (v % 2 ^ T.bits = 0 ∨ ∃ k, k < T.bits ∧ v % 2 ^ T.bits = 2 ^ k)) ∧
    (is_power_of_two_loop T 0 = true ∧ ∀ k : ℕ, (0 : ℤ) ≠ 2 ^ k) ∧
    (T.signed = true → 0 < T.bits →
      is_power_of_two_loop T T.min = true ∧ T.holds T.min ∧ ∀ k : ℕ, T.min ≠ 2 ^ k) ∧
    (T.holds v → 0 < T.bits → v ≠ 0 → v ≠ T.min →
      (is_power_of_two_loop T v = true ↔ ∃ k, k < T.bits ∧ v = 2 ^ k)) := by
  have spec : ∀ x : ℤ, is_power_of_two_loop T x = true ↔
      (x % 2 ^ T.bits = 0 ∨ ∃ k, k < T.bits ∧ x % 2 ^ T.bits = 2 ^ k) := by
    intro x
    unfold is_power_of_two_loop
    rw [is_power_of_two_loop_from_spec]
    simp
  have hpos : (0 : ℤ) < 2 ^ T.bits := by positivity
  refine ⟨spec v, ⟨(spec 0).mpr (Or.inl (by simp)), two_pow_ne_zero_int⟩, ?_, ?_⟩
  · intro hs hb
    obtain ⟨n, hn⟩ : ∃ n, T.bits = n + 1 := ⟨T.bits - 1, by omega⟩
    have hmin : T.min = -(2 ^ n) := by simp [int_type.min, hs, hn]
    have hmax : T.max = 2 ^ n - 1 := by simp [int_type.max, hs, hn]
    have hp : (0 : ℤ) < 2 ^ n := by positivity
    have h2 : (2 : ℤ) ^ (n + 1) = 2 * 2 ^ n := by rw [pow_succ]; ring
    refine ⟨(spec _).mpr (Or.inr ⟨n, by omega, ?_⟩), ?_, ?_⟩
    · rw [hmin, hn, h2]
      have e : -(2 : ℤ) ^ n = 2 ^ n + (2 * 2 ^ n) * (-1) := by ring
      rw [e, Int.add_mul_emod_self_left]
      exact Int.emod_eq_of_lt hp.le (by omega)
    · rw [int_type.holds, hmin, hmax]
      omega
    · intro k
      rw [hmin]
      have : (0 : ℤ) < 2 ^ k := by positivity
      omega
  · intro hv hb h0 hm
    rw [spec v]
    obtain ⟨n, hn⟩ : ∃ n, T.bits = n + 1 := ⟨T.bits - 1, by omega⟩
    have hp : (0 : ℤ) < 2 ^ n := by positivity
    have h2 : (2 : ℤ) ^ (n + 1) = 2 * 2 ^ n := by rw [pow_succ]; ring
    by_cases hnn : 0 ≤ v
    · have hlt : v < 2 ^ T.bits := by
        have := hv.2
        unfold int_type.max at this
        split at this
        · rw [hn] at this ⊢
          simp at this
          omega
        · omega
      rw [Int.emod_eq_of_lt hnn hlt]
      constructor
      · rintro (h | h)
        · exact absurd h h0
        · exact h
      · intro h
        exact Or.inr h
    · have hs : T.signed = true := by
        by_contra hu
        have := hv.1
        simp [int_type.min, hu] at this
        omega
      have hmin : T.min = -(2 ^ n) := by simp [int_type.min, hs, hn]
      have hge : -(2 ^ n) ≤ v := by
        have := hv.1
        rw [hmin] at this
        exact this
      have hmod : v % 2 ^ T.bits = v + 2 * 2 ^ n := by
        rw [hn, h2]
        have e : v = (v + 2 * 2 ^ n) + (2 * 2 ^ n) * (-1) := by ring
        rw [e, Int.add_mul_emod_self_left, ← e]
        exact Int.emod_eq_of_lt (by omega) (by omega)
      rw [hmod]
      constructor
      · rintro (h | ⟨k, hk, h⟩)
        · omega
        · exfalso
          have hk' : k ≤ n := by omega
          have hle : (2 : ℤ) ^ k ≤ 2 ^ n := pow_le_pow_right₀ (by norm_num) hk'
          rw [hmin] at hm
          omega
      · rintro ⟨k, _, h⟩
        have : (0 : ℤ) < 2 ^ k := by positivity
        omega

end streamfx.util.math

namespace streamfx.util.math

theorem wrap_modEq (T : int_type) (x : ℤ) : T.wrap x ≡ x [ZMOD 2 ^ T.bits] := by
  unfold int_type.wrap
  split
  · have h := Int.mod_modEq (x + 2 ^ (T.bits - 1)) (2 ^ T.bits)
    have h2 := Int.ModEq.sub_right (2 ^ (T.bits - 1)) h
    simpa using h2
  · exact Int.mod_modEq x (2 ^ T.bits)

theorem wrap_congr (T : int_type) (x y : ℤ) (h : x ≡ y [ZMOD 2 ^ T.bits]) :
    T.wrap x = T.wrap y := by
  unfold int_type.wrap
  split
  · have h2 : x + 2 ^ (T.bits - 1) ≡ y + 2 ^ (T.bits - 1) [ZMOD 2 ^ T.bits] :=
      Int.ModEq.add_right _ h
    rw [show (x + 2 ^ (T.bits - 1)) % 2 ^ T.bits = (y + 2 ^ (T.bits - 1)) % 2 ^ T.bits from h2]
  · exact h

theorem wrap_wrap (T : int_type) (x : ℤ) : T.wrap (T.wrap x) = T.wrap x :=
  wrap_congr T _ _ (wrap_modEq T x)

theorem wrap_of_holds (T : int_type) (x : ℤ) (hb : 0 < T.bits) (h : T.holds x) :
    T.wrap x = x := by
  obtain ⟨n, hn⟩ : ∃ n, T.bits = n + 1 := ⟨T.bits - 1, by omega⟩
  have hp : (0 : ℤ) < 2 ^ n := by positivity
  have h2 : (2 : ℤ) ^ (n + 1) = 2 * 2 ^ n := by rw [pow_succ]; ring
  unfold int_type.holds int_type.min int_type.max at h
  unfold int_type.wrap
  split
  · rename_i hs
    simp only [hs, hn, Nat.add_sub_cancel, ↓reduceIte] at h ⊢
    rw [Int.emod_eq_of_lt (by omega) (by omega)]
    ring
  · rename_i hs
    simp only [hs, hn, ↓reduceIte, Bool.false_eq_true] at h ⊢
    exact Int.emod_eq_of_lt (by omega) (by omega)

theorem holds_wrap (T : int_type) (x : ℤ) (hb : 0 < T.bits) : T.holds (T.wrap x) := by
  obtain ⟨n, hn⟩ : ∃ n, T.bits = n + 1 := ⟨T.bits - 1, by omega⟩
  have hp : (0 : ℤ) < 2 ^ n := by positivity
  have h2 : (2 : ℤ) ^ (n + 1) = 2 * 2 ^ n := by rw [pow_succ]; ring
  have hm : (0 : ℤ) < 2 ^ (n + 1) := by positivity
  unfold int_type.holds int_type.min int_type.max int_type.wrap
  by_cases hs : T.signed = true
  · simp only [hs, hn, Nat.add_sub_cancel, ↓reduceIte]
    have a := Int.emod_nonneg (x + 2 ^ n) (ne_of_gt hm)
    have b := Int.emod_lt_of_pos (x + 2 ^ n) hm
    omega
  · simp only [hs, hn, ↓reduceIte, Bool.false_eq_true]
    have a := Int.emod_nonneg x (ne_of_gt hm)
    have b := Int.emod_lt_of_pos x hm
    omega

theorem bits_pos_of_holds_one (T : int_type) (h : T.holds 1) : 0 < T.bits := by
  by_contra hb
  have h0 : T.bits = 0 := by omega
  unfold int_type.holds int_type.min int_type.max at h
  by_cases hs : T.signed = true
  · simp [hs, h0] at h
  · simp [hs, h0] at h

/-- The loop invariant of `math::pow`: with `res` a value of the type and `exp` below
`2 ^ fuel`, the loop ends within `fuel + 1` tests and returns `res * base ^ exp` reduced to
the type. -/
theorem pow_loop_spec (T : int_type) :
    ∀ (fuel : ℕ) (base : ℤ) (e : ℕ) (res : ℤ), T.wrap res = res → e < 2 ^ fuel →
      pow_loop T (fuel + 1) base e res = some (T.wrap (res * base ^ e)) := by
  intro fuel
  induction fuel with
  | zero =>
    intro base e res hr he
    have h0 : e = 0 := by omega
    subst h0
    simp [pow_loop, hr]
  | succ n ih =>
    intro base e res hr he
    unfold pow_loop
    by_cases h0 : e = 0
    · subst h0
      simp [hr]
    · have hne : (e : ℤ) ≠ 0 := by exact_mod_cast h0
      rw [if_neg hne]
      have hdiv : (e : ℤ) / 2 = ((e / 2 : ℕ) : ℤ) := by norm_cast
      have hmod : (e : ℤ) % 2 = ((e % 2 : ℕ) : ℤ) := by norm_cast
      rw [hdiv]
      have hlt : e / 2 < 2 ^ n := by
        rw [pow_succ] at he
        omega
      have hsplit : e = 2 * (e / 2) + e % 2 := by omega
      have hsq : (T.wrap (base * base)) ^ (e / 2) ≡ base ^ (2 * (e / 2)) [ZMOD 2 ^ T.bits] := by
        rw [pow_mul, ← sq, sq]
        exact Int.ModEq.pow _ (wrap_modEq T _)
      by_cases hodd : e % 2 = 1
      · have hcond : (e : ℤ) % 2 ≠ 0 := by
          rw [hmod, hodd]
          norm_num
        rw [if_pos hcond, ih _ _ _ (wrap_wrap T _) hlt]
        congr 1
        apply wrap_congr
        have h1 : T.wrap (res * base) * T.wrap (base * base) ^ (e / 2)
            ≡ res * base * base ^ (2 * (e / 2)) [ZMOD 2 ^ T.bits] :=
          Int.ModEq.mul (wrap_modEq T _) hsq
        have h2 : res * base * base ^ (2 * (e / 2)) = res * base ^ e := by
          conv_rhs => rw [hsplit, hodd, pow_add, pow_one]
          ring
        rw [← h2]
        exact h1
      · have heven : e % 2 = 0 := by omega
        have hcond : ¬ ((e : ℤ) % 2 ≠ 0) := by
          rw [hmod, heven]
          norm_num
        rw [if_neg hcond, ih _ _ _ hr hlt]
        congr 1
        apply wrap_congr
        have h1 : res * T.wrap (base * base) ^ (e / 2)
            ≡ res * base ^ (2 * (e / 2)) [ZMOD 2 ^ T.bits] :=
          Int.ModEq.mul_left _ hsq
        have h2 : res * base ^ (2 * (e / 2)) = res * base ^ e := by
          conv_rhs => rw [hsplit, heven, add_zero]
        rw [← h2]
        exact h1

/-- Started with a negative exponent, the loop does not end: no number of tests is
enough. -/
theorem pow_loop_negative (T : int_type) :
    ∀ (fuel : ℕ) (base exp res : ℤ), exp < 0 → pow_loop T fuel base exp res = none := by
  intro fuel
  induction fuel with
  | zero =>
    intro base exp res _
    rfl
  | succ n ih =>
    intro base exp res h
    unfold pow_loop
    rw [if_neg (by omega)]
    exact ih _ _ _ (by omega)

end streamfx.util.math

namespace streamfx.util.math

/-- C18. For a type `T` that has the value 1 (every integer type has), every `base` and
every exponent `e` with `0 <= e` that is a value of `T`: the loop of `math::pow` ends within
`sizeof(T) * 8 + 1` tests of `while (exp)`, whatever more it is allowed, and returns
`base ^ e` reduced modulo `2 ^ (sizeof(T) * 8)` to a value of `T`; `pow(base, 0)` is 1 for
every base. (With a negative exponent the loop never ends.) -/
theorem pow_returns_power_reduced (T : int_type) (base : ℤ) (e fuel : ℕ)
    (h1 : T.holds 1) (he : (e : ℤ) ≤ T.max) (hf : T.bits ≤ fuel) :
    pow T (fuel + 1) base e = some (T.wrap (base ^ e)) ∧
      T.wrap (base ^ e) ≡ base ^ e [ZMOD 2 ^ T.bits] ∧
      T.holds (T.wrap (base ^ e)) ∧
      pow T (fuel + 1) base 0 = some 1 ∧
      ∀ n, pow T n base (-(e : ℤ) - 1) = none := by
  have hb : 0 < T.bits := bits_pos_of_holds_one T h1
  have hw1 : T.wrap 1 = 1 := wrap_of_holds T 1 hb h1
  have hlt : e < 2 ^ fuel := by
    have hmax : T.max < 2 ^ T.bits := by
      unfold int_type.max
      split
      · have : (2 : ℤ) ^ (T.bits - 1) ≤ 2 ^ T.bits :=
          pow_le_pow_right₀ (by norm_num) (by omega)
        omega
      · omega
    have h2 : (2 : ℤ) ^ T.bits ≤ 2 ^ fuel := pow_le_pow_right₀ (by norm_num) hf
    have h3 : (e : ℤ) < 2 ^ fuel := by omega
    exact_mod_cast h3
  refine ⟨?_, wrap_modEq T _, holds_wrap T _ hb, ?_, ?_⟩
  · have h := pow_loop_spec T fuel base e 1 hw1 hlt
    rw [one_mul] at h
    exact h
  · have h := pow_loop_spec T fuel base 0 1 hw1 (by positivity)
    rw [pow_zero, mul_one, hw1] at h
    exact_mod_cast h
  · intro n
    exact pow_loop_negative T n base _ 1 (by omega)

/-- Witness of C18: `pow(3, 5)` on `uint8_t` is 243. -/
theorem pow_returns_power_reduced_witness :
    pow { bits := 8, signed := false } 9 3 5 = some 243 ∧
      pow { bits := 8, signed := false } 9 3 0 = some 1 := by
  have h := pow_returns_power_reduced { bits := 8, signed := false } 3 5 8 (by decide)
    (by decide) (by decide)
  exact ⟨h.1, h.2.2.2.1⟩

end streamfx.util.math

/-! ## Rounding in the normal range -/

theorem rne_le_add_half (x : ℚ) : (rne x : ℚ) ≤ x + 1 / 2 := by
  have h := abs_rne_sub_le x
  rw [abs_le] at h
  linarith [h.2]

theorem sub_half_le_rne (x : ℚ) : x - 1 / 2 ≤ (rne x : ℚ) := by
  have h := abs_rne_sub_le x
  rw [abs_le] at h
  linarith [h.1]

theorem rne_mono (x y : ℚ) (h : x ≤ y) : rne x ≤ rne y := by
  by_contra hlt
  rw [not_le] at hlt
  have h1 : (rne y : ℚ) + 1 ≤ (rne x : ℚ) := by exact_mod_cast hlt
  have h2 := rne_le_add_half x
  have h3 := sub_half_le_rne y
  have hxy : x = y := le_antisymm h (by linarith)
  rw [hxy] at hlt
  exact lt_irrefl _ hlt

/-- The rounding error on a grid of spacing `u` is at most half the spacing. -/
theorem scaled_rne_error (q u : ℚ) (hu : 0 < u) : |(rne (q / u) : ℚ) * u - q| ≤ u / 2 := by
  have h1 := abs_rne_sub_le (q / u)
  have h2 : (rne (q / u) : ℚ) * u - q = ((rne (q / u) : ℚ) - q / u) * u := by
    field_simp
  rw [h2, abs_mul, abs_of_pos hu]
  have := mul_le_mul_of_nonneg_right h1 hu.le
  linarith

theorem scaled_rne_mono (a b u : ℚ) (hu : 0 < u) (h : a ≤ b) :
    (rne (a / u) : ℚ) * u ≤ (rne (b / u) : ℚ) * u := by
  have h1 : a / u ≤ b / u := div_le_div_of_nonneg_right h hu.le
  have h2 : (rne (a / u) : ℚ) ≤ (rne (b / u) : ℚ) := by exact_mod_cast rne_mono _ _ h1
  exact mul_le_mul_of_nonneg_right h2 hu.le

/-- A value with leading bit `e`, rounded to `p + 1` significant bits, stays between
`2 ^ e` and `2 ^ (e + 1)`. -/
theorem scaled_rne_bracket (q : ℚ) (e : ℤ) (p : ℕ) (h1 : (2 : ℚ) ^ e ≤ q)
    (h2 : q < (2 : ℚ) ^ (e + 1)) :
    (2 : ℚ) ^ e ≤ (rne (q / 2 ^ (e - p)) : ℚ) * 2 ^ (e - p) ∧
      (rne (q / 2 ^ (e - p)) : ℚ) * 2 ^ (e - p) ≤ (2 : ℚ) ^ (e + 1) := by
  have hu : (0 : ℚ) < 2 ^ (e - (p : ℤ)) := by positivity
  have e1 : (2 : ℚ) ^ e = (((2 ^ p : ℕ) : ℤ) : ℚ) * 2 ^ (e - (p : ℤ)) := by
    push_cast
    rw [← zpow_natCast, ← zpow_add₀ (by norm_num : (2 : ℚ) ≠ 0)]
    congr 1
    ring
  have e2 : (2 : ℚ) ^ (e + 1) = (((2 ^ (p + 1) : ℕ) : ℤ) : ℚ) * 2 ^ (e - (p : ℤ)) := by
    push_cast
    rw [← zpow_natCast, ← zpow_add₀ (by norm_num : (2 : ℚ) ≠ 0)]
    congr 1
    push_cast
    ring
  have t1 : (((2 ^ p : ℕ) : ℤ) : ℚ) ≤ q / 2 ^ (e - (p : ℤ)) := by
    rw [le_div_iff₀ hu, ← e1]
    exact h1
  have t2 : q / 2 ^ (e - (p : ℤ)) ≤ (((2 ^ (p + 1) : ℕ) : ℤ) : ℚ) := by
    rw [div_le_iff₀ hu, ← e2]
    exact h2.le
  have r1 := rne_mono _ _ t1
  have r2 := rne_mono _ _ t2
  rw [rne_intCast] at r1 r2
  have r1' : (((2 ^ p : ℕ) : ℤ) : ℚ) ≤ (rne (q / 2 ^ (e - (p : ℤ))) : ℚ) := by exact_mod_cast r1
  have r2' : (rne (q / 2 ^ (e - (p : ℤ))) : ℚ) ≤ (((2 ^ (p + 1) : ℕ) : ℤ) : ℚ) := by
    exact_mod_cast r2
  constructor
  · rw [e1]
    exact mul_le_mul_of_nonneg_right r1' hu.le
  · rw [e2]
    exact mul_le_mul_of_nonneg_right r2' hu.le

theorem ilog2_unique (q : ℚ) (e : ℤ) (h1 : (2 : ℚ) ^ e ≤ |q|) (h2 : |q| < (2 : ℚ) ^ (e + 1)) :
    ilog2 q = e := by
  have hq : q ≠ 0 := by
    intro h
    rw [h, abs_zero] at h1
    have : (0 : ℚ) < 2 ^ e := by positivity
    linarith
  have a1 := ilog2_le q hq
  have a2 := ilog2_lt q hq
  have b1 := lt_of_le_of_lt a1 h2
  have b2 := lt_of_le_of_lt h1 a2
  have c1 := (zpow_lt_zpow_iff_right₀ (by norm_num : (1 : ℚ) < 2)).mp b1
  have c2 := (zpow_lt_zpow_iff_right₀ (by norm_num : (1 : ℚ) < 2)).mp b2
  omega

theorem ilog2_ge_of_le (q : ℚ) (e : ℤ) (h : (2 : ℚ) ^ e ≤ |q|) : e ≤ ilog2 q := by
  have hq : q ≠ 0 := by
    intro h0
    rw [h0, abs_zero] at h
    have : (0 : ℚ) < 2 ^ e := by positivity
    linarith
  have a2 := ilog2_lt q hq
  have b2 := lt_of_le_of_lt h a2
  have c2 := (zpow_lt_zpow_iff_right₀ (by norm_num : (1 : ℚ) < 2)).mp b2
  omega

theorem ilog2_lt_of_lt (q : ℚ) (e : ℤ) (hq : q ≠ 0) (h : |q| < (2 : ℚ) ^ e) : ilog2 q < e := by
  have a1 := ilog2_le q hq
  have b1 := lt_of_le_of_lt a1 h
  exact (zpow_lt_zpow_iff_right₀ (by norm_num : (1 : ℚ) < 2)).mp b1

/-- Rounding to binary32 of a positive value of the normal range: the result is finite,
has the leading bit of the value or is the next power of two, and differs from the value by
at most `2 ^ (-24)` of it. -/
theorem round32_normal (q : ℚ) (h1 : (2 : ℚ) ^ (-126 : ℤ) ≤ q) (h2 : q < (2 : ℚ) ^ (127 : ℤ)) :
    round32 q = .fin ((rne (q / 2 ^ (ilog2 q - 23)) : ℚ) * 2 ^ (ilog2 q - 23)) ∧
      (2 : ℚ) ^ ilog2 q ≤ (rne (q / 2 ^ (ilog2 q - 23)) : ℚ) * 2 ^ (ilog2 q - 23) ∧
      (rne (q / 2 ^ (ilog2 q - 23)) : ℚ) * 2 ^ (ilog2 q - 23) ≤ (2 : ℚ) ^ (ilog2 q + 1) ∧
      |(rne (q / 2 ^ (ilog2 q - 23)) : ℚ) * 2 ^ (ilog2 q - 23) - q| ≤ q / 2 ^ 24 := by
  have hpos : (0 : ℚ) < q := lt_of_lt_of_le (by positivity) h1
  have hne : q ≠ 0 := ne_of_gt hpos
  have habs : |q| = q := abs_of_pos hpos
  have hge : -126 ≤ ilog2 q := ilog2_ge_of_le q _ (by rw [habs]; exact h1)
  have hlt : ilog2 q < 127 := ilog2_lt_of_lt q _ hne (by rw [habs]; exact h2)
  have b1 : (2 : ℚ) ^ ilog2 q ≤ q := by
    have := ilog2_le q hne
    rwa [habs] at this
  have b2 : q < (2 : ℚ) ^ (ilog2 q + 1) := by
    have := ilog2_lt q hne
    rwa [habs] at this
  have br := scaled_rne_bracket q (ilog2 q) 23 b1 b2
  have hu : (0 : ℚ) < 2 ^ (ilog2 q - 23) := by positivity
  have herr := scaled_rne_error q _ hu
  refine ⟨?_, br.1, br.2, ?_⟩
  · unfold round32
    simp only
    rw [max_eq_left hge]
    rw [if_neg]
    rw [not_le]
    have hR0 : (0 : ℚ) ≤ (rne (q / 2 ^ (ilog2 q - 23)) : ℚ) * 2 ^ (ilog2 q - 23) :=
      le_trans (by positivity) br.1
    rw [abs_of_nonneg hR0]
    have h3 : (2 : ℚ) ^ (ilog2 q + 1) ≤ (2 : ℚ) ^ (127 : ℤ) :=
      zpow_le_zpow_right₀ (by norm_num) (by omega)
    have h4 : (2 : ℚ) ^ (127 : ℤ) < (2 : ℚ) ^ (128 : ℤ) :=
      zpow_lt_zpow_right₀ (by norm_num) (by norm_num)
    exact lt_of_le_of_lt (le_trans br.2 h3) h4
  · have e : (2 : ℚ) ^ (ilog2 q - 23) / 2 = 2 ^ ilog2 q / 2 ^ 24 := by
      have p : (2 : ℚ) ^ 24 = 2 ^ 23 * 2 := by norm_num
      rw [zpow_sub₀ (by norm_num : (2 : ℚ) ≠ 0), p]
      rw [show ((23 : ℤ)) = ((23 : ℕ) : ℤ) by norm_num, zpow_natCast]
      field_simp
    rw [e] at herr
    have h4 : (2 : ℚ) ^ ilog2 q / 2 ^ 24 ≤ q / 2 ^ 24 :=
      div_le_div_of_nonneg_right b1 (by positivity)
    exact le_trans herr h4

/-- Rounding to binary32 is monotone on the positive values of the normal range. -/
theorem round32_mono (a b ra rb : ℚ) (ha : round32 a = .fin ra) (hb : round32 b = .fin rb)
    (h1 : (2 : ℚ) ^ (-126 : ℤ) ≤ a) (hab : a ≤ b) (h2 : b < (2 : ℚ) ^ (127 : ℤ)) :
    ra ≤ rb := by
  have na := round32_normal a h1 (lt_of_le_of_lt hab h2)
  have nb := round32_normal b (le_trans h1 hab) h2
  rw [na.1] at ha
  rw [nb.1] at hb
  injection ha with ha
  injection hb with hb
  rw [← ha, ← hb]
  have hposa : (0 : ℚ) < a := lt_of_lt_of_le (by positivity) h1
  have hposb : (0 : ℚ) < b := lt_of_lt_of_le hposa hab
  have la : (2 : ℚ) ^ ilog2 a ≤ a := by
    have := ilog2_le a (ne_of_gt hposa)
    rwa [abs_of_pos hposa] at this
  have ub : b < (2 : ℚ) ^ (ilog2 b + 1) := by
    have := ilog2_lt b (ne_of_gt hposb)
    rwa [abs_of_pos hposb] at this
  have hle : ilog2 a ≤ ilog2 b := by
    have := lt_of_le_of_lt (le_trans la hab) ub
    have := (zpow_lt_zpow_iff_right₀ (by norm_num : (1 : ℚ) < 2)).mp this
    omega
  rcases eq_or_lt_of_le hle with heq | hlt
  · rw [heq]
    exact scaled_rne_mono a b _ (by positivity) hab
  · have h3 : (2 : ℚ) ^ (ilog2 a + 1) ≤ (2 : ℚ) ^ ilog2 b :=
      zpow_le_zpow_right₀ (by norm_num) (by omega)
    exact le_trans na.2.2.1 (le_trans h3 nb.2.1)

/-! ## The inverse of the normalisation -/

namespace streamfx.gfx.blur

theorem round32_three : round32 3 = .fin 3 := by decide!

theorem round32_128 : round32 128 = .fin 128 := by decide!

theorem round32_256 : round32 256 = .fin 256 := by decide!

theorem round32_257 : round32 257 = .fin 257 := by decide!

theorem round32_one_third : round32 (1 / 3) = .fin (11184811 / 2 ^ 25) := by decide!

theorem round32_one_257th : round32 (1 / 257) = .fin (16711935 / 2 ^ 32) := by decide!

theorem two_pow_neg_126_le_one_257th : (2 : ℚ) ^ (-126 : ℤ) ≤ 1 / 257 := by
  have h : (2 : ℚ) ^ (-126 : ℤ) ≤ (2 : ℚ) ^ (-9 : ℤ) :=
    zpow_le_zpow_right₀ (by norm_num) (by norm_num)
  have h2 : (2 : ℚ) ^ (-9 : ℤ) ≤ 1 / 257 := by norm_num
  exact le_trans h h2

theorem lt_two_pow_127 (x : ℚ) (h : x ≤ 257) : x < (2 : ℚ) ^ (127 : ℤ) := by
  have h1 : (2 : ℚ) ^ (9 : ℤ) ≤ (2 : ℚ) ^ (127 : ℤ) :=
    zpow_le_zpow_right₀ (by norm_num) (by norm_num)
  have h2 : (257 : ℚ) < (2 : ℚ) ^ (9 : ℤ) := by norm_num
  linarith

/-- Between 1/257 and 257 a rounding to binary32 is finite, and off by at most
`2 ^ (-24)`, relatively. -/
theorem round32_mid (q : ℚ) (h1 : 1 / 257 ≤ q) (h2 : q ≤ 257) :
    ∃ r : ℚ, round32 q = .fin r ∧ q - q / 2 ^ 24 ≤ r ∧ r ≤ q + q / 2 ^ 24 := by
  have n := round32_normal q (le_trans two_pow_neg_126_le_one_257th h1) (lt_two_pow_127 q h2)
  have e := abs_le.mp n.2.2.2
  exact ⟨_, n.1, by linarith [e.1], by linarith [e.2]⟩

/-- Rounding to binary32 is monotone between 1/257 and 257. -/
theorem round32_mid_mono (a b ra rb : ℚ) (ha : round32 a = .fin ra) (hb : round32 b = .fin rb)
    (h1 : 1 / 257 ≤ a) (hab : a ≤ b) (h2 : b ≤ 257) : ra ≤ rb :=
  round32_mono a b ra rb ha hb (le_trans two_pow_neg_126_le_one_257th h1) hab
    (lt_two_pow_127 b h2)

/-- The `float` arithmetic of `1.0f / (float_t(_size) * 2.0f + 1.0f)` for a size `s` of
[1, 128]: the four roundings give finite values; the divisor is in [3, 257]; the quotient
is between the floats nearest to 1/257 and to 1/3, and within `2 ^ (-21)` of
`1 / (2 * s + 1)`, relatively. -/
theorem inverse_mul_arithmetic (s : ℚ) (h1 : 1 ≤ s) (h2 : s ≤ 128) :
    ∃ r1 r2 r3 f : ℚ, round32 s = .fin r1 ∧ round32 (r1 * 2) = .fin r2 ∧
      round32 (r2 + 1) = .fin r3 ∧ round32 (1 / r3) = .fin f ∧
      3 ≤ r3 ∧ r3 ≤ 257 ∧ 16711935 / 2 ^ 32 ≤ f ∧ f ≤ 11184811 / 2 ^ 25 ∧
      |f - 1 / (2 * s + 1)| ≤ 1 / (2 * s + 1) / 2 ^ 21 := by
  obtain ⟨r1, n1, l1, u1⟩ := round32_mid s (by linarith) (by linarith)
  have a1 : 1 ≤ r1 :=
    round32_mid_mono 1 s 1 r1 round32_one n1 (by norm_num) h1 (by linarith)
  have b1 : r1 ≤ 128 :=
    round32_mid_mono s 128 r1 128 n1 round32_128 (by linarith) h2 (by norm_num)
  obtain ⟨r2, n2, l2, u2⟩ := round32_mid (r1 * 2) (by linarith) (by linarith)
  have a2 : 2 ≤ r2 :=
    round32_mid_mono 2 (r1 * 2) 2 r2 round32_two n2 (by norm_num) (by linarith) (by linarith)
  have b2 : r2 ≤ 256 :=
    round32_mid_mono (r1 * 2) 256 r2 256 n2 round32_256 (by linarith) (by linarith)
      (by norm_num)
  obtain ⟨r3, n3, l3, u3⟩ := round32_mid (r2 + 1) (by linarith) (by linarith)
  have a3 : 3 ≤ r3 :=
    round32_mid_mono 3 (r2 + 1) 3 r3 round32_three n3 (by norm_num) (by linarith) (by linarith)
  have b3 : r3 ≤ 257 :=
    round32_mid_mono (r2 + 1) 257 r3 257 n3 round32_257 (by linarith) (by linarith)
      (by norm_num)
  have hr3pos : (0 : ℚ) < r3 := by linarith
  have q1 : 1 / 257 ≤ 1 / r3 := by
    rw [div_le_div_iff₀ (by norm_num) hr3pos]
    linarith
  have q2 : 1 / r3 ≤ 1 / 3 := by
    rw [div_le_div_iff₀ hr3pos (by norm_num)]
    linarith
  obtain ⟨f, n4, l4, u4⟩ := round32_mid (1 / r3) q1 (by linarith)
  have a4 : 16711935 / 2 ^ 32 ≤ f :=
    round32_mid_mono (1 / 257) (1 / r3) _ f round32_one_257th n4 le_rfl q1 (by linarith)
  have b4 : f ≤ 11184811 / 2 ^ 25 :=
    round32_mid_mono (1 / r3) (1 / 3) f _ n4 round32_one_third q1 q2 (by norm_num)
  refine ⟨r1, r2, r3, f, n1, n2, n3, n4, a3, b3, a4, b4, ?_⟩
  have hT : (0 : ℚ) < 2 * s + 1 := by linarith
  have hz : (0 : ℚ) < 1 / (2 * s + 1) := by positivity
  have U3 : r3 ≤ (2 * s + 1) * (1 + 4 / 2 ^ 24) := by
    norm_num at l1 u1 l2 u2 l3 u3 ⊢
    linarith
  have L3 : (2 * s + 1) * (1 - 4 / 2 ^ 24) ≤ r3 := by
    norm_num at l1 u1 l2 u2 l3 u3 ⊢
    linarith
  have y1 : 1 / r3 ≤ (1 + 5 / 2 ^ 24) * (1 / (2 * s + 1)) := by
    have e : (1 + 5 / 2 ^ 24) * (1 / (2 * s + 1)) = (1 + 5 / 2 ^ 24) / (2 * s + 1) := by ring
    rw [e, div_le_div_iff₀ hr3pos hT]
    norm_num at L3 ⊢
    linarith
  have y2 : (1 - 5 / 2 ^ 24) * (1 / (2 * s + 1)) ≤ 1 / r3 := by
    have e : (1 - 5 / 2 ^ 24) * (1 / (2 * s + 1)) = (1 - 5 / 2 ^ 24) / (2 * s + 1) := by ring
    rw [e, div_le_div_iff₀ hT hr3pos]
    norm_num at U3 ⊢
    linarith
  generalize 1 / r3 = y at l4 u4 y1 y2
  generalize 1 / (2 * s + 1) = z at hz y1 y2 ⊢
  rw [abs_le]
  norm_num at l4 u4 y1 y2 ⊢
  constructor <;> linarith

end streamfx.gfx.blur

namespace streamfx.gfx.blur

open obs.gs

/-- A double within [1, 128] is a finite number of that interval. -/
theorem within_one_128 (x : double_t) (h : double_t.within x (.fin 1) (.fin 128)) :
    ∃ s : ℚ, x = .fin s ∧ 1 ≤ s ∧ s ≤ 128 := by
  cases x with
  | nan => exact absurd h (by decide)
  | ninf => exact absurd h (by decide)
  | pinf => exact absurd h (by decide)
  | fin q =>
    simp only [double_t.within, double_t.le, decide_eq_true_eq] at h
    exact ⟨q, rfl, h.1, h.2⟩

/-- The value of the divisor `float_t(_size) * 2.0f + 1.0f` and of the expression bound to
`pSizeInverseMul`, for a size of [1, 128]. -/
theorem eval_inverse_mul (env : environment) (s : ℚ) (h1 : 1 ≤ s) (h2 : s ≤ 128) :
    ∃ dv f : ℚ,
      (fexpr.add (.mul (.float_t (.member (.fin s))) (.lit_f 2)) (.lit_f 1)).eval env
        = some (.f32 (.fin dv)) ∧
      (fexpr.float_t (.div (.lit_f 1)
        (.add (.mul (.float_t (.member (.fin s))) (.lit_f 2)) (.lit_f 1)))).eval env
        = some (.f32 (.fin f)) ∧
      round32 (1 / dv) = .fin f ∧
      3 ≤ dv ∧ dv ≤ 257 ∧ 16711935 / 2 ^ 32 ≤ f ∧ f ≤ 11184811 / 2 ^ 25 ∧
      |f - 1 / (2 * s + 1)| ≤ 1 / (2 * s + 1) / 2 ^ 21 := by
  obtain ⟨r1, r2, r3, f, n1, n2, n3, n4, a3, b3, a4, b4, e⟩ := inverse_mul_arithmetic s h1 h2
  have hne : r3 ≠ 0 := by
    intro h
    rw [h] at a3
    norm_num at a3
  have n5 : round32 r3⁻¹ = .fin f := by rw [← one_div]; exact n4
  refine ⟨r3, f, ?_, ?_, n4, a3, b3, a4, b4, e⟩
  · simp [fexpr.eval, cvalue.to_f32, cvalue.binary, double_t.to_float, double_t.mul_in,
      double_t.add_in, n1, n2, n3, round32_two, round32_one]
  · simp [fexpr.eval, cvalue.to_f32, cvalue.binary, double_t.to_float, double_t.mul_in,
      double_t.add_in, double_t.div, n1, n2, n3, n5, round32_two, round32_one, hne]

/-- The expression `render()` binds to `pSizeInverseMul`, once, when the effect is there;
without the effect nothing is bound. -/
theorem inverse_mul_eq (w : world) (v : base) (input : texture)
    (hin : v.to_box._input_texture = some input) :
    v.inverse_mul w = some
      (match (w.objects v.to_box._data).get_effect with
       | some _ =>
         [fexpr.float_t (.div (.lit_f 1)
           (.add (.mul (.float_t (.member v.get_size)) (.lit_f 2)) (.lit_f 1)))]
       | none => []) := by
  cases v with
  | box b =>
    simp only [base.to_box] at hin
    cases he : (w.objects b._data).get_effect <;>
      simp [base.inverse_mul, base.render, box.render, hin, he, base.to_box, base.get_size,
        box.get_size, gs_call.float_bound, two_pass_state, one_pass_state]
  | box_directional d =>
    simp only [base.to_box] at hin
    cases he : (w.objects d.super._data).get_effect <;>
      simp [base.inverse_mul, base.render, box_directional.render, hin, he, base.to_box,
        base.get_size, box.get_size, gs_call.float_bound, two_pass_state, one_pass_state]
  | box_rotational d =>
    simp only [base.to_box] at hin
    cases he : (w.objects d.super._data).get_effect <;>
      simp [base.inverse_mul, base.render, box_rotational.render, hin, he, base.to_box,
        base.get_size, box.get_size, gs_call.float_bound, two_pass_state, one_pass_state]
  | box_zoom d =>
    simp only [base.to_box] at hin
    cases he : (w.objects d.super._data).get_effect <;>
      simp [base.inverse_mul, base.render, box_zoom.render, hin, he, base.to_box,
        base.get_size, box.get_size, gs_call.float_bound, two_pass_state, one_pass_state]

end streamfx.gfx.blur

namespace streamfx.gfx.blur

open obs.gs

/-- C14, the claim as stated fails, in two ways. The uniform is computed in `float`
arithmetic: on the Area variant made at process start, whose radius is 1, `render()` binds
`11184811 / 2 ^ 25`, the `float` nearest to 1/3, which is not 1/3 and is above it, outside
[1/257, 1/3]. And a reachable state need not have its size in [1, 128]: after
`set_size(NaN)` the size `get_size()` returns is NaN, and the uniform is NaN. -/
theorem inverse_mul_is_neither_exact_nor_always_bounded :
    ((base.box (box.new (world.start true)).1).set_input
        (some { object := 100, version := 0 })).get_size = .fin 1 ∧
      ((base.box (box.new (world.start true)).1).set_input
        (some { object := 100, version := 0 })).inverse_mul (box.new (world.start true)).2
        = some [fexpr.float_t (.div (.lit_f 1)
            (.add (.mul (.float_t (.member (.fin 1))) (.lit_f 2)) (.lit_f 1)))] ∧
      (fexpr.float_t (.div (.lit_f 1)
          (.add (.mul (.float_t (.member (.fin 1))) (.lit_f 2)) (.lit_f 1)))).eval
        (environment.sample 1 1) = some (.f32 (.fin (11184811 / 2 ^ 25))) ∧
      (1 / (2 * 1 + 1) : ℚ) < 11184811 / 2 ^ 25 ∧
      (((base.box (box.new (world.start true)).1).set_input
        (some { object := 100, version := 0 })).set_size .nan).get_size = .nan ∧
      (((base.box (box.new (world.start true)).1).set_input
        (some { object := 100, version := 0 })).set_size .nan).inverse_mul
          (box.new (world.start true)).2
        = some [fexpr.float_t (.div (.lit_f 1)
            (.add (.mul (.float_t (.member .nan)) (.lit_f 2)) (.lit_f 1)))] ∧
      (fexpr.float_t (.div (.lit_f 1)
          (.add (.mul (.float_t (.member .nan)) (.lit_f 2)) (.lit_f 1)))).eval
        (environment.sample 1 1) = some (.f32 .nan) := by
  refine ⟨rfl, by decide!, by decide!, by norm_num, rfl, by decide!, by decide!⟩

/-- C14, amended. In every state reached from `create` by calls in which `set_size` is
never passed NaN, the size `get_size()` returns is a number `s` of [1, 128]. With an input
texture bound, `render()` of every kind binds to `pSizeInverseMul`, once when the effect
is there and not at all without it, the `float` expression
`1.0f / (float_t(_size) * 2.0f + 1.0f)`. Its divisor evaluates to a `float` of [3, 257],
so the division is never by zero; its value is the `float` nearest to the inverse of
that divisor, lies between `16711935 / 2 ^ 32` and `11184811 / 2 ^ 25`, the floats nearest
to 1/257 and 1/3, and differs from `1 / (2 * s + 1)` by at most `2 ^ (-21)` of it. -/
theorem inverse_mul_is_rounded_inverse (k : type) (w : world) (u : indeterminate)
    (v v1 : base) (cs : List (world × call)) (w1 : world) (input : texture)
    (env : environment)
    (hv : (box_factory.create k w u).1 = .ok v)
    (hcs : ∀ wc ∈ cs, wc.2 ≠ call.set_size .nan)
    (hrun : v.run cs = some v1)
    (hin : v1.to_box._input_texture = some input) :
    ∃ s dv f : ℚ, v1.get_size = .fin s ∧ 1 ≤ s ∧ s ≤ 128 ∧
      v1.inverse_mul w1 = some
        (match (w1.objects v1.to_box._data).get_effect with
         | some _ =>
           [fexpr.float_t (.div (.lit_f 1)
             (.add (.mul (.float_t (.member (.fin s))) (.lit_f 2)) (.lit_f 1)))]
         | none => []) ∧
      (fexpr.add (.mul (.float_t (.member (.fin s))) (.lit_f 2)) (.lit_f 1)).eval env
        = some (.f32 (.fin dv)) ∧
      3 ≤ dv ∧ dv ≤ 257 ∧ dv ≠ 0 ∧
      (fexpr.float_t (.div (.lit_f 1)
        (.add (.mul (.float_t (.member (.fin s))) (.lit_f 2)) (.lit_f 1)))).eval env
        = some (.f32 (.fin f)) ∧
      round32 (1 / dv) = .fin f ∧
      16711935 / 2 ^ 32 ≤ f ∧ f ≤ 11184811 / 2 ^ 25 ∧
      |f - 1 / (2 * s + 1)| ≤ 1 / (2 * s + 1) / 2 ^ 21 := by
  have h0 : double_t.within v.get_size (.fin 1) (.fin 128) := by
    rw [create_size k w u v hv]
    decide
  obtain ⟨s, hs, h1, h2⟩ := within_one_128 _ (run_keeps_within cs v v1 h0 hcs hrun)
  obtain ⟨dv, f, e1, e2, n4, a3, b3, a4, b4, e⟩ := eval_inverse_mul env s h1 h2
  have hne : dv ≠ 0 := by
    intro h
    rw [h] at a3
    norm_num at a3
  refine ⟨s, dv, f, hs, h1, h2, ?_, e1, a3, b3, hne, e2, n4, a4, b4, e⟩
  rw [inverse_mul_eq w1 v1 input hin, hs]

/-- Witness of C14, amended: the Area variant made at process start, after `set_size(200)`
and `set_input`, whose size is 128. -/
theorem inverse_mul_is_rounded_inverse_witness :
    ∃ s dv f : ℚ,
      (((base.box (box.new (world.start true)).1).set_size (.fin 200)).set_input
        (some { object := 100, version := 0 })).get_size = .fin s ∧ 1 ≤ s ∧ s ≤ 128 ∧
      (((base.box (box.new (world.start true)).1).set_size (.fin 200)).set_input
        (some { object := 100, version := 0 })).inverse_mul (box.new (world.start true)).2
        = some
        (match ((box.new (world.start true)).2.objects
            (((base.box (box.new (world.start true)).1).set_size (.fin 200)).set_input
              (some { object := 100, version := 0 })).to_box._data).get_effect with
         | some _ =>
           [fexpr.float_t (.div (.lit_f 1)
             (.add (.mul (.float_t (.member (.fin s))) (.lit_f 2)) (.lit_f 1)))]
         | none => []) ∧
      (fexpr.add (.mul (.float_t (.member (.fin s))) (.lit_f 2)) (.lit_f 1)).eval
        (environment.sample 1 1) = some (.f32 (.fin dv)) ∧
      3 ≤ dv ∧ dv ≤ 257 ∧ dv ≠ 0 ∧
      (fexpr.float_t (.div (.lit_f 1)
        (.add (.mul (.float_t (.member (.fin s))) (.lit_f 2)) (.lit_f 1)))).eval
        (environment.sample 1 1) = some (.f32 (.fin f)) ∧
      round32 (1 / dv) = .fin f ∧
      16711935 / 2 ^ 32 ≤ f ∧ f ≤ 11184811 / 2 ^ 25 ∧
      |f - 1 / (2 * s + 1)| ≤ 1 / (2 * s + 1) / 2 ^ 21 :=
  inverse_mul_is_rounded_inverse type.Area (world.start true)
    { _angle := .nan, _center := (.nan, .nan) }
    (base.box (box.new (world.start true)).1)
    (((base.box (box.new (world.start true)).1).set_size (.fin 200)).set_input
      (some { object := 100, version := 0 }))
    [(world.start true, call.set_size (.fin 200)),
     (world.start true, call.set_input (some { object := 100, version := 0 }))]
    (box.new (world.start true)).2 { object := 100, version := 0 }
    (environment.sample 1 1) rfl (by simp) rfl rfl

end streamfx.gfx.blur

/-! ## Rounding to binary64 and then to binary32 -/

theorem rne_eq_of_abs_sub_lt (x : ℚ) (n : ℤ) (h : |x - n| < 1 / 2) : rne x = n := by
  have h1 := abs_rne_sub_le x
  rw [abs_lt] at h
  rw [abs_le] at h1
  have a : ((rne x : ℤ) : ℚ) < (n : ℚ) + 1 := by linarith [h.1, h1.2]
  have b : (n : ℚ) - 1 < ((rne x : ℤ) : ℚ) := by linarith [h.2, h1.1]
  have a1 : rne x < n + 1 := by exact_mod_cast a
  have b1 : n - 1 < rne x := by exact_mod_cast b
  omega

/-- A value between `2 ^ e` and `2 ^ (e + 1)` that is less than half a unit of the last
place away from `n` units rounds to these `n` units in binary32. -/
theorem round32_of_near (q : ℚ) (e n : ℤ) (he1 : -126 ≤ e) (he2 : e < 126)
    (h1 : (2 : ℚ) ^ e ≤ q) (h2 : q ≤ (2 : ℚ) ^ (e + 1))
    (hn : |q / 2 ^ (e - 23) - n| < 1 / 2) :
    round32 q = .fin ((n : ℚ) * 2 ^ (e - 23)) := by
  have hpos : (0 : ℚ) < q := lt_of_lt_of_le (by positivity) h1
  have habs : |q| = q := abs_of_pos hpos
  have lo : (2 : ℚ) ^ (-126 : ℤ) ≤ q :=
    le_trans (zpow_le_zpow_right₀ (by norm_num) he1) h1
  have hi : q < (2 : ℚ) ^ (127 : ℤ) :=
    lt_of_le_of_lt h2 (zpow_lt_zpow_right₀ (by norm_num) (by omega))
  have nq := (round32_normal q lo hi).1
  rcases lt_or_eq_of_le h2 with hlt | heq
  · have hil : ilog2 q = e := ilog2_unique q e (by rw [habs]; exact h1) (by rw [habs]; exact hlt)
    rw [hil] at nq
    rw [nq, rne_eq_of_abs_sub_lt _ n hn]
  · have z1 : (2 : ℚ) ^ (e + 1) < (2 : ℚ) ^ (e + 1 + 1) :=
      zpow_lt_zpow_right₀ (by norm_num) (by omega)
    have hil : ilog2 q = e + 1 :=
      ilog2_unique q (e + 1) (by rw [habs, heq]) (by rw [habs, heq]; exact z1)
    rw [hil] at nq
    have d1 : q / 2 ^ (e + 1 - 23) = (((2 ^ 23 : ℤ)) : ℚ) := by
      rw [heq, ← zpow_sub₀ (by norm_num : (2 : ℚ) ≠ 0)]
      rw [show e + 1 - (e + 1 - 23) = ((23 : ℕ) : ℤ) by push_cast; ring, zpow_natCast]
      norm_num
    have d2 : q / 2 ^ (e - 23) = (2 : ℚ) ^ 24 := by
      rw [heq, ← zpow_sub₀ (by norm_num : (2 : ℚ) ≠ 0)]
      rw [show e + 1 - (e - 23) = ((24 : ℕ) : ℤ) by push_cast; ring, zpow_natCast]
    rw [d1, rne_intCast] at nq
    rw [d2] at hn
    have hn2 : n = 2 ^ 24 := by
      rw [abs_lt] at hn
      have a : (n : ℚ) < (2 : ℚ) ^ 24 + 1 := by linarith [hn.1]
      have b : (2 : ℚ) ^ 24 - 1 < (n : ℚ) := by linarith [hn.2]
      have a1 : n < 2 ^ 24 + 1 := by exact_mod_cast a
      have b1 : (2 : ℤ) ^ 24 - 1 < n := by exact_mod_cast b
      omega
    rw [nq, hn2]
    congr 1
    rw [show e + 1 - 23 = (e - 23) + 1 by ring, zpow_add_one₀ (by norm_num : (2 : ℚ) ≠ 0)]
    push_cast
    ring

/-- Rounding to binary64 of a value with leading bit `e`, in the normal range: the result is
finite, stays between `2 ^ e` and `2 ^ (e + 1)` and is off by at most `2 ^ (e - 53)`. -/
theorem round64_normal (q : ℚ) (e : ℤ) (he1 : -1022 ≤ e) (he2 : e < 1023)
    (h1 : (2 : ℚ) ^ e ≤ q) (h2 : q < (2 : ℚ) ^ (e + 1)) :
    round64 q = .fin ((rne (q / 2 ^ (e - 52)) : ℚ) * 2 ^ (e - 52)) ∧
      (2 : ℚ) ^ e ≤ (rne (q / 2 ^ (e - 52)) : ℚ) * 2 ^ (e - 52) ∧
      (rne (q / 2 ^ (e - 52)) : ℚ) * 2 ^ (e - 52) ≤ (2 : ℚ) ^ (e + 1) ∧
      |(rne (q / 2 ^ (e - 52)) : ℚ) * 2 ^ (e - 52) - q| ≤ (2 : ℚ) ^ (e - 53) := by
  have hpos : (0 : ℚ) < q := lt_of_lt_of_le (by positivity) h1
  have habs : |q| = q := abs_of_pos hpos
  have hil : ilog2 q = e := ilog2_unique q e (by rw [habs]; exact h1) (by rw [habs]; exact h2)
  have br := scaled_rne_bracket q e 52 h1 h2
  have hu : (0 : ℚ) < 2 ^ (e - 52) := by positivity
  have herr := scaled_rne_error q _ hu
  refine ⟨?_, br.1, br.2, ?_⟩
  · unfold round64
    simp only
    rw [hil, max_eq_left he1, if_neg]
    rw [not_le]
    have hR0 : (0 : ℚ) ≤ (rne (q / 2 ^ (e - 52)) : ℚ) * 2 ^ (e - 52) :=
      le_trans (by positivity) br.1
    rw [abs_of_nonneg hR0]
    have h3 : (2 : ℚ) ^ (e + 1) ≤ (2 : ℚ) ^ (1023 : ℤ) :=
      zpow_le_zpow_right₀ (by norm_num) (by omega)
    have h4 : (2 : ℚ) ^ (1023 : ℤ) < (2 : ℚ) ^ (1024 : ℤ) :=
      zpow_lt_zpow_right₀ (by norm_num) (by norm_num)
    exact lt_of_le_of_lt (le_trans br.2 h3) h4
  · have e53 : (2 : ℚ) ^ (e - 52) / 2 = 2 ^ (e - 53) := by
      rw [show e - 52 = (e - 53) + 1 by ring, zpow_add_one₀ (by norm_num : (2 : ℚ) ≠ 0)]
      field_simp
    rw [e53] at herr
    exact herr

/-- A value between `2 ^ e` and `2 ^ (e + 1)` that is less than half a unit of the last
place away from `n` units rounds to these `n` units in binary64. -/
theorem round64_of_near (q : ℚ) (e n : ℤ) (he1 : -1022 ≤ e) (he2 : e < 1022)
    (h1 : (2 : ℚ) ^ e ≤ q) (h2 : q ≤ (2 : ℚ) ^ (e + 1))
    (hn : |q / 2 ^ (e - 52) - n| < 1 / 2) :
    round64 q = .fin ((n : ℚ) * 2 ^ (e - 52)) := by
  rcases lt_or_eq_of_le h2 with hlt | heq
  · rw [(round64_normal q e he1 (by omega) h1 hlt).1, rne_eq_of_abs_sub_lt _ n hn]
  · have z1 : (2 : ℚ) ^ (e + 1) < (2 : ℚ) ^ (e + 1 + 1) :=
      zpow_lt_zpow_right₀ (by norm_num) (by omega)
    have nq := (round64_normal q (e + 1) (by omega) (by omega) (le_of_eq heq.symm)
      (by rw [heq]; exact z1)).1
    have d1 : q / 2 ^ (e + 1 - 52) = (((2 ^ 52 : ℤ)) : ℚ) := by
      rw [heq, ← zpow_sub₀ (by norm_num : (2 : ℚ) ≠ 0)]
      rw [show e + 1 - (e + 1 - 52) = ((52 : ℕ) : ℤ) by push_cast; ring, zpow_natCast]
      norm_num
    have d2 : q / 2 ^ (e - 52) = (2 : ℚ) ^ 53 := by
      rw [heq, ← zpow_sub₀ (by norm_num : (2 : ℚ) ≠ 0)]
      rw [show e + 1 - (e - 52) = ((53 : ℕ) : ℤ) by push_cast; ring, zpow_natCast]
    rw [d1, rne_intCast] at nq
    rw [d2] at hn
    have hn2 : n = 2 ^ 53 := by
      rw [abs_lt] at hn
      have a : (n : ℚ) < (2 : ℚ) ^ 53 + 1 := by linarith [hn.1]
      have b : (2 : ℚ) ^ 53 - 1 < (n : ℚ) := by linarith [hn.2]
      have a1 : n < 2 ^ 53 + 1 := by exact_mod_cast a
      have b1 : (2 : ℤ) ^ 53 - 1 < n := by exact_mod_cast b
      omega
    rw [nq, hn2]
    congr 1
    rw [show e + 1 - 52 = (e - 52) + 1 by ring, zpow_add_one₀ (by norm_num : (2 : ℚ) ≠ 0)]
    push_cast
    ring

/-- Rounding to binary64, in the normal range, gives a value that binary64 holds: rounding
it again changes nothing. -/
theorem round64_near (q : ℚ) (e : ℤ) (he1 : -1022 ≤ e) (he2 : e < 1022)
    (h1 : (2 : ℚ) ^ e ≤ q) (h2 : q < (2 : ℚ) ^ (e + 1)) :
    ∃ x : ℚ, round64 q = .fin x ∧ round64 x = .fin x ∧ (2 : ℚ) ^ e ≤ x ∧
      x ≤ (2 : ℚ) ^ (e + 1) ∧ |x - q| ≤ (2 : ℚ) ^ (e - 53) := by
  have n := round64_normal q e he1 (by omega) h1 h2
  refine ⟨_, n.1, ?_, n.2.1, n.2.2.1, n.2.2.2⟩
  have hu : (2 : ℚ) ^ (e - 52) ≠ 0 := by positivity
  refine round64_of_near _ e _ he1 he2 n.2.1 n.2.2.1 ?_
  rw [mul_div_assoc, div_self hu, mul_one, sub_self, abs_zero]
  norm_num

theorem odd_mul_ne_two_pow (m : ℤ) (W k : ℕ) (hm : m % 2 = 1) (hW : W < 2 ^ (k + 1)) :
    m * (W : ℤ) ≠ 2 ^ (k + 1) := by
  intro h
  have hdvd : (W : ℤ) ∣ ((2 ^ (k + 1) : ℕ) : ℤ) := by
    push_cast
    exact Dvd.intro_left m h
  have hdvd2 : W ∣ 2 ^ (k + 1) := Int.natCast_dvd_natCast.mp hdvd
  obtain ⟨j, hj, rfl⟩ := (Nat.dvd_prime_pow Nat.prime_two).mp hdvd2
  have hjk : j ≤ k := by
    by_contra hc
    have hj2 : j = k + 1 := by omega
    rw [hj2] at hW
    exact lt_irrefl _ hW
  have e1 : (2 : ℤ) ^ (k + 1) = 2 ^ j * (2 * 2 ^ (k - j)) := by
    rw [← pow_succ', ← pow_add]
    congr 1
    omega
  push_cast at h
  rw [e1, mul_comm] at h
  have hpos : (2 : ℤ) ^ j ≠ 0 := by positivity
  have h2 := mul_left_cancel₀ hpos h
  generalize (2 : ℤ) ^ (k - j) = y at h2
  omega

/-- The quotient `2 ^ k / W`, for `W` below `2 ^ (k + 1)`, is at least `1 / (2 * W)` away
from the middle between two integers. -/
theorem inv_not_near_tie (W k : ℕ) (n : ℤ) (h0 : 0 < W) (hW : W < 2 ^ (k + 1))
    (h : |(2 : ℚ) ^ k / W - n| ≤ 1 / 2) :
    |(2 : ℚ) ^ k / W - n| ≤ 1 / 2 - 1 / (2 * W) := by
  have hWq : (0 : ℚ) < (W : ℚ) := by exact_mod_cast h0
  have h2W : (0 : ℚ) < 2 * (W : ℚ) := by linarith
  obtain ⟨D, hDdef⟩ : ∃ D : ℤ, D = 2 ^ (k + 1) - 2 * n * (W : ℤ) := ⟨_, rfl⟩
  have hD : (2 : ℚ) ^ k / W - n = (D : ℚ) / (2 * W) := by
    rw [hDdef]
    push_cast
    field_simp
    ring
  rw [hD, abs_div, abs_of_pos h2W] at h ⊢
  have h1 : |(D : ℚ)| ≤ (W : ℚ) := by
    rw [div_le_iff₀ h2W] at h
    linarith
  have h2 : |D| ≤ (W : ℤ) := by exact_mod_cast h1
  have hne1 : D ≠ (W : ℤ) := by
    intro hc
    refine odd_mul_ne_two_pow (2 * n + 1) W k (by omega) hW ?_
    rw [hDdef] at hc
    linarith
  have hne2 : D ≠ -(W : ℤ) := by
    intro hc
    refine odd_mul_ne_two_pow (2 * n - 1) W k (by omega) hW ?_
    rw [hDdef] at hc
    linarith
  have h3 : |D| ≤ (W : ℤ) - 1 := by
    rw [abs_le] at h2 ⊢
    omega
  have h4 : |(D : ℚ)| ≤ (W : ℚ) - 1 := by exact_mod_cast h3
  rw [div_le_iff₀ h2W]
  have e : (1 / 2 - 1 / (2 * (W : ℚ))) * (2 * (W : ℚ)) = (W : ℚ) - 1 := by
    field_simp
  rw [e]
  exact h4

/-- The inverse of a texture dimension: rounding it to binary64 first and to binary32
then gives the `float` that rounding it to binary32 at once gives. -/
theorem round32_round64_inv (W : ℕ) (h0 : 0 < W) (hW : W < 2 ^ 24) :
    ∃ x : ℚ, round64 (1 / (W : ℚ)) = .fin x ∧ round64 x = .fin x ∧
      round32 x = round32 (1 / (W : ℚ)) := by
  have hWq : (0 : ℚ) < (W : ℚ) := by exact_mod_cast h0
  have hWle : (W : ℚ) ≤ 2 ^ 24 := by exact_mod_cast hW.le
  have hW1 : (1 : ℚ) ≤ (W : ℚ) := by exact_mod_cast h0
  obtain ⟨q, hqdef⟩ : ∃ q : ℚ, q = 1 / (W : ℚ) := ⟨_, rfl⟩
  rw [← hqdef]
  have hq : (0 : ℚ) < q := by rw [hqdef]; positivity
  have hqne : q ≠ 0 := ne_of_gt hq
  have habs : |q| = q := abs_of_pos hq
  have hq1 : q ≤ 1 := by
    rw [hqdef, div_le_iff₀ hWq]
    linarith
  have hq2 : (2 : ℚ) ^ (-24 : ℤ) ≤ q := by
    rw [hqdef, zpow_neg, show ((24 : ℤ)) = ((24 : ℕ) : ℤ) by norm_num, zpow_natCast,
      ← one_div]
    exact one_div_le_one_div_of_le hWq hWle
  obtain ⟨e, hedef⟩ : ∃ e : ℤ, e = ilog2 q := ⟨_, rfl⟩
  have b1 : (2 : ℚ) ^ e ≤ q := by
    have := ilog2_le q hqne
    rwa [habs, ← hedef] at this
  have b2 : q < (2 : ℚ) ^ (e + 1) := by
    have := ilog2_lt q hqne
    rwa [habs, ← hedef] at this
  have he1 : -24 ≤ e := by
    rw [hedef]
    exact ilog2_ge_of_le q _ (by rw [habs]; exact hq2)
  have he2 : e < 1 := by
    rw [hedef]
    refine ilog2_lt_of_lt q _ hqne ?_
    rw [habs]
    have : (2 : ℚ) ^ (1 : ℤ) = 2 := by norm_num
    rw [this]
    linarith
  obtain ⟨k, hk⟩ : ∃ k : ℕ, e - 23 = -(k : ℤ) := ⟨(23 - e).toNat, by omega⟩
  have hk23 : 23 ≤ k := by omega
  have hu : (2 : ℚ) ^ (e - 23) = ((2 : ℚ) ^ k)⁻¹ := by
    rw [hk, zpow_neg, zpow_natCast]
  have hqu : q / 2 ^ (e - 23) = (2 : ℚ) ^ k / W := by
    rw [hu, hqdef]
    field_simp
  have hWk : W < 2 ^ (k + 1) :=
    lt_of_lt_of_le hW (Nat.pow_le_pow_right (by norm_num) (by omega))
  obtain ⟨n, hndef⟩ : ∃ n : ℤ, n = rne (q / 2 ^ (e - 23)) := ⟨_, rfl⟩
  have hn0 : |(2 : ℚ) ^ k / W - n| ≤ 1 / 2 := by
    rw [← hqu, hndef, abs_sub_comm]
    exact abs_rne_sub_le _
  have tie := inv_not_near_tie W k n h0 hWk hn0
  have hgap : (1 : ℚ) / 2 ^ 25 < 1 / (2 * (W : ℚ)) := by
    rw [div_lt_div_iff₀ (by positivity) (by positivity)]
    have : (W : ℚ) < 2 ^ 24 := by exact_mod_cast hW
    linarith
  obtain ⟨x, hx, hxx, x1, x2, xe⟩ := round64_near q e (by omega) (by omega) b1 b2
  have r32q : round32 q = .fin ((n : ℚ) * 2 ^ (e - 23)) := by
    refine round32_of_near q e n (by omega) (by omega) b1 b2.le ?_
    rw [hqu]
    have : (0 : ℚ) < 1 / (2 * (W : ℚ)) := by positivity
    linarith
  have r32x : round32 x = .fin ((n : ℚ) * 2 ^ (e - 23)) := by
    refine round32_of_near x e n (by omega) (by omega) x1 x2 ?_
    have hupos : (0 : ℚ) < 2 ^ (e - 23) := by positivity
    have d1 : x / 2 ^ (e - 23) - q / 2 ^ (e - 23) = (x - q) / 2 ^ (e - 23) := by ring
    have d2 : |x / 2 ^ (e - 23) - q / 2 ^ (e - 23)| ≤ 1 / 2 ^ 30 := by
      rw [d1, abs_div, abs_of_pos hupos, div_le_iff₀ hupos]
      have e30 : (1 : ℚ) / 2 ^ 30 * 2 ^ (e - 23) = 2 ^ (e - 53) := by
        rw [show e - 53 = (e - 23) + (-30) by ring, zpow_add₀ (by norm_num : (2 : ℚ) ≠ 0)]
        rw [zpow_neg, show ((30 : ℤ)) = ((30 : ℕ) : ℤ) by norm_num, zpow_natCast]
        ring
      rw [e30]
      exact xe
    rw [hqu] at d2
    rw [abs_le] at d2 tie
    rw [abs_lt]
    have g2 : (1 : ℚ) / 2 ^ 30 < 1 / 2 ^ 25 := by norm_num
    constructor <;> linarith [d2.1, d2.2, tie.1, tie.2]
  exact ⟨x, hx, hxx, r32x.trans r32q.symm⟩

namespace streamfx.gfx.blur

open obs.gs

theorem D_DEG_TO_RAD_zero : D_DEG_TO_RAD (.fin 0) = .fin 0 := by decide!

theorem round64_zero : round64 0 = .fin 0 := by decide!

/-- The first component of `pImageTexel` of the Directional variant at angle 0, where
`cos` is 1: the `float` nearest to `1 / width`, as in the first pass of the Area variant. -/
theorem eval_texel_cos_zero (env : environment) (t : texture)
    (h0 : 0 < env.width t) (h : env.width t < 2 ^ 24) (hcos : env.cos (.fin 0) = .fin 1) :
    (fexpr.float_t (.mul (.div (.lit_d 1) (.float_t (.get_width t)))
        (.cos (.member (.fin 0))))).eval env
      = some (.f32 (round32 (1 / (env.width t : ℚ)))) := by
  obtain ⟨x, hx, hxx, h32⟩ := round32_round64_inv (env.width t) h0 h
  rw [eval_texel_cos env t (.fin 0) h0 h, hcos, hx]
  simp only [double_t.mul_in, mul_one, hxx, double_t.to_float, h32]

/-- The second component of `pImageTexel` of the Directional variant at angle 0, where
`sin` is 0: it is 0. -/
theorem eval_texel_sin_zero (env : environment) (t : texture)
    (h0 : 0 < env.height t) (h : env.height t < 2 ^ 24) (hsin : env.sin (.fin 0) = .fin 0) :
    (fexpr.float_t (.mul (.div (.lit_f 1) (.float_t (.get_height t)))
        (.sin (.member (.fin 0))))).eval env
      = some (.f32 (.fin 0)) := by
  have hHq : (0 : ℚ) < (env.height t : ℚ) := by exact_mod_cast h0
  have hHle : (env.height t : ℚ) ≤ 2 ^ 24 := by exact_mod_cast h.le
  have hH1 : (1 : ℚ) ≤ (env.height t : ℚ) := by exact_mod_cast h0
  have lo : (2 : ℚ) ^ (-126 : ℤ) ≤ 1 / (env.height t : ℚ) := by
    have a : (2 : ℚ) ^ (-126 : ℤ) ≤ (2 : ℚ) ^ (-24 : ℤ) :=
      zpow_le_zpow_right₀ (by norm_num) (by norm_num)
    have b : (2 : ℚ) ^ (-24 : ℤ) ≤ 1 / (env.height t : ℚ) := by
      rw [zpow_neg, show ((24 : ℤ)) = ((24 : ℕ) : ℤ) by norm_num, zpow_natCast, ← one_div]
      exact one_div_le_one_div_of_le hHq hHle
    exact le_trans a b
  have hi : 1 / (env.height t : ℚ) < (2 : ℚ) ^ (127 : ℤ) := by
    have a : 1 / (env.height t : ℚ) ≤ 1 := by
      rw [div_le_iff₀ hHq]
      linarith
    have b : (1 : ℚ) < (2 : ℚ) ^ (127 : ℤ) := by
      have := zpow_lt_zpow_right₀ (by norm_num : (1 : ℚ) < 2) (by norm_num : (0 : ℤ) < 127)
      simpa using this
    linarith
  have n := (round32_normal _ lo hi).1
  rw [eval_texel_sin env t (.fin 0) h0 h, hsin, n]
  simp only [double_t.mul_in, mul_zero, round64_zero, double_t.to_float, round32_zero]

end streamfx.gfx.blur

namespace streamfx.gfx.blur

open obs.gs

/-- C15. Take an Area variant and a Directional variant with the same input texture (of
width and height below `2 ^ 24`), the same size, the same step scale and the same non-null
effect, and call `set_angle(0)` on the Directional one; `cos(0)` is 1 and `sin(0)` is 0.
Then the one draw of the Directional `render()` and the first draw of the Area `render()`
use the same effect and the same technique, `Draw`, find the same blend state and a pass
of the same size, and find the same value in every parameter of the effect: `pImage` is
the input texture, `pImageTexel` is the `float` nearest to `1 / width` and 0, and
`pStepScale`, `pSize` and `pSizeInverseMul` are bound to the same expressions. -/
theorem directional_at_angle_zero_draws_as_area_pass_one (w : world) (a : box)
    (d : box_directional) (input : texture) (e : effect) (g : gs_state) (env : environment)
    (hin_a : a._input_texture = some input)
    (hin_d : d.super._input_texture = some input)
    (heff_a : (w.objects a._data).get_effect = some e)
    (heff_d : (w.objects d.super._data).get_effect = some e)
    (hsize : d.super._size = a._size)
    (hscale : d.super._step_scale = a._step_scale)
    (hw : 0 < env.width input ∧ env.width input < 2 ^ 24)
    (hh : 0 < env.height input ∧ env.height input < 2 ^ 24)
    (hcos : env.cos (.fin 0) = .fin 1)
    (hsin : env.sin (.fin 0) = .fin 0) :
    ∃ (calls_a : List gs_call) (a1 : box) (calls_d : List gs_call) (d1 : box_directional)
        (pass1 pass2 one : draw),
      a.render w = some (calls_a, a1, a1.get) ∧
      (d.set_angle (.fin 0)).render w = some (calls_d, d1, d1.super.get) ∧
      (g.run calls_a).drawn = g.drawn ++ [pass1, pass2] ∧
      (g.run calls_d).drawn = g.drawn ++ [one] ∧
      one.effect = pass1.effect ∧
      one.technique = pass1.technique ∧ pass1.technique = .Draw ∧
      one.blend = pass1.blend ∧
      (∃ width height : fexpr,
        pass1.target = some (a._rendertarget2, width, height) ∧
        one.target = some (d.super._rendertarget, width, height) ∧
        width.eval env = some (.u32 (env.width input)) ∧
        height.eval env = some (.u32 (env.height input))) ∧
      (∀ p : parameter,
        (one.parameters p).bind (uniform.eval env)
          = (pass1.parameters p).bind (uniform.eval env)) ∧
      (∀ p : parameter, p ≠ .pImageTexel → one.parameters p = pass1.parameters p) ∧
      one.parameters .pImage = some (.texture input) ∧
      (one.parameters .pImageTexel).bind (uniform.eval env)
        = some (.float2 (.f32 (round32 (1 / (env.width input : ℚ)))) (.f32 (.fin 0))) ∧
      one.parameters .pStepScale
        = some (.float2 (.float_t (.member a._step_scale.1))
            (.float_t (.member a._step_scale.2))) ∧
      one.parameters .pSize = some (.float (.float_t (.member a._size))) ∧
      one.parameters .pSizeInverseMul
        = some (.float (.float_t (.div (.lit_f 1)
            (.add (.mul (.float_t (.member a._size)) (.lit_f 2)) (.lit_f 1))))) := by
  have ha : a.render w = some ((a.render w).get (by simp [box.render, hin_a, heff_a])) := by
    simp
  generalize (a.render w).get _ = ra at ha
  obtain ⟨calls_a, a1, ta⟩ := ra
  have hd : (d.set_angle (.fin 0)).render w = some (((d.set_angle (.fin 0)).render w).get
      (by simp [box_directional.render, box_directional.set_angle, hin_d, heff_d])) := by
    simp
  generalize ((d.set_angle (.fin 0)).render w).get _ = rd at hd
  obtain ⟨calls_d, d1, td⟩ := rd
  refine ⟨calls_a, a1, calls_d, d1, (g.run (calls_a.take 20)).snapshot e .Draw,
    (g.run (calls_a.take 26)).snapshot e .Draw, (g.run (calls_d.take 20)).snapshot e .Draw, ?_⟩
  simp only [box.render, hin_a, heff_a, Option.some.injEq, Prod.mk.injEq] at ha
  obtain ⟨rfl, rfl, rfl⟩ := ha
  simp only [box_directional.render, box_directional.set_angle, hin_d, heff_d,
    Option.some.injEq, Prod.mk.injEq, D_DEG_TO_RAD_zero] at hd
  obtain ⟨rfl, rfl, rfl⟩ := hd
  have tx := eval_texel_cos_zero env input hw.1 hw.2 hcos
  have ty := eval_texel_sin_zero env input hh.1 hh.2 hsin
  have ax := eval_texel_width env input hw.1 hw.2
  have az := eval_lit_f_zero env
  refine ⟨?_, ?_, ?_, ?_, by simp [gs_state.snapshot], by simp [gs_state.snapshot],
    by simp [gs_state.snapshot], ?_, ?_, ?_, ?_, ?_, ?_, ?_, ?_, ?_⟩
  · simp [box.render, hin_a, heff_a]
    rfl
  · simp [box_directional.render, box_directional.set_angle, hin_d, heff_d, D_DEG_TO_RAD_zero]
    rfl
  · simp [gs_state.run, gs_state.step, gs_state.bind, gs_state.snapshot, two_pass_state]
  · simp [gs_state.run, gs_state.step, gs_state.bind, gs_state.snapshot, one_pass_state]
  · simp [gs_state.run, gs_state.step, gs_state.bind, gs_state.snapshot, two_pass_state,
      one_pass_state]
  · refine ⟨.uint32_t (.float_t (.get_width input)), .uint32_t (.float_t (.get_height input)),
      ?_, ?_, eval_uint32_float_width env input hw.2, eval_uint32_float_height env input hh.2⟩
    · simp [gs_state.run, gs_state.step, gs_state.bind, gs_state.snapshot, two_pass_state]
    · simp [gs_state.run, gs_state.step, gs_state.bind, gs_state.snapshot, one_pass_state]
  · intro p
    cases p <;>
      simp [gs_state.run, gs_state.step, gs_state.bind, gs_state.snapshot, two_pass_state,
        one_pass_state, hsize, hscale, uniform.eval, tx, ty, ax, az]
  · intro p hp
    cases p <;>
      simp [gs_state.run, gs_state.step, gs_state.bind, gs_state.snapshot, two_pass_state,
        one_pass_state, hsize, hscale] at hp ⊢
  · simp [gs_state.run, gs_state.step, gs_state.bind, gs_state.snapshot, one_pass_state]
  · simp [gs_state.run, gs_state.step, gs_state.bind, gs_state.snapshot, one_pass_state,
      uniform.eval, tx, ty]
  · simp [gs_state.run, gs_state.step, gs_state.bind, gs_state.snapshot, one_pass_state,
      hscale]
  · simp [gs_state.run, gs_state.step, gs_state.bind, gs_state.snapshot, one_pass_state,
      hsize]
  · simp [gs_state.run, gs_state.step, gs_state.bind, gs_state.snapshot, one_pass_state,
      hsize]

end streamfx.gfx.blur

namespace streamfx.gfx.blur

open obs.gs

/-- Witness of C15: the Area variant and the Directional variant made one after the other
at process start, which share their `box_data`, with the same input texture of 1920 by
1080 bound. -/
theorem directional_at_angle_zero_draws_as_area_pass_one_witness :
    ∃ (calls_a calls_d : List gs_call) (pass1 pass2 one : draw),
      ((gs_state.idle { enabled := true, src := .GS_BLEND_ONE, dest := .GS_BLEND_ZERO }).run
          calls_a).drawn
        = (gs_state.idle { enabled := true, src := .GS_BLEND_ONE, dest := .GS_BLEND_ZERO }).drawn
          ++ [pass1, pass2] ∧
      ((gs_state.idle { enabled := true, src := .GS_BLEND_ONE, dest := .GS_BLEND_ZERO }).run
          calls_d).drawn
        = (gs_state.idle { enabled := true, src := .GS_BLEND_ONE, dest := .GS_BLEND_ZERO }).drawn
          ++ [one] ∧
      one.technique = pass1.technique ∧
      ∀ p : parameter,
        (one.parameters p).bind (uniform.eval (environment.sample 1920 1080))
          = (pass1.parameters p).bind (uniform.eval (environment.sample 1920 1080)) := by
  obtain ⟨ca, _, cd, _, p1, p2, o, _, _, h3, h4, _, h6, _, _, _, h10, _⟩ :=
    directional_at_angle_zero_draws_as_area_pass_one
      (box_directional.new (box.new (world.start true)).2).2
      ((box.new (world.start true)).1.set_input (some { object := 100, version := 0 }))
      { (box_directional.new (box.new (world.start true)).2).1 with
        super := (box_directional.new (box.new (world.start true)).2).1.super.set_input
          (some { object := 100, version := 0 }) }
      { object := 100, version := 0 }
      { object := 0 }
      (gs_state.idle { enabled := true, src := .GS_BLEND_ONE, dest := .GS_BLEND_ZERO })
      (environment.sample 1920 1080)
      rfl rfl (by decide) (by decide) rfl rfl (by decide) (by decide) (by decide) (by decide)
  exact ⟨ca, cd, p1, p2, o, h3, h4, h6, h10⟩

end streamfx.gfx.blur
